import Mathlib

/-!
Verification of the zepto8 PICO-8 cartridge codec (src/pico8/cart.cpp and
src/pico8/memory.h) against its natural-language specification.

The development shallowly embeds the cartridge data model and the
load/save operations.  Text is modelled as a list of byte values
(`List Nat`, each element < 256), the memory layout as a structure of
per-region byte lists, and the imperative loaders as pure functions that
return a success flag together with the resulting cartridge state.
C bit-field reads and writes are translated to explicit shift/mask
arithmetic using the little-endian bit allocation that the compilers
targeted by zepto8 use.
-/

namespace Zepto8

/-! ## Bit-arithmetic toolkit

Small general lemmas that relate the C bitwise operators used by the
source (`&`, `|`, `<<`, `>>`) to arithmetic on `Nat`. -/

theorem land_mask_shift (x m s : Nat) :
    x &&& (m <<< s) = ((x >>> s) &&& m) <<< s := by
  apply Nat.eq_of_testBit_eq
  intro i
  rcases Nat.lt_or_ge i s with h | h
  · simp [Nat.testBit_shiftLeft, Nat.not_le.mpr h]
  · have hs : s + (i - s) = i := by omega
    simp [Nat.testBit_shiftLeft, Nat.testBit_shiftRight, Nat.le_of_eq rfl, h, hs,
      Bool.and_comm, Bool.and_left_comm]

theorem land_shift_extract (x m s : Nat) :
    (x &&& (m <<< s)) >>> s = (x >>> s) &&& m := by
  rw [land_mask_shift, Nat.shiftLeft_shiftRight]

theorem shiftRight_div (x s : Nat) : x >>> s = x / 2 ^ s :=
  Nat.shiftRight_eq_div_pow x s

theorem shiftLeft_mul (x s : Nat) : x <<< s = x * 2 ^ s :=
  Nat.shiftLeft_eq x s

theorem land_mod (x k : Nat) : x &&& (2 ^ k - 1) = x % 2 ^ k :=
  Nat.and_pow_two_sub_one_eq_mod x k

theorem lor_disjoint (a b i : Nat) (h : b < 2 ^ i) :
    (a <<< i) ||| b = a * 2 ^ i + b := by
  rw [shiftLeft_mul, Nat.mul_comm, Nat.mul_add_lt_is_or h a, Nat.mul_comm]

/-! ## Bytes and hex characters -/

/-- Converts a Lean string of ASCII characters to the byte list that the
C++ code sees. -/
def asc (s : String) : List Nat := s.data.map Char.toNat

/-- Predicate on a byte: is it an ASCII decimal digit. -/
def isDigitB (b : Nat) : Bool := 48 ≤ b && b ≤ 57

/-- Predicate on a byte: does it satisfy the hex-digit guard of the data
action in cart.cpp (characters a-f, A-F, 0-9). -/
def isHexB (b : Nat) : Bool :=
  (97 ≤ b && b ≤ 102) || (65 ≤ b && b ≤ 70) || (48 ≤ b && b ≤ 57)

/-- Numeric value of a hex digit byte (0 for non-digits, matching what
strtoul would contribute for an invalid character). -/
def hexVal (b : Nat) : Nat :=
  if 97 ≤ b && b ≤ 102 then b - 87
  else if 65 ≤ b && b ≤ 70 then b - 55
  else if 48 ≤ b && b ≤ 57 then b - 48
  else 0

/-- Bytes that the C library treats as whitespace, skipped by strtoul. -/
def isSpaceB (b : Nat) : Bool :=
  b == 32 || b == 9 || b == 10 || b == 11 || b == 12 || b == 13

/-- Value of strtoul(str, nullptr, 16) on the two-character buffer built
by the data action of cart.cpp: leading whitespace is skipped, then hex
digits are consumed until the first non-digit.  The second slot is
`none` when the pair straddles the end of the input (the C code then
reads the NUL terminator). -/
def strtoul2 (c1 : Nat) (c2 : Option Nat) : Nat :=
  let d2 := fun (v : Nat) =>
    match c2 with
    | some c => if isHexB c then v * 16 + hexVal c else v
    | none => v
  if isHexB c1 then d2 (hexVal c1)
  else if isSpaceB c1 then
    match c2 with
    | some c => if isHexB c then hexVal c else 0
    | none => 0
  else 0

/-- Decodes the character stream of a hex-mode section data block,
mirroring the byte loop of p8_reader::action<r_data> in cart.cpp: a
character passing the hex-digit guard consumes itself and its successor
through strtoul (with the pair reversed in the nibble-swapped gfx mode);
any other character is skipped. -/
def decodeHex (swapped : Bool) : List Nat → List Nat
  | [] => []
  | c :: rest =>
    if isHexB c then
      match rest with
      | [] => [strtoul2 (if swapped then 0 else c) (if swapped then some c else none)]
      | c2 :: rest2 =>
        (if swapped then strtoul2 c2 (some c) else strtoul2 c (some c2)) ::
          decodeHex swapped rest2
    else decodeHex swapped rest

/-- Decodes the character stream of the base-32 label section, mirroring
the base32 branch of p8_reader::action<r_data> in cart.cpp. -/
def decodeBase32 : List Nat → List Nat
  | [] => []
  | c :: rest =>
    if 48 ≤ c && c ≤ 57 then (c - 48) :: decodeBase32 rest
    else if 97 ≤ c && c ≤ 118 then (c - 97 + 10) :: decodeBase32 rest
    else if 65 ≤ c && c ≤ 86 then (c - 65 + 10) :: decodeBase32 rest
    else decodeBase32 rest

/-! ## Memory layout (src/pico8/memory.h)

The C `memory` struct is an address-mapped union of typed regions.  We
model it as a structure of per-region byte lists; the gfx/map2 aliasing
of the leading union is expressed by `Mem.map2` reading the upper half
of the gfx region, exactly as the C union lays the two variants over
the same bytes. -/

structure Mem where
  gfx : List Nat
  map : List Nat
  gfx_props : List Nat
  song : List Nat
  sfx : List Nat
  user_data : List Nat
  persistent : List Nat
  draw_state : List Nat
  hw_state : List Nat
  gpio_pins : List Nat
  screen : List Nat

/-- Well-formedness: every region has the size fixed by the struct
layout and holds byte values. -/
structure Mem.wf (m : Mem) : Prop where
  gfx_len : m.gfx.length = 0x2000
  map_len : m.map.length = 0x1000
  props_len : m.gfx_props.length = 0x100
  song_len : m.song.length = 0x100
  sfx_len : m.sfx.length = 0x1100
  user_len : m.user_data.length = 0x1b00
  pers_len : m.persistent.length = 0x100
  draw_len : m.draw_state.length = 0x40
  hw_len : m.hw_state.length = 0x40
  gpio_len : m.gpio_pins.length = 0x80
  screen_len : m.screen.length = 0x2000
  gfx_lt : ∀ b ∈ m.gfx, b < 256
  map_lt : ∀ b ∈ m.map, b < 256
  props_lt : ∀ b ∈ m.gfx_props, b < 256
  song_lt : ∀ b ∈ m.song, b < 256
  sfx_lt : ∀ b ∈ m.sfx, b < 256

/-- Serialized byte stream of the whole memory layout, in struct order
(what `(uint8_t *)this` exposes in C). -/
def Mem.bytes (m : Mem) : List Nat :=
  m.gfx ++ m.map ++ m.gfx_props ++ m.song ++ m.sfx ++ m.user_data ++
    m.persistent ++ m.draw_state ++ m.hw_state ++ m.gpio_pins ++ m.screen

/-- Extracts `sz` bytes at offset `off` of a byte stream. -/
def extract (l : List Nat) (off sz : Nat) : List Nat := (l.drop off).take sz

/-- The `map2` member of the union's second variant: it occupies bytes
0x1000..0x2000, i.e. the upper half of the gfx region. -/
def Mem.map2 (m : Mem) : List Nat := m.gfx.drop 0x1000

/-- The absolute byte accessor memory::operator[]. -/
def Mem.read (m : Mem) (n : Nat) : Nat := m.bytes.getD n 0

/-- Address computed by the extended map accessor
`b[(n ^ 0x1000) - 0x1000]`, where `b` sits at absolute offset 0x2000;
the C index arithmetic is signed, hence the `Int` detour. -/
def mapAddr (n : Nat) : Int := 0x2000 + (((n ^^^ 0x1000 : Nat) : Int) - 0x1000)

/-- The extended map accessor memory::map::operator[]; the assert
`n >= 0 && n < 0x2000` is modelled by returning `none` outside the
asserted range. -/
def Mem.mapRead (m : Mem) (n : Nat) : Option Nat :=
  if n < 0x2000 then some (m.read (mapAddr n).toNat) else none

/-- A fully zeroed memory layout (what `memset(&m_rom, 0, sizeof(m_rom))`
produces). -/
def zeroMem : Mem :=
  ⟨List.replicate 0x2000 0, List.replicate 0x1000 0, List.replicate 0x100 0,
   List.replicate 0x100 0, List.replicate 0x1100 0, List.replicate 0x1b00 0,
   List.replicate 0x100 0, List.replicate 0x40 0, List.replicate 0x40 0,
   List.replicate 0x80 0, List.replicate 0x2000 0⟩

/-- Rebuilds a memory layout from a serialized byte stream
(`memcpy(&m_rom, bytes.data(), sizeof(m_rom))`). -/
def memOfBytes (l : List Nat) : Mem :=
  ⟨extract l 0 0x2000, extract l 0x2000 0x1000, extract l 0x3000 0x100,
   extract l 0x3100 0x100, extract l 0x3200 0x1100, extract l 0x4300 0x1b00,
   extract l 0x5e00 0x100, extract l 0x5f00 0x40, extract l 0x5f40 0x40,
   extract l 0x5f80 0x80, extract l 0x6000 0x2000⟩

/-! ## Cartridge façade -/

/-- Modelled from the spec: the emitted decimal version constant
(PICO8_VERSION, defined outside the shown sources); its exact value is
immaterial to every claim, only that it is a fixed natural number. -/
def PICO8_VERSION : Nat := 8

/-- Modelled from the spec: the label sub-image dimensions and offsets
(LABEL_WIDTH/HEIGHT/X/Y, defined outside the shown sources). -/
def LABEL_WIDTH : Nat := 128

/-- Modelled from the spec: see LABEL_WIDTH. -/
def LABEL_HEIGHT : Nat := 128

/-- Modelled from the spec: see LABEL_WIDTH. -/
def LABEL_X : Nat := 16

/-- Modelled from the spec: see LABEL_WIDTH. -/
def LABEL_Y : Nat := 24

/-- Modelled from the spec: the charset remapping between the console's
8-bit character set and Unicode is an out-of-scope collaborator assumed
to round-trip exactly, so it is modelled as the identity on byte text. -/
def utf8_to_pico8 (s : List Nat) : List Nat := s

/-- Modelled from the spec: see utf8_to_pico8. -/
def pico8_to_utf8 (s : List Nat) : List Nat := s

/-- The cartridge aggregate: one memory layout, the decoded script text
and the label pixel indices. -/
structure Cart where
  rom : Mem
  code : List Nat
  label : List Nat

/-- Replaces CRLF by LF, as std::regex_replace(s, regex("\r\n"), "\n"). -/
def crlfToLf : List Nat → List Nat
  | 13 :: 10 :: rest => 10 :: crlfToLf rest
  | c :: rest => c :: crlfToLf rest
  | [] => []

/-- Resize semantics of std::vector<uint8_t>::resize: truncate or pad
with zeros to the requested length. -/
def resizeTo (l : List Nat) (n : Nat) : List Nat :=
  l.take n ++ List.replicate (n - l.length) 0

/-- cart::set_bin — copies a serialized binary container into the rom
and decompresses the code region (code_t spans 0x3d00 bytes from offset
0x4300).  The compressor is an out-of-scope collaborator passed as a
function argument. -/
def setBin (decompress : List Nat → List Nat) (c : Cart) (bytes : List Nat) : Cart :=
  let rom := memOfBytes bytes
  { c with rom := rom, code := decompress (extract bytes 0x4300 0x3d00) }

/-- cart::load_lua — `file` is the result of the I/O collaborator
(`none` models a read failure). -/
def loadLua (c : Cart) (file : Option (List Nat)) : Bool × Cart :=
  match file with
  | none => (false, c)
  | some s => (true, { c with code := utf8_to_pico8 (crlfToLf s), rom := zeroMem })

/-- Per-pixel steganographic extraction of cart::load_png: scale each
8-bit channel by 64 (wrapping), then byte = a + r/4 + g/16 + b/64.
Pixels are (r, g, b, a) tuples of 8-bit values. -/
def decodePix (px : Nat × Nat × Nat × Nat) : Nat :=
  (px.2.2.2 * 64 % 256 + px.1 * 64 % 256 / 4 + px.2.1 * 64 % 256 / 16 +
    px.2.2.1 * 64 % 256 / 64) % 256

/-- Per-pixel steganographic embedding of cart::save_png: the byte's
2-bit fields go to the low 2 bits of each channel, the carrier's upper
6 bits are preserved. -/
def encodePix (v : Nat) (px : Nat × Nat × Nat × Nat) : Nat × Nat × Nat × Nat :=
  ((px.1 / 4 * 4 + (v &&& 0x30) / 16) % 256,
   (px.2.1 / 4 * 4 + (v &&& 0x0c) / 4) % 256,
   (px.2.2.1 / 4 * 4 + (v &&& 0x03) / 1) % 256,
   (px.2.2.2 / 4 * 4 + (v &&& 0xc0) / 64) % 256)

/-- cart::load_png — `png` is the result of the lodepng collaborator
(`none` models a decode error), `palette_best` the external
nearest-palette-match.  Mirrors the source's order: dimension check,
byte extraction, label extraction, then set_bin. -/
def loadPng (decompress : List Nat → List Nat)
    (palette_best : Nat × Nat × Nat × Nat → Nat) (c : Cart)
    (png : Option (Nat × Nat × List (Nat × Nat × Nat × Nat))) : Bool × Cart :=
  match png with
  | none => (false, c)
  | some (w, h, pixels) =>
    if w * h ≠ 160 * 205 then (false, c)
    else
      let bytes := (List.range (0x8000 + 5)).map
        (fun n => decodePix (pixels.getD n (0, 0, 0, 0)))
      let lbl := (List.range (LABEL_HEIGHT * LABEL_WIDTH)).map
        (fun i =>
          palette_best (pixels.getD ((i / LABEL_WIDTH + LABEL_Y) * w +
            (i % LABEL_WIDTH + LABEL_X)) (0, 0, 0, 0)))
      let c1 :=
        if LABEL_WIDTH + LABEL_X ≤ w ∧ LABEL_HEIGHT + LABEL_Y ≤ h then
          { c with label := lbl }
        else c
      (true, setBin decompress c1 bytes)

/-- Index of the first occurrence of `pat` in `l`, as std::string::find. -/
def findSub (pat l : List Nat) : Option Nat :=
  (List.range (l.length + 1)).find? (fun i => pat.isPrefixOf (l.drop i))

/-- cart::load_js — the QuickJS engine is an out-of-scope collaborator:
`jsParse` maps the bracketed snippet to `some` array of unsigned values
when JS_ParseJSON succeeds and the value is an array, else `none`. -/
def loadJs (decompress : List Nat → List Nat) (c : Cart)
    (file : Option (List Nat)) (jsParse : List Nat → Option (List Nat)) :
    Bool × Cart :=
  match file with
  | none => (false, c)
  | some s =>
    match findSub (asc "var _cartdat=") s with
    | none => (false, c)
    | some i =>
      match findSub (asc "[") (s.drop i) with
      | none => (false, c)
      | some b0 =>
        let b := b0 + i
        match findSub (asc "]") (s.drop b) with
        | none => (false, c)
        | some e0 =>
          let e := e0 + b
          match jsParse (extract s b (e + 1 - b)) with
          | none => (false, c)
          | some arr =>
            let bytes := (List.range (0x8000 + 5)).map
              (fun i => if i < arr.length then arr.getD i 0 % 256 else 0)
            (true, setBin decompress c bytes)

/-- cart::get_bin — serialize the rom up to the code region, append the
compressed code, resize to sizeof(memory) and append the version byte.
The compressor is an out-of-scope collaborator passed as an argument. -/
def getBin (compress : List Nat → List Nat) (c : Cart) : List Nat :=
  let data := c.rom.bytes.take 0x4300
  let compressed := compress c.code
  resizeTo (data ++ compressed) 0x8000 ++ [PICO8_VERSION]

/-! ## Section packing (load_p8, lines 406-459 of cart.cpp) -/

/-- Song entry decoding of load_p8: five source bytes give the four
data bytes of one song entry; the low four bits of byte 0 are shifted
into bit 7 of the respective destination bytes. -/
def musicDecode (b0 b1 b2 b3 b4 : Nat) : List Nat :=
  [b1 ||| ((b0 <<< 7) &&& 0x80),
   b2 ||| ((b0 <<< 6) &&& 0x80),
   b3 ||| ((b0 <<< 5) &&& 0x80),
   b4 ||| ((b0 <<< 4) &&& 0x80)]

/-- Builds the 0x100-byte song region from the decoded music section
buffer, mirroring the song loop of load_p8 over a zeroed rom. -/
def songRegion (mus : List Nat) : List Nat :=
  let count := min (0x100 / 4) (mus.length / 5)
  (List.range count).flatMap
    (fun i => musicDecode (mus.getD (i * 5) 0) (mus.getD (i * 5 + 1) 0)
      (mus.getD (i * 5 + 2) 0) (mus.getD (i * 5 + 3) 0) (mus.getD (i * 5 + 4) 0)) ++
  List.replicate (0x100 - 4 * count) 0

/-- The realigned 20-bit note word read by load_p8 for note `j` of sfx
entry `i` from the decoded sfx section buffer. -/
def sfxNoteWord (buf : List Nat) (i j : Nat) : Nat :=
  let ins := (buf.getD (4 + i * 84 + j * 5 / 2) 0) <<< 16 |||
             (buf.getD (4 + i * 84 + j * 5 / 2 + 1) 0) <<< 8 |||
             (buf.getD (4 + i * 84 + j * 5 / 2 + 2) 0)
  if j % 2 = 1 then ins &&& 0xfffff else ins >>> 4

/-- Field extraction from a 20-bit note word (load_p8 lines 449-452). -/
def noteFields (ins : Nat) : Nat × Nat × Nat × Nat :=
  ((ins &&& 0x3f000) >>> 12, (ins &&& 0x700) >>> 8, (ins &&& 0x70) >>> 4,
   ins &&& 0xf)

/-- Byte image of a note_t bit-field write (key:6, instrument:3,
volume:3, effect:4 over a little-endian uint16). -/
def noteBytes (k i v e : Nat) : List Nat :=
  [k % 64 + i % 8 % 4 * 64, i % 8 / 4 + v % 8 * 2 + e % 16 * 16]

/-- The 68 bytes of one sfx entry as load_p8 reconstructs them: 32
two-byte notes followed by the four control bytes. -/
def sfxEntry (buf : List Nat) (i : Nat) : List Nat :=
  (List.range 32).flatMap (fun j =>
    let f := noteFields (sfxNoteWord buf i j)
    noteBytes f.1 f.2.1 f.2.2.1 f.2.2.2) ++
  [buf.getD (i * 84) 0, buf.getD (i * 84 + 1) 0,
   buf.getD (i * 84 + 2) 0, buf.getD (i * 84 + 3) 0]

/-- Builds the 0x1100-byte sfx region from the decoded sfx section
buffer, mirroring the sfx loop of load_p8 over a zeroed rom. -/
def sfxRegion (buf : List Nat) : List Nat :=
  let count := min (0x1100 / 68) (buf.length / 84)
  (List.range count).flatMap (sfxEntry buf) ++
  List.replicate (0x1100 - 68 * count) 0

/-- The memcpy(dst, src, n) pattern on whole regions. -/
def memcpyList (dst src : List Nat) (n : Nat) : List Nat :=
  src.take n ++ dst.drop n

/-- The OR-merge of a legacy second map block into map2 (the upper half
of the gfx region), load_p8 lines 413-422. -/
def orMergeMap2 (gfx mapbuf : List Nat) : List Nat :=
  if 0x1000 < mapbuf.length then
    let count := min 0x1000 (mapbuf.length - 0x1000)
    gfx.mapIdx (fun idx b =>
      if 0x1000 ≤ idx ∧ idx < 0x1000 + count then b ||| mapbuf.getD idx 0 else b)
  else gfx

/-! ## The p8 text reader (struct p8_reader of cart.cpp)

The PEGTL grammar is line-oriented: after the two header lines, the
input is a sequence of lines, each either a section-marker line
(`r_section_line`) or a data line accumulated under the current
section.  `pegtl::eol` accepts both LF and CRLF, so a line's content
never contains its terminator. -/

/-- Splits a byte stream into (content, terminated?) lines; a line ends
at LF or CRLF (pegtl::eolf), and input exhaustion closes a final
unterminated line.  No line is produced at end of input. -/
def splitEolGo (cur : List Nat) : List Nat → List (List Nat × Bool)
  | [] => if cur.isEmpty then [] else [(cur.reverse, false)]
  | c :: rest =>
    if c = 10 then (cur.reverse, true) :: splitEolGo [] rest
    else if c = 13 ∧ rest.head? = some 10 then
      (cur.reverse, true) :: splitEolGo [] rest.tail
    else splitEolGo (c :: cur) rest
termination_by s => s.length
decreasing_by
  · simp
  · simp [List.length_tail]
    omega
  · simp

/-- Entry point of the line splitter. -/
def splitEol (s : List Nat) : List (List Nat × Bool) := splitEolGo [] s

/-- Consumes up to and including the next end of line
(pegtl::until<pegtl::eol>); `none` when no end of line remains. -/
def dropThroughEol : List Nat → Option (List Nat)
  | [] => none
  | c :: rest =>
    if c = 10 then some rest
    else if c = 13 ∧ rest.head? = some 10 then some rest.tail
    else dropThroughEol rest

/-- ASCII alphanumeric, as pegtl::alnum. -/
def isAlnumB (b : Nat) : Bool :=
  (48 ≤ b && b ≤ 57) || (65 ≤ b && b ≤ 90) || (97 ≤ b && b ≤ 122)

/-- The seven literal section markers, in the priority order of
r_section_name's ordered choice. -/
def sectionLits : List (List Nat) :=
  [asc "__lua__", asc "__gfx__", asc "__gff__", asc "__map__",
   asc "__sfx__", asc "__music__", asc "__label__"]

/-- Decides whether a line is a section-marker line (r_section_line =
r_section_name then eolf) and returns the matched marker text.  PEG
ordered choice commits to the first literal that is a prefix; the
generic fallback r_any matches a line that is exactly two underscores,
a maximal nonempty alphanumeric run, and two underscores. -/
def markerOf (line : List Nat) : Option (List Nat) :=
  match sectionLits.find? (fun lit => lit.isPrefixOf line) with
  | some lit => if line = lit then some line else none
  | none =>
    if line.take 2 = [95, 95] then
      let w := (line.drop 2).takeWhile isAlnumB
      if w.length ≠ 0 && ((line.drop 2).drop w.length == [95, 95]) then
        some line
      else none
    else none

/-- Parser sections (enum p8_reader::section); `header` doubles as the
state before the first marker, whose data is ignored. -/
inductive PSection
  | header | lua | gfx | gff | map | sfx | mus | lab | err
deriving DecidableEq

/-- Substring containment, as std::string::find != npos. -/
def containsSub (pat l : List Nat) : Bool :=
  (List.range (l.length + 1)).any (fun i => pat.isPrefixOf (l.drop i))

/-- Section dispatch by substring containment over the marker text, in
the priority order of p8_reader::action<r_section_name>. -/
def dispatch (name : List Nat) : PSection :=
  if containsSub (asc "lua") name then .lua
  else if containsSub (asc "gfx") name then .gfx
  else if containsSub (asc "gff") name then .gff
  else if containsSub (asc "map") name then .map
  else if containsSub (asc "sfx") name then .sfx
  else if containsSub (asc "music") name then .mus
  else if containsSub (asc "label") name then .lab
  else .err

/-- Parser output state (the fields of p8_reader that load_p8 reads):
the version, the accumulated script text and one decoded buffer per
known section. -/
structure Reader where
  version : Int := -1
  code : List Nat := []
  gfx : List Nat := []
  gff : List Nat := []
  map : List Nat := []
  sfx : List Nat := []
  mus : List Nat := []
  lab : List Nat := []

/-- The raw characters of one matched data line as the r_data action
sees them (content plus its normalized terminator). -/
def lineChars (content : List Nat) (term : Bool) : List Nat :=
  content ++ (if term then [10] else [])

/-- Applies the r_data action for one data line under the current
section: lua lines join the script text (CRLF normalized), label lines
decode base-32, gfx lines decode nibble-swapped hex, remaining known
sections decode plain hex; header/unknown data never surfaces. -/
def appendData (r : Reader) (sec : PSection) (chars : List Nat) : Reader :=
  match sec with
  | .lua => { r with code := r.code ++ crlfToLf chars }
  | .gfx => { r with gfx := r.gfx ++ decodeHex true chars }
  | .gff => { r with gff := r.gff ++ decodeHex false chars }
  | .map => { r with map := r.map ++ decodeHex false chars }
  | .sfx => { r with sfx := r.sfx ++ decodeHex false chars }
  | .mus => { r with mus := r.mus ++ decodeHex false chars }
  | .lab => { r with lab := r.lab ++ decodeBase32 chars }
  | .header => r
  | .err => r

/-- Folds the body lines: marker lines switch the current section, data
lines are decoded under it. -/
def processLines (r : Reader) (sec : PSection) :
    List (List Nat × Bool) → Reader
  | [] => r
  | (content, term) :: rest =>
    match markerOf content with
    | some name => processLines r (dispatch name) rest
    | none => processLines (appendData r sec (lineChars content term)) sec rest

/-- Value of atoi on a digit string (empty gives 0). -/
def natOfDigits (ds : List Nat) : Nat :=
  ds.foldl (fun a d => a * 10 + (d - 48)) 0

/-- Decimal digit characters of a natural number, as %d formatting. -/
def decimalDigits (n : Nat) : List Nat := asc (toString n)

/-- p8_reader::parse — the whole r_file grammar.  A failed parse leaves
the reader with whatever actions had already applied: in particular the
version action runs as soon as the digit run matches, even when the
rest of the header line later fails. -/
def parseP8 (s : List Nat) : Reader :=
  let s1 := if [0xef, 0xbb, 0xbf].isPrefixOf s then s.drop 3 else s
  if (asc "pico-8 cartridge").isPrefixOf s1 then
    match dropThroughEol (s1.drop 16) with
    | none => {}
    | some s2 =>
      if (asc "version ").isPrefixOf s2 then
        let s3 := s2.drop 8
        let ds := s3.takeWhile isDigitB
        let v : Int := (natOfDigits ds : Nat)
        match dropThroughEol (s3.drop ds.length) with
        | none => { version := v }
        | some body => processLines { version := v } PSection.header (splitEol body)
      else {}
  else {}

/-- The commit step of cart::load_p8: pack the reader's section buffers
into a zeroed rom (memset then the per-section copies/merges/decodes of
lines 387-466 of cart.cpp). -/
def loadP8Pack (r : Reader) : Cart :=
  let code := utf8_to_pico8 r.code
  let gfx1 := memcpyList (List.replicate 0x2000 0) r.gfx
    (min 0x2000 r.gfx.length)
  let gfx2 := orMergeMap2 gfx1 r.map
  let props := memcpyList (List.replicate 0x100 0) r.gff
    (min 0x100 r.gff.length)
  let mapR := memcpyList (List.replicate 0x1000 0) r.map
    (min 0x1000 r.map.length)
  let rom : Mem :=
    { gfx := gfx2, map := mapR, gfx_props := props,
      song := songRegion r.mus, sfx := sfxRegion r.sfx,
      user_data := List.replicate 0x1b00 0,
      persistent := List.replicate 0x100 0,
      draw_state := List.replicate 0x40 0,
      hw_state := List.replicate 0x40 0,
      gpio_pins := List.replicate 0x80 0,
      screen := List.replicate 0x2000 0 }
  let lbl := r.lab.take (min r.lab.length (LABEL_WIDTH * LABEL_HEIGHT))
  { rom := rom, code := code, label := lbl }

/-- cart::load_p8 — parse, check the version, then pack.  `file` is the
I/O collaborator's result (`none`: read failure). -/
def loadP8 (c : Cart) (file : Option (List Nat)) : Bool × Cart :=
  match file with
  | none => (false, c)
  | some s =>
    let r := parseP8 s
    if r.version < 0 then (false, c)
    else (true, loadP8Pack r)

/-! ## The p8 text writer (cart::save_p8) -/

/-- The trimming scan of save_p8: the ascending loop over a region's
bytes leaves 1 + i/stride for the last nonzero index i (0 lines when
the region is all zero). -/
def lineCount (bytes : List Nat) (stride : Nat) : Nat :=
  (List.range bytes.length).foldl
    (fun acc i => if bytes.getD i 0 ≠ 0 then 1 + i / stride else acc) 0

/-- Hex digit character of a value below 16, as %x formatting. -/
def hexDigitCh (d : Nat) : Nat := if d < 10 then 48 + d else 87 + d

/-- Two-character %02x rendering of a byte. -/
def hex2 (v : Nat) : List Nat := [hexDigitCh (v / 16), hexDigitCh (v % 16)]

/-- One data line of the gfx section as save_p8 emits it:
64 nibble-swapped %02x bytes and a newline. -/
def gfxLineBody (gfx : List Nat) (line : Nat) : List Nat :=
  (List.range 64).flatMap
    (fun i => hex2 (gfx.getD (line * 64 + i) 0 * 0x101 / 0x10 % 256)) ++ [10]

/-- The gfx section emitted by save_p8: nibble-swapped hex lines of 64
bytes, only up to the last line with nonzero content. -/
def saveGfxLines (gfx : List Nat) : List Nat :=
  (List.range (lineCount gfx 64)).flatMap (fun line =>
    (if line = 0 then asc "__gfx__\n" else []) ++ gfxLineBody gfx line)

/-- The label section emitted by save_p8 (base-32, only when the label
holds a full image). -/
def saveLabelLines (label : List Nat) : List Nat :=
  if LABEL_WIDTH * LABEL_HEIGHT ≤ label.length then
    asc "__label__\n" ++
    (List.range (LABEL_WIDTH * LABEL_HEIGHT)).flatMap (fun i =>
      [(asc "0123456789abcdefghijklmnopqrstuv").getD (label.getD i 0 &&& 0x1f) 0] ++
      (if (i + 1) % LABEL_WIDTH = 0 then [10] else [])) ++
    [10]
  else []

/-- One data line of the plain-hex sections (gff, map) as save_p8
emits it: 128 %02x bytes and a newline. -/
def hexLineBody (bytes : List Nat) (line : Nat) : List Nat :=
  (List.range 128).flatMap (fun i => hex2 (bytes.getD (128 * line + i) 0)) ++ [10]

/-- The gff section emitted by save_p8: hex lines of 128 bytes, trimmed. -/
def saveGffLines (props : List Nat) : List Nat :=
  (List.range (lineCount props 128)).flatMap (fun line =>
    (if line = 0 then asc "__gff__\n" else []) ++ hexLineBody props line)

/-- The map section emitted by save_p8: hex lines of 128 bytes of the
map region only (map2 overlaps gfx and is serialized there), trimmed. -/
def saveMapLines (mapR : List Nat) : List Nat :=
  (List.range (lineCount mapR 128)).flatMap (fun line =>
    (if line = 0 then asc "__map__\n" else []) ++ hexLineBody mapR line)

/-- One data line of the sfx section as save_p8 emits it for one
68-byte entry (accessed through `data`): the four control bytes then 32
notes at five hex digits each, reading the note fields out of the
packed note bytes, and a newline. -/
def sfxLineBody (data : Nat → Nat) : List Nat :=
  hex2 (data 64) ++ hex2 (data 65) ++ hex2 (data 66) ++ hex2 (data 67) ++
  (List.range 32).flatMap (fun t =>
    let j := 2 * t
    let pitch := data j &&& 0x3f
    let instrument := ((data (j + 1) <<< 2) &&& 0x4) ||| (data j >>> 6)
    let volume := (data (j + 1) >>> 1) &&& 0x7
    let effect := (data (j + 1) >>> 4) &&& 0xf
    hex2 pitch ++ [hexDigitCh instrument, hexDigitCh volume, hexDigitCh effect]) ++
  [10]

/-- The sfx section emitted by save_p8, trimmed to the last entry with
nonzero content. -/
def saveSfxLines (sfxR : List Nat) : List Nat :=
  (List.range (lineCount sfxR 68)).flatMap (fun line =>
    (if line = 0 then asc "__sfx__\n" else []) ++
    sfxLineBody (fun j => sfxR.getD (line * 68 + j) 0))

/-- Modelled from the spec: song_t::sfx (defined outside the shown
sources) masks a data byte to its 7-bit sound-effect index, §4.4's
"masking the remaining bytes to 7 bits". -/
def songSfx (b : Nat) : Nat := b &&& 0x7f

/-- The flags byte of one emitted music line: the four bit-field flag
reads (bit 7 of each data byte) packed into the low nibble. -/
def musicFlags (d : Nat → Nat) : Nat :=
  (d 0 >>> 7) ||| ((d 1 >>> 7) <<< 1) ||| ((d 2 >>> 7) <<< 2) ||| ((d 3 >>> 7) <<< 3)

/-- One data line of the music section as save_p8 emits it for one
4-byte song entry (accessed through `d`): the flags byte, a space, the
four 7-bit indices, and a newline. -/
def musicLineBody (d : Nat → Nat) : List Nat :=
  hex2 (musicFlags d) ++ [32] ++ hex2 (songSfx (d 0)) ++ hex2 (songSfx (d 1)) ++
    hex2 (songSfx (d 2)) ++ hex2 (songSfx (d 3)) ++ [10]

/-- The music section emitted by save_p8, trimmed to the last entry
with nonzero content. -/
def saveMusicLines (songR : List Nat) : List Nat :=
  (List.range (lineCount songR 4)).flatMap (fun line =>
    (if line = 0 then asc "__music__\n" else []) ++
    musicLineBody (fun k => songR.getD (line * 4 + k) 0))

/-- cart::save_p8 — the full text container. -/
def saveP8 (c : Cart) : List Nat :=
  let r1 := asc "pico-8 cartridge // http://www.pico-8.com\n" ++
    asc "version " ++ decimalDigits PICO8_VERSION ++ [10] ++
    asc "__lua__\n" ++ pico8_to_utf8 c.code
  let r2 := if r1.getLast? ≠ some 10 then r1 ++ [10] else r1
  r2 ++ saveGfxLines c.rom.gfx ++ saveLabelLines c.label ++
    saveGffLines c.rom.gfx_props ++ saveMapLines c.rom.map ++
    saveSfxLines c.rom.sfx ++ saveMusicLines c.rom.song ++ [10]

/-! ## Proof-side vocabulary

Auxiliary definitions used to state intermediate lemmas about the
decoders; they are not translations of source code. -/

/-- Pairs up a list of hex-digit values left to right. -/
def pairUp : List Nat → List Nat
  | d1 :: d2 :: rest => (d1 * 16 + d2) :: pairUp rest
  | _ => []

/-- The five hex-digit values save_p8 emits for note `t` of an sfx
entry accessed through `data`. -/
def noteDigits5 (data : Nat → Nat) (t : Nat) : List Nat :=
  [(data (2 * t) &&& 0x3f) / 16, (data (2 * t) &&& 0x3f) % 16,
   ((data (2 * t + 1) <<< 2) &&& 0x4) ||| (data (2 * t) >>> 6),
   (data (2 * t + 1) >>> 1) &&& 0x7,
   (data (2 * t + 1) >>> 4) &&& 0xf]

/-- All hex-digit values of one emitted sfx line, control bytes first. -/
def sfxDigits (data : Nat → Nat) : List Nat :=
  [data 64 / 16, data 64 % 16, data 65 / 16, data 65 % 16,
   data 66 / 16, data 66 % 16, data 67 / 16, data 67 % 16] ++
  (List.range 32).flatMap (noteDigits5 data)

/-- The 80-byte packed note area of one decoded sfx line. -/
def sfxArea (data : Nat → Nat) : List Nat :=
  pairUp ((List.range 32).flatMap (noteDigits5 data))

/-- Fold state of the save_p8 trimming scan after examining the first
`n` bytes of a region. -/
def lcAux (bytes : List Nat) (stride n : Nat) : Nat :=
  (List.range n).foldl
    (fun acc i => if bytes.getD i 0 ≠ 0 then 1 + i / stride else acc) 0

/-- The characters of one emitted label row. -/
def labelRowChars (label : List Nat) (r : Nat) : List Nat :=
  (List.range 128).map (fun cc =>
    (asc "0123456789abcdefghijklmnopqrstuv").getD
      (label.getD (r * 128 + cc) 0 &&& 0x1f) 0)


/-- The characters of one emitted gfx line (without its newline). -/
def gfxContent (g : List Nat) (line : Nat) : List Nat :=
  (List.range 64).flatMap
    (fun i => hex2 (g.getD (line * 64 + i) 0 * 0x101 / 0x10 % 256))

/-- The characters of one emitted plain-hex line (without its newline). -/
def hexContent (bs : List Nat) (line : Nat) : List Nat :=
  (List.range 128).flatMap (fun i => hex2 (bs.getD (128 * line + i) 0))

/-- The characters of one emitted sfx line (without its newline). -/
def sfxContent (sx : List Nat) (line : Nat) : List Nat :=
  hex2 (sx.getD (line * 68 + 64) 0) ++ hex2 (sx.getD (line * 68 + 65) 0) ++
  hex2 (sx.getD (line * 68 + 66) 0) ++ hex2 (sx.getD (line * 68 + 67) 0) ++
  (List.range 32).flatMap (fun t =>
    hex2 (sx.getD (line * 68 + 2 * t) 0 &&& 0x3f) ++
    [hexDigitCh (((sx.getD (line * 68 + (2 * t + 1)) 0 <<< 2) &&& 0x4) |||
       (sx.getD (line * 68 + 2 * t) 0 >>> 6)),
     hexDigitCh ((sx.getD (line * 68 + (2 * t + 1)) 0 >>> 1) &&& 0x7),
     hexDigitCh ((sx.getD (line * 68 + (2 * t + 1)) 0 >>> 4) &&& 0xf)])

/-- The characters of one emitted music line (without its newline). -/
def musContent (sg : List Nat) (line : Nat) : List Nat :=
  hex2 (musicFlags (fun k => sg.getD (line * 4 + k) 0)) ++ [32] ++
  hex2 (songSfx (sg.getD (line * 4 + 0) 0)) ++
  hex2 (songSfx (sg.getD (line * 4 + 1) 0)) ++
  hex2 (songSfx (sg.getD (line * 4 + 2) 0)) ++
  hex2 (songSfx (sg.getD (line * 4 + 3) 0))

/-! # Theorems -/

/-! ## Shared helper lemmas -/

theorem mem_replicate_zero_lt {n b : Nat} (hb : b ∈ List.replicate n 0) :
    b < 256 := by
  rw [List.eq_of_mem_replicate hb]; norm_num

theorem zeroMem_wf : zeroMem.wf :=
  ⟨List.length_replicate _ _, List.length_replicate _ _,
   List.length_replicate _ _, List.length_replicate _ _,
   List.length_replicate _ _, List.length_replicate _ _,
   List.length_replicate _ _, List.length_replicate _ _,
   List.length_replicate _ _, List.length_replicate _ _,
   List.length_replicate _ _,
   fun _ h => mem_replicate_zero_lt h, fun _ h => mem_replicate_zero_lt h,
   fun _ h => mem_replicate_zero_lt h, fun _ h => mem_replicate_zero_lt h,
   fun _ h => mem_replicate_zero_lt h⟩

theorem land_3shift (v s : Nat) : v &&& (3 <<< s) = v / 2 ^ s % 4 * 2 ^ s := by
  have h3 : (3 : Nat) = 2 ^ 2 - 1 := by norm_num
  rw [land_mask_shift, shiftLeft_mul, shiftRight_div, h3, land_mod]
  norm_num

/-! ## C7: steganographic image codec round trip -/

/-- C7: for every byte value 0-255 and every carrier pixel, writing the
byte's four 2-bit fields into the low 2 bits of the pixel's R, G, B, A
channels (save_png's embedding, encodePix) and then recovering a byte
via load_png's extraction formula (decodePix) returns the original
byte; hence encoding a memory layout into a carrier and decoding it
recovers the identical bytes, as the mapped corollary states. -/
theorem stego_roundtrip (v : Nat) (hv : v < 256)
    (px : Nat × Nat × Nat × Nat) :
    decodePix (encodePix v px) = v := by
  obtain ⟨r, g, b, a⟩ := px
  show decodePix (encodePix v (r, g, b, a)) = v
  have h30 : v &&& 0x30 = v / 16 % 4 * 16 := by
    have : (0x30 : Nat) = 3 <<< 4 := by decide
    rw [this, land_3shift]; norm_num
  have h0c : v &&& 0x0c = v / 4 % 4 * 4 := by
    have : (0x0c : Nat) = 3 <<< 2 := by decide
    rw [this, land_3shift]; norm_num
  have h03 : v &&& 0x03 = v % 4 := by
    have : (0x03 : Nat) = 2 ^ 2 - 1 := by decide
    rw [this, land_mod]
    norm_num
  have hc0 : v &&& 0xc0 = v / 64 % 4 * 64 := by
    have : (0xc0 : Nat) = 3 <<< 6 := by decide
    rw [this, land_3shift]; norm_num
  simp only [decodePix, encodePix, h30, h0c, h03, hc0]
  omega

/-- C7 witness: a concrete instance of the round trip. -/
theorem stego_roundtrip_witness :
    decodePix (encodePix 0xa7 (13, 200, 91, 255)) = 0xa7 :=
  stego_roundtrip 0xa7 (by decide) (13, 200, 91, 255)

/-! ## C3: music section bit unpacking (corrected)

The claim says the TOP four bits of source byte 0 carry the extra high
bits (bit 7 of byte 0 into bit 7 of dest byte 0, and so on).  The code
`mus[i*5+1] | ((mus[i*5] << 7) & 0x80)` uses the LOW four bits: bit 0
of byte 0 lands in bit 7 of dest byte 0, bit 1 in dest byte 1, bit 2 in
dest byte 2, bit 3 in dest byte 3 (consistently with save_p8, which
packs the four flag bits into the low nibble of the flags byte). -/

/-- C3 counterexample: on the source group [1,0,0,0,0] the claim
demands bit 7 of destination byte 0 to equal bit 7 of source byte 0
(which is clear), but the code sets it from bit 0 (which is set). -/
theorem musicDecode_counterexample :
    Nat.testBit ((musicDecode 1 0 0 0 0).getD 0 0) 7 ≠ Nat.testBit 1 7 := by
  decide

theorem musicByte_bits (b0 b s : Nat) (hs : s ≤ 7) :
    (b ||| ((b0 <<< s) &&& 0x80)) % 128 = b % 128 ∧
    Nat.testBit (b ||| ((b0 <<< s) &&& 0x80)) 7 =
      (Nat.testBit b0 (7 - s) || Nat.testBit b 7) := by
  have h80 : (0x80 : Nat) = 2 ^ 7 := by norm_num
  constructor
  · have h128 : (128 : Nat) = 2 ^ 7 := by norm_num
    apply Nat.eq_of_testBit_eq
    intro i
    rw [h128]
    simp only [Nat.testBit_mod_two_pow, Nat.testBit_or, Nat.testBit_and]
    rcases Nat.lt_or_ge i 7 with hi | hi
    · have : Nat.testBit 0x80 i = false := by
        rw [h80, Nat.testBit_two_pow]
        simp only [decide_eq_false_iff_not]
        omega
      simp [this, hi]
    · have : ¬ i < 7 := by omega
      simp [this]
  · rw [Nat.testBit_or, Bool.or_comm]
    have : Nat.testBit ((b0 <<< s) &&& 0x80) 7 = Nat.testBit b0 (7 - s) := by
      rw [Nat.testBit_and, h80, Nat.testBit_two_pow]
      have hd : (decide (7 = 7)) = true := by decide
      rw [Nat.testBit_shiftLeft]
      simp [Nat.le_of_lt_succ, hs]
    rw [this]

/-- C3 amended: in the music section each 5-source-byte group decodes
to a 4-byte song entry where the LOW four bits of source byte 0 supply
the extra high bits — bit k of source byte 0 is OR'd into bit 7 of
destination byte k (k = 0..3) — and the low 7 bits of destination byte
k come from source byte k+1, whose own bit 7 (if set) also ORs into the
destination's bit 7. -/
theorem musicDecode_fields (b0 b1 b2 b3 b4 : Nat) (k : Nat) (hk : k < 4) :
    ((musicDecode b0 b1 b2 b3 b4).getD k 0) % 128 =
      ([b1, b2, b3, b4].getD k 0) % 128 ∧
    Nat.testBit ((musicDecode b0 b1 b2 b3 b4).getD k 0) 7 =
      (Nat.testBit b0 k || Nat.testBit ([b1, b2, b3, b4].getD k 0) 7) := by
  interval_cases k
  · exact musicByte_bits b0 b1 7 (by omega)
  · exact musicByte_bits b0 b2 6 (by omega)
  · exact musicByte_bits b0 b3 5 (by omega)
  · exact musicByte_bits b0 b4 4 (by omega)

/-- C3 witness: the amended statement at a concrete group. -/
theorem musicDecode_fields_witness :
    ((musicDecode 0x09 0x81 2 3 0x0a).getD 0 0) % 128 =
      ([0x81, 2, 3, 0x0a].getD 0 0) % 128 ∧
    Nat.testBit ((musicDecode 0x09 0x81 2 3 0x0a).getD 0 0) 7 =
      (Nat.testBit 0x09 0 || Nat.testBit ([0x81, 2, 3, 0x0a].getD 0 0) 7) :=
  musicDecode_fields 0x09 0x81 2 3 0x0a 0 (by decide)

/-! ## C5: image dimension check (corrected)

The claim says load_png proceeds past the dimension check exactly for
160x205 images.  The code checks only the product
`width * height != 160 * 205`, so e.g. a 205x160 image passes. -/

/-- C5 counterexample: a successfully decoded 205x160 carrier (not
160x205) passes the dimension check and the load succeeds. -/
theorem loadPng_dims_counterexample :
    (loadPng (fun _ => []) (fun _ => 0) ⟨zeroMem, [], []⟩
      (some (205, 160, []))).fst = true ∧ ¬ (205 = 160 ∧ 160 = 205) := by
  exact ⟨rfl, by omega⟩

/-- C5 amended: a successfully decoded carrier image fails the load
exactly when the PIXEL COUNT differs from 160*205; the dimension check
passes (and the load then runs to completion) if and only if
width * height = 160 * 205, regardless of the individual dimensions. -/
theorem loadPng_dims (decompress : List Nat → List Nat)
    (palette_best : Nat × Nat × Nat × Nat → Nat) (c : Cart)
    (w h : Nat) (pixels : List (Nat × Nat × Nat × Nat)) :
    (loadPng decompress palette_best c (some (w, h, pixels))).fst = true ↔
      w * h = 160 * 205 := by
  by_cases hwh : w * h = 160 * 205
  · simp [loadPng, hwh]
  · simp [loadPng, hwh]

/-! ## C2: compression overflow in get_bin (corrected)

The claim says get_bin surfaces a distinct failure when the compressed
code exceeds the code region's capacity.  The code has no failure
channel at all: `ret.resize(sizeof(memory))` silently truncates the
container, so an overflowing compressed stream can produce a container
bit-identical to a compliant one. -/

theorem zeroMem_bytes_len : zeroMem.bytes.length = 0x8000 := by
  simp only [Mem.bytes, zeroMem, List.length_append, List.length_replicate]

/-- C2 counterexample: with a compressed code of 0x3d01 bytes (more
than the claimed 0x1b00-byte capacity) get_bin returns the very same
container as with a compliant 0x1b00-byte compressed code, so no
distinct failure is surfaced and the excess is silently dropped. -/
theorem getBin_counterexample :
    getBin (fun _ => List.replicate 0x1b00 1 ++ (List.replicate 0x2200 0 ++ [5]))
        ⟨zeroMem, [], []⟩ =
      getBin (fun _ => List.replicate 0x1b00 1) ⟨zeroMem, [], []⟩ ∧
    0x1b00 < (List.replicate 0x1b00 (1 : Nat) ++
      (List.replicate 0x2200 (0 : Nat) ++ [5])).length ∧
    (List.replicate 0x1b00 (1 : Nat)).length ≤ 0x1b00 := by
  refine ⟨?_, by simp only [List.length_append, List.length_replicate,
    List.length_cons, List.length_nil]; omega,
    by simp only [List.length_replicate]; omega⟩
  have hd : (zeroMem.bytes.take 0x4300).length = 0x4300 := by
    rw [List.length_take, zeroMem_bytes_len]
    omega
  show resizeTo ((zeroMem.bytes.take 0x4300) ++
      (List.replicate 0x1b00 1 ++ (List.replicate 0x2200 0 ++ [5]))) 0x8000 ++
        [PICO8_VERSION] =
    resizeTo ((zeroMem.bytes.take 0x4300) ++ List.replicate 0x1b00 1) 0x8000 ++
      [PICO8_VERSION]
  rw [resizeTo, resizeTo]
  have h1 : ((zeroMem.bytes.take 0x4300) ++
      (List.replicate 0x1b00 1 ++ (List.replicate 0x2200 0 ++ [5]))).take 0x8000 =
      (zeroMem.bytes.take 0x4300) ++
        (List.replicate 0x1b00 1 ++ List.replicate 0x2200 0) := by
    have e : (zeroMem.bytes.take 0x4300) ++
        (List.replicate 0x1b00 1 ++ (List.replicate 0x2200 0 ++ [5])) =
        ((zeroMem.bytes.take 0x4300) ++
          (List.replicate 0x1b00 1 ++ List.replicate 0x2200 0)) ++ [5] := by
      simp only [List.append_assoc]
    rw [e]
    apply List.take_left'
    simp only [List.length_append, List.length_replicate, hd]
  have h2 : ((zeroMem.bytes.take 0x4300) ++ List.replicate 0x1b00 1).take 0x8000 =
      (zeroMem.bytes.take 0x4300) ++ List.replicate 0x1b00 1 := by
    apply List.take_of_length_le
    simp only [List.length_append, List.length_replicate, hd]
    omega
  have h3 : ((zeroMem.bytes.take 0x4300) ++
      (List.replicate 0x1b00 1 ++ (List.replicate 0x2200 0 ++ [5]))).length =
      0x8001 := by
    simp only [List.length_append, List.length_replicate, List.length_cons,
      List.length_nil, hd]
  have h4 : ((zeroMem.bytes.take 0x4300) ++ List.replicate 0x1b00 1).length =
      0x5e00 := by
    simp only [List.length_append, List.length_replicate, hd]
  rw [h1, h2, h3, h4]
  have e0 : (0x8000 - 0x8001 : Nat) = 0 := by norm_num
  have e1 : (0x8000 - 0x5e00 : Nat) = 0x2200 := by norm_num
  rw [e0, e1]
  simp only [List.replicate_zero, List.append_nil, List.append_assoc]

/-- C2 amended: get_bin surfaces no failure on compression overflow;
for every compressor outcome it returns a container of exactly
sizeof(memory)+1 bytes whose first 0x4300 bytes are the rom data, whose
code area holds the compressed bytes truncated to the physically
available 0x3d00 bytes (zero padded), and whose final byte is the
version — detection of overflow is left to callers. -/
theorem getBin_truncates (compress : List Nat → List Nat) (c : Cart)
    (h : c.rom.wf) :
    (getBin compress c).length = 0x8001 ∧
    extract (getBin compress c) 0 0x4300 = c.rom.bytes.take 0x4300 ∧
    extract (getBin compress c) 0x4300 0x3d00 =
      (compress c.code).take 0x3d00 ++
        List.replicate (0x3d00 - (compress c.code).length) 0 ∧
    extract (getBin compress c) 0x8000 1 = [PICO8_VERSION] := by
  have hb : c.rom.bytes.length = 0x8000 := by
    simp only [Mem.bytes, List.length_append, h.gfx_len, h.map_len, h.props_len,
      h.song_len, h.sfx_len, h.user_len, h.pers_len, h.draw_len, h.hw_len,
      h.gpio_len, h.screen_len]
  have hd : (c.rom.bytes.take 0x4300).length = 0x4300 := by
    rw [List.length_take, hb]
    omega
  set cc := compress c.code with hcc
  have hsplit : (c.rom.bytes.take 0x4300 ++ cc).take 0x8000 =
      c.rom.bytes.take 0x4300 ++ cc.take 0x3d00 := by
    rw [List.take_append_eq_append_take]
    congr 1
    · exact List.take_of_length_le (by rw [hd]; norm_num)
    · congr 1
      rw [hd]
  have hgb : getBin compress c =
      (c.rom.bytes.take 0x4300 ++
        (cc.take 0x3d00 ++
          List.replicate (0x3d00 - cc.length) 0)) ++ [PICO8_VERSION] := by
    show resizeTo (c.rom.bytes.take 0x4300 ++ cc) 0x8000 ++ [PICO8_VERSION] = _
    rw [resizeTo, hsplit]
    have e : 0x8000 - (c.rom.bytes.take 0x4300 ++ cc).length =
        0x3d00 - cc.length := by
      rw [List.length_append, hd]
      omega
    rw [e]
    simp only [List.append_assoc]
  have hmidlen : (cc.take 0x3d00 ++
      List.replicate (0x3d00 - cc.length) 0).length = 0x3d00 := by
    simp only [List.length_append, List.length_take, List.length_replicate]
    omega
  refine ⟨?_, ?_, ?_, ?_⟩
  · rw [hgb]
    simp only [List.length_append, hd, hmidlen, List.length_cons, List.length_nil]
  · rw [hgb, extract, List.drop_zero, List.append_assoc, List.take_left' hd]
  · rw [hgb, extract, List.append_assoc, List.drop_left' hd,
      List.take_left' hmidlen]
  · rw [hgb, extract,
      List.drop_left' (by rw [List.length_append, hd, hmidlen])]
    rfl

/-- C2 witness: the truncation characterization at a concrete cart and
compressor. -/
theorem getBin_truncates_witness :
    (getBin (fun _ => [3]) ⟨zeroMem, [], []⟩).length = 0x8001 ∧
    extract (getBin (fun _ => [3]) ⟨zeroMem, [], []⟩) 0 0x4300 =
      (Cart.mk zeroMem [] []).rom.bytes.take 0x4300 ∧
    extract (getBin (fun _ => [3]) ⟨zeroMem, [], []⟩) 0x4300 0x3d00 =
      ((fun (_ : List Nat) => [(3 : Nat)]) []).take 0x3d00 ++
        List.replicate (0x3d00 - ((fun (_ : List Nat) => [(3 : Nat)]) []).length) 0 ∧
    extract (getBin (fun _ => [3]) ⟨zeroMem, [], []⟩) 0x8000 1 = [PICO8_VERSION] :=
  getBin_truncates (fun _ => [3]) ⟨zeroMem, [], []⟩ zeroMem_wf

/-! ## C9: fixed offsets and sizes of the memory layout -/

/-- C9: for every well-formed memory layout the serialized image is
exactly 0x8000 bytes and every region of the section table sits at its
fixed offset with its fixed size: gfx at 0x0000 size 0x2000,
map-overflow at 0x1000 size 0x1000 (aliasing the upper gfx half), map
at 0x2000 size 0x1000, graphics flags at 0x3000 size 0x100, songs at
0x3100 size 0x100, sfx at 0x3200 size 0x1100, code/user data at 0x4300
size 0x1b00, persistent at 0x5e00 size 0x100, draw state at 0x5f00
size 0x40, hardware state at 0x5f40 size 0x40, gpio at 0x5f80 size
0x80 and the screen at 0x6000 size 0x2000. -/
theorem memory_layout (m : Mem) (h : m.wf) :
    m.bytes.length = 0x8000 ∧
    extract m.bytes 0x0000 0x2000 = m.gfx ∧
    extract m.bytes 0x1000 0x1000 = m.map2 ∧
    extract m.bytes 0x2000 0x1000 = m.map ∧
    extract m.bytes 0x3000 0x100 = m.gfx_props ∧
    extract m.bytes 0x3100 0x100 = m.song ∧
    extract m.bytes 0x3200 0x1100 = m.sfx ∧
    extract m.bytes 0x4300 0x1b00 = m.user_data ∧
    extract m.bytes 0x5e00 0x100 = m.persistent ∧
    extract m.bytes 0x5f00 0x40 = m.draw_state ∧
    extract m.bytes 0x5f40 0x40 = m.hw_state ∧
    extract m.bytes 0x5f80 0x80 = m.gpio_pins ∧
    extract m.bytes 0x6000 0x2000 = m.screen := by
  obtain ⟨h1, h2, h3, h4, h5, h6, h7, h8, h9, h10, h11, _, _, _, _, _⟩ := h
  have d0 : m.bytes = m.gfx ++ (m.map ++ (m.gfx_props ++ (m.song ++ (m.sfx ++
      (m.user_data ++ (m.persistent ++ (m.draw_state ++ (m.hw_state ++
      (m.gpio_pins ++ m.screen))))))))) := by
    simp only [Mem.bytes, List.append_assoc]
  have D1 : m.bytes.drop 0x2000 = m.map ++ (m.gfx_props ++ (m.song ++ (m.sfx ++
      (m.user_data ++ (m.persistent ++ (m.draw_state ++ (m.hw_state ++
      (m.gpio_pins ++ m.screen)))))))) := by
    rw [d0, List.drop_left' h1]
  have D2 : m.bytes.drop 0x3000 = m.gfx_props ++ (m.song ++ (m.sfx ++
      (m.user_data ++ (m.persistent ++ (m.draw_state ++ (m.hw_state ++
      (m.gpio_pins ++ m.screen))))))) := by
    rw [show (0x3000 : Nat) = 0x2000 + 0x1000 from rfl, ← List.drop_drop, D1,
      List.drop_left' h2]
  have D3 : m.bytes.drop 0x3100 = m.song ++ (m.sfx ++ (m.user_data ++
      (m.persistent ++ (m.draw_state ++ (m.hw_state ++
      (m.gpio_pins ++ m.screen)))))) := by
    rw [show (0x3100 : Nat) = 0x3000 + 0x100 from rfl, ← List.drop_drop, D2,
      List.drop_left' h3]
  have D4 : m.bytes.drop 0x3200 = m.sfx ++ (m.user_data ++ (m.persistent ++
      (m.draw_state ++ (m.hw_state ++ (m.gpio_pins ++ m.screen))))) := by
    rw [show (0x3200 : Nat) = 0x3100 + 0x100 from rfl, ← List.drop_drop, D3,
      List.drop_left' h4]
  have D5 : m.bytes.drop 0x4300 = m.user_data ++ (m.persistent ++
      (m.draw_state ++ (m.hw_state ++ (m.gpio_pins ++ m.screen)))) := by
    rw [show (0x4300 : Nat) = 0x3200 + 0x1100 from rfl, ← List.drop_drop, D4,
      List.drop_left' h5]
  have D6 : m.bytes.drop 0x5e00 = m.persistent ++ (m.draw_state ++
      (m.hw_state ++ (m.gpio_pins ++ m.screen))) := by
    rw [show (0x5e00 : Nat) = 0x4300 + 0x1b00 from rfl, ← List.drop_drop, D5,
      List.drop_left' h6]
  have D7 : m.bytes.drop 0x5f00 = m.draw_state ++ (m.hw_state ++
      (m.gpio_pins ++ m.screen)) := by
    rw [show (0x5f00 : Nat) = 0x5e00 + 0x100 from rfl, ← List.drop_drop, D6,
      List.drop_left' h7]
  have D8 : m.bytes.drop 0x5f40 = m.hw_state ++ (m.gpio_pins ++ m.screen) := by
    rw [show (0x5f40 : Nat) = 0x5f00 + 0x40 from rfl, ← List.drop_drop, D7,
      List.drop_left' h8]
  have D9 : m.bytes.drop 0x5f80 = m.gpio_pins ++ m.screen := by
    rw [show (0x5f80 : Nat) = 0x5f40 + 0x40 from rfl, ← List.drop_drop, D8,
      List.drop_left' h9]
  have D10 : m.bytes.drop 0x6000 = m.screen := by
    rw [show (0x6000 : Nat) = 0x5f80 + 0x80 from rfl, ← List.drop_drop, D9,
      List.drop_left' h10]
  have len : m.bytes.length = 0x8000 := by
    simp only [Mem.bytes, List.length_append, h1, h2, h3, h4, h5, h6, h7, h8,
      h9, h10, h11]
  refine ⟨len, ?_, ?_, ?_, ?_, ?_, ?_, ?_, ?_, ?_, ?_, ?_, ?_⟩
  · rw [extract, List.drop_zero, d0, List.take_left' h1]
  · rw [extract, d0, List.drop_append_eq_append_drop,
      List.take_append_eq_append_take]
    have hl : (m.gfx.drop 0x1000).length = 0x1000 := by
      rw [List.length_drop, h1]
    rw [List.take_of_length_le (le_of_eq hl), hl, Mem.map2]
    simp only [Nat.sub_self, List.take_zero, List.append_nil]
  · rw [extract, D1, List.take_left' h2]
  · rw [extract, D2, List.take_left' h3]
  · rw [extract, D3, List.take_left' h4]
  · rw [extract, D4, List.take_left' h5]
  · rw [extract, D5, List.take_left' h6]
  · rw [extract, D6, List.take_left' h7]
  · rw [extract, D7, List.take_left' h8]
  · rw [extract, D8, List.take_left' h9]
  · rw [extract, D9, List.take_left' h10]
  · rw [extract, D10, List.take_of_length_le (le_of_eq h11)]

/-- C9 witness: the layout equalities at the zeroed memory. -/
theorem memory_layout_witness :
    zeroMem.bytes.length = 0x8000 ∧
    extract zeroMem.bytes 0x0000 0x2000 = zeroMem.gfx ∧
    extract zeroMem.bytes 0x1000 0x1000 = zeroMem.map2 ∧
    extract zeroMem.bytes 0x2000 0x1000 = zeroMem.map ∧
    extract zeroMem.bytes 0x3000 0x100 = zeroMem.gfx_props ∧
    extract zeroMem.bytes 0x3100 0x100 = zeroMem.song ∧
    extract zeroMem.bytes 0x3200 0x1100 = zeroMem.sfx ∧
    extract zeroMem.bytes 0x4300 0x1b00 = zeroMem.user_data ∧
    extract zeroMem.bytes 0x5e00 0x100 = zeroMem.persistent ∧
    extract zeroMem.bytes 0x5f00 0x40 = zeroMem.draw_state ∧
    extract zeroMem.bytes 0x5f40 0x40 = zeroMem.hw_state ∧
    extract zeroMem.bytes 0x5f80 0x80 = zeroMem.gpio_pins ∧
    extract zeroMem.bytes 0x6000 0x2000 = zeroMem.screen :=
  memory_layout zeroMem zeroMem_wf

/-! ## C10: the extended map accessor aliases the graphics overflow -/

theorem xor_two_pow_of_lt {k i : Nat} (hk : k < 2 ^ i) :
    k ^^^ 2 ^ i = k + 2 ^ i := by
  apply Nat.eq_of_testBit_eq
  intro j
  rw [Nat.testBit_xor]
  rcases lt_trichotomy j i with hj | hj | hj
  · rw [Nat.testBit_two_pow_of_ne (Nat.ne_of_lt hj).symm, Nat.add_comm,
      Nat.testBit_two_pow_add_gt hj]
    simp
  · subst hj
    rw [Nat.testBit_two_pow_self, Nat.add_comm, Nat.testBit_two_pow_add_eq,
      Nat.testBit_lt_two_pow hk]
    rfl
  · have h2 : 2 ^ (i + 1) ≤ 2 ^ j := Nat.pow_le_pow_right (by norm_num) hj
    have h3 : 2 ^ (i + 1) = 2 ^ i + 2 ^ i := by rw [Nat.pow_succ]; omega
    rw [Nat.testBit_lt_two_pow (show k + 2 ^ i < 2 ^ j by omega),
      Nat.testBit_lt_two_pow (show k < 2 ^ j by omega),
      Nat.testBit_two_pow_of_ne (Nat.ne_of_lt hj)]
    rfl

/-- C10: for every well-formed memory layout, the extended map accessor
map[n] with 0x1000 <= n < 0x2000 returns the absolute memory byte at
offset n itself, i.e. map2[n - 0x1000] in the upper half of the
graphics region, while for n < 0x1000 it returns the byte at absolute
offset 0x2000 + n; outside 0 <= n < 0x2000 the accessor's assertion
fails (modelled as none). -/
theorem map_accessor (m : Mem) (h : m.wf) (n : Nat) :
    (0x1000 ≤ n → n < 0x2000 →
      m.mapRead n = some (m.read n) ∧
      m.read n = m.map2.getD (n - 0x1000) 0) ∧
    (n < 0x1000 → m.mapRead n = some (m.read (0x2000 + n))) ∧
    (0x2000 ≤ n → m.mapRead n = none) := by
  refine ⟨fun hlo hhi => ?_, fun hlt => ?_, fun hge => ?_⟩
  · have hk : n - 0x1000 < 2 ^ 12 := by omega
    have hx : n ^^^ 0x1000 = n - 0x1000 := by
      have h1 : (n - 0x1000) ^^^ 0x1000 = n := by
        have h2 := xor_two_pow_of_lt hk
        norm_num at h2
        omega
      calc n ^^^ 0x1000 = ((n - 0x1000) ^^^ 0x1000) ^^^ 0x1000 := by rw [h1]
        _ = (n - 0x1000) ^^^ (0x1000 ^^^ 0x1000) := by rw [Nat.xor_assoc]
        _ = n - 0x1000 := by rw [Nat.xor_self, Nat.xor_zero]
    have haddr : (mapAddr n).toNat = n := by
      unfold mapAddr
      rw [hx]
      have hc : ((n - 0x1000 : Nat) : Int) = (n : Int) - 0x1000 := by
        push_cast [hlo]
        ring
      rw [hc]
      omega
    refine ⟨by rw [Mem.mapRead, if_pos hhi, haddr], ?_⟩
    have d0 : m.bytes = m.gfx ++ (m.map ++ (m.gfx_props ++ (m.song ++ (m.sfx ++
        (m.user_data ++ (m.persistent ++ (m.draw_state ++ (m.hw_state ++
        (m.gpio_pins ++ m.screen))))))))) := by
      simp only [Mem.bytes, List.append_assoc]
    rw [Mem.read, d0, List.getD_append _ _ _ _ (by rw [h.gfx_len]; omega),
      Mem.map2]
    simp only [List.getD_eq_getElem?_getD, List.getElem?_drop]
    rw [show 0x1000 + (n - 0x1000) = n from by omega]
  · have hx : n ^^^ 0x1000 = n + 0x1000 := by
      have h2 := xor_two_pow_of_lt (show n < 2 ^ 12 by omega)
      norm_num at h2
      exact h2
    have haddr : (mapAddr n).toNat = 0x2000 + n := by
      unfold mapAddr
      rw [hx]
      push_cast
      omega
    rw [Mem.mapRead, if_pos (by omega), haddr]
  · rw [Mem.mapRead, if_neg (by omega)]

/-- C10 witness: the three accessor facts at concrete indices of the
zeroed memory. -/
theorem map_accessor_witness :
    zeroMem.mapRead 0x1234 = some (zeroMem.read 0x1234) ∧
    zeroMem.read 0x1234 = zeroMem.map2.getD (0x1234 - 0x1000) 0 ∧
    zeroMem.mapRead 0x0042 = some (zeroMem.read (0x2000 + 0x0042)) ∧
    zeroMem.mapRead 0x2000 = none :=
  ⟨((map_accessor zeroMem zeroMem_wf 0x1234).1 (by norm_num) (by norm_num)).1,
   ((map_accessor zeroMem zeroMem_wf 0x1234).1 (by norm_num) (by norm_num)).2,
   (map_accessor zeroMem zeroMem_wf 0x0042).2.1 (by norm_num),
   (map_accessor zeroMem zeroMem_wf 0x2000).2.2 (by norm_num)⟩

/-! ## C8: failing loads leave the cartridge untouched -/

/-- C8: every load operation that reports failure — I/O failure, wrong
image dimensions, absent version header, script-literal array not found
or not an array — returns the cartridge exactly as it was: memory
layout, script text and label are all unchanged on every failing path. -/
theorem load_failure_no_mutation (c : Cart) :
    (∀ file, (loadP8 c file).fst = false → (loadP8 c file).snd = c) ∧
    (∀ decompress palette_best png,
      (loadPng decompress palette_best c png).fst = false →
      (loadPng decompress palette_best c png).snd = c) ∧
    (∀ decompress file jsParse,
      (loadJs decompress c file jsParse).fst = false →
      (loadJs decompress c file jsParse).snd = c) ∧
    (∀ file, (loadLua c file).fst = false → (loadLua c file).snd = c) := by
  refine ⟨fun file h => ?_, fun decompress palette_best png h => ?_,
    fun decompress file jsParse h => ?_, fun file h => ?_⟩
  · cases file with
    | none => rfl
    | some s =>
      have hc : loadP8 c (some s) =
          if (parseP8 s).version < 0 then (false, c)
          else (true, loadP8Pack (parseP8 s)) := rfl
      rw [hc] at h ⊢
      by_cases hv : (parseP8 s).version < 0
      · rw [if_pos hv]
      · rw [if_neg hv] at h
        exact Bool.noConfusion h
  · cases png with
    | none => rfl
    | some t =>
      obtain ⟨w, h2, pixels⟩ := t
      by_cases hd : w * h2 ≠ 160 * 205
      · have hc : loadPng decompress palette_best c (some (w, h2, pixels)) =
            (false, c) := by
          rw [loadPng, if_pos hd]
        rw [hc]
      · rw [loadPng, if_neg hd] at h
        exact Bool.noConfusion h
  · cases file with
    | none => rfl
    | some s =>
      rw [loadJs] at h ⊢
      rcases hs : findSub (asc "var _cartdat=") s with _ | i <;>
        simp only [hs] at h ⊢
      rcases hb : findSub (asc "[") (s.drop i) with _ | b0 <;>
        simp only [hb] at h ⊢
      rcases he : findSub (asc "]") (s.drop (b0 + i)) with _ | e0 <;>
        simp only [he] at h ⊢
      rcases hj : jsParse (extract s (b0 + i) (e0 + (b0 + i) + 1 - (b0 + i)))
          with _ | arr <;> simp only [hj] at h ⊢
      exact Bool.noConfusion h
  · cases file with
    | none => rfl
    | some s =>
      rw [loadLua] at h
      exact Bool.noConfusion h

/-- C8 witness: concrete failing loads of each format on a concrete
cartridge. -/
theorem load_failure_no_mutation_witness :
    (loadP8 ⟨zeroMem, [], []⟩ none).snd = ⟨zeroMem, [], []⟩ ∧
    (loadPng (fun _ => []) (fun _ => 0) ⟨zeroMem, [], []⟩ none).snd =
      ⟨zeroMem, [], []⟩ ∧
    (loadJs (fun _ => []) ⟨zeroMem, [], []⟩ (some []) (fun _ => none)).snd =
      ⟨zeroMem, [], []⟩ ∧
    (loadLua ⟨zeroMem, [], []⟩ none).snd = ⟨zeroMem, [], []⟩ :=
  ⟨(load_failure_no_mutation ⟨zeroMem, [], []⟩).1 none rfl,
   (load_failure_no_mutation ⟨zeroMem, [], []⟩).2.1 _ _ none rfl,
   (load_failure_no_mutation ⟨zeroMem, [], []⟩).2.2.1 _ (some []) _ rfl,
   (load_failure_no_mutation ⟨zeroMem, [], []⟩).2.2.2 none rfl⟩

/-! ## Hex decoding lemmas -/

theorem isHexB_hexDigitCh {d : Nat} (hd : d < 16) :
    isHexB (hexDigitCh d) = true := by
  interval_cases d <;> rfl

theorem hexVal_hexDigitCh {d : Nat} (hd : d < 16) : hexVal (hexDigitCh d) = d := by
  interval_cases d <;> rfl

theorem decodeHex_nil (sw : Bool) : decodeHex sw [] = [] := rfl

theorem decodeHex_skip (sw : Bool) (c : Nat) (rest : List Nat)
    (h : isHexB c = false) : decodeHex sw (c :: rest) = decodeHex sw rest := by
  cases rest <;> simp [decodeHex, h]

theorem decodeHex_pair (c1 c2 : Nat) (rest : List Nat)
    (h1 : isHexB c1 = true) (h2 : isHexB c2 = true) :
    decodeHex false (c1 :: c2 :: rest) =
      (hexVal c1 * 16 + hexVal c2) :: decodeHex false rest := by
  simp [decodeHex, strtoul2, h1, h2]

theorem decodeHex_pair_swapped (c1 c2 : Nat) (rest : List Nat)
    (h1 : isHexB c1 = true) (h2 : isHexB c2 = true) :
    decodeHex true (c1 :: c2 :: rest) =
      (hexVal c2 * 16 + hexVal c1) :: decodeHex true rest := by
  simp [decodeHex, strtoul2, h1, h2]

theorem decodeHex_pair_bad (c1 c2 : Nat) (rest : List Nat)
    (h1 : isHexB c1 = true) (h2 : isHexB c2 = false) :
    decodeHex false (c1 :: c2 :: rest) = hexVal c1 :: decodeHex false rest := by
  simp [decodeHex, strtoul2, h1, h2]

theorem decodeHex_hex2 (v : Nat) (hv : v < 256) (rest : List Nat) :
    decodeHex false (hex2 v ++ rest) = v :: decodeHex false rest := by
  have hq : v / 16 < 16 := by omega
  have hr : v % 16 < 16 := by omega
  rw [hex2, List.cons_append, List.cons_append, List.nil_append,
    decodeHex_pair _ _ _ (isHexB_hexDigitCh hq) (isHexB_hexDigitCh hr),
    hexVal_hexDigitCh hq, hexVal_hexDigitCh hr]
  congr 1
  omega

theorem decodeHex_hex2_swapped (v : Nat) (hv : v < 256) (rest : List Nat) :
    decodeHex true (hex2 v ++ rest) =
      (v % 16 * 16 + v / 16) :: decodeHex true rest := by
  have hq : v / 16 < 16 := by omega
  have hr : v % 16 < 16 := by omega
  rw [hex2, List.cons_append, List.cons_append, List.nil_append,
    decodeHex_pair_swapped _ _ _ (isHexB_hexDigitCh hq) (isHexB_hexDigitCh hr),
    hexVal_hexDigitCh hq, hexVal_hexDigitCh hr]

theorem decodeHex_flat_hex2 (vals : List Nat) (hv : ∀ v ∈ vals, v < 256)
    (rest : List Nat) :
    decodeHex false (vals.flatMap hex2 ++ rest) = vals ++ decodeHex false rest := by
  induction vals with
  | nil => simp
  | cons v vs ih =>
    rw [List.flatMap_cons, List.append_assoc,
      decodeHex_hex2 v (hv v (by simp)) _, ih (fun x hx => hv x (by simp [hx]))]
    rfl

/-- Nibble unswap of the emitted swapped byte recovers the byte. -/
theorem swap_unswap (b : Nat) (hb : b < 256) :
    b * 0x101 / 0x10 % 256 % 16 * 16 + b * 0x101 / 0x10 % 256 / 16 = b := by
  interval_cases b <;> rfl

theorem decodeHex_flat_gfx (vals : List Nat) (hv : ∀ v ∈ vals, v < 256)
    (rest : List Nat) :
    decodeHex true
      (vals.flatMap (fun v => hex2 (v * 0x101 / 0x10 % 256)) ++ rest) =
      vals ++ decodeHex true rest := by
  induction vals with
  | nil => simp
  | cons v vs ih =>
    rw [List.flatMap_cons, List.append_assoc,
      decodeHex_hex2_swapped _ (by omega) _,
      ih (fun x hx => hv x (by simp [hx]))]
    rw [swap_unswap v (hv v (by simp))]
    rfl

theorem decodeHex_pairUp : ∀ (ds : List Nat), (∀ d ∈ ds, d < 16) →
    ds.length % 2 = 0 → ∀ rest : List Nat,
    decodeHex false (ds.map hexDigitCh ++ rest) = pairUp ds ++ decodeHex false rest
  | [], _, _, rest => by simp [pairUp]
  | [d], _, hlen, rest => by simp at hlen
  | d1 :: d2 :: r, h, hlen, rest => by
    have h1 : d1 < 16 := h d1 (by simp)
    have h2 : d2 < 16 := h d2 (by simp)
    rw [List.map_cons, List.map_cons, List.cons_append, List.cons_append,
      decodeHex_pair _ _ _ (isHexB_hexDigitCh h1) (isHexB_hexDigitCh h2),
      hexVal_hexDigitCh h1, hexVal_hexDigitCh h2,
      decodeHex_pairUp r (fun d hd => h d (by simp [hd]))
        (by simp only [List.length_cons] at hlen; omega) rest]
    rfl

theorem pairUp_append (a b : List Nat) (ha : a.length % 2 = 0) :
    pairUp (a ++ b) = pairUp a ++ pairUp b := by
  induction a using pairUp.induct with
  | case1 d1 d2 rest ih =>
    rw [List.cons_append, List.cons_append, pairUp, pairUp,
      ih (by simp only [List.length_cons] at ha; omega)]
    rfl
  | case2 a h =>
    match a, h with
    | [], _ => simp [pairUp]
    | [d], _ => simp at ha
    | d1 :: d2 :: r, h => exact absurd rfl (fun hh => h d1 d2 r hh)

theorem pairUp_length (ds : List Nat) : (pairUp ds).length = ds.length / 2 := by
  induction ds using pairUp.induct with
  | case1 d1 d2 rest ih => simp only [pairUp, List.length_cons, ih]; omega
  | case2 a h =>
    match a, h with
    | [], _ => simp [pairUp]
    | [d], _ => simp [pairUp]
    | d1 :: d2 :: r, h => exact absurd rfl (fun hh => h d1 d2 r hh)

theorem pairUp_getD (ds : List Nat) (m : Nat) (hm : 2 * m + 1 < ds.length) :
    (pairUp ds).getD m 0 = ds.getD (2 * m) 0 * 16 + ds.getD (2 * m + 1) 0 := by
  induction ds using pairUp.induct generalizing m with
  | case1 d1 d2 rest ih =>
    cases m with
    | zero => simp [pairUp]
    | succ m0 =>
      rw [pairUp]
      rw [show 2 * (m0 + 1) = (2 * m0 + 1) + 1 from by omega]
      simp only [List.getD_cons_succ]
      exact ih m0 (by simp only [List.length_cons] at hm; omega)
  | case2 a h =>
    match a, h with
    | [], _ => simp at hm
    | [d], _ =>
      simp only [List.length_cons, List.length_nil] at hm
      omega
    | d1 :: d2 :: r, h => exact absurd rfl (fun hh => h d1 d2 r hh)

theorem flatMap_range_length (k w : Nat) (f : Nat → List Nat)
    (h : ∀ t < k, (f t).length = w) :
    ((List.range k).flatMap f).length = k * w := by
  induction k with
  | zero => simp
  | succ n ih =>
    rw [List.range_succ, List.flatMap_append, List.length_append,
      ih (fun t ht => h t (by omega))]
    simp only [List.flatMap_cons, List.flatMap_nil, List.append_nil,
      h n (by omega), Nat.succ_mul]

theorem flatMap_range_getD (k w : Nat) (f : Nat → List Nat)
    (h : ∀ t < k, (f t).length = w) (i : Nat) (hi : i < k * w) :
    ((List.range k).flatMap f).getD i 0 = (f (i / w)).getD (i % w) 0 := by
  induction k with
  | zero => simp at hi
  | succ n ih =>
    rw [List.range_succ, List.flatMap_append]
    have hlen : ((List.range n).flatMap f).length = n * w :=
      flatMap_range_length n w f (fun t ht => h t (by omega))
    have hmul : (n + 1) * w = n * w + w := by rw [Nat.succ_mul]
    rcases Nat.lt_or_ge i (n * w) with hc | hc
    · rw [List.getD_append _ _ _ _ (by rw [hlen]; exact hc),
        ih (fun t ht => h t (by omega)) hc]
    · rw [List.getD_append_right _ _ _ _ (by rw [hlen]; exact hc)]
      simp only [List.flatMap_cons, List.flatMap_nil, List.append_nil, hlen]
      have hdiv : i / w = n := Nat.div_eq_of_lt_le hc (by omega)
      have hmod : i % w = i - n * w := by
        have hd := Nat.div_add_mod i w
        rw [hdiv] at hd
        have hcomm : w * n = n * w := Nat.mul_comm w n
        omega
      rw [hdiv, hmod]

/-! ## C4: hex decoding with interleaved non-hex characters (corrected)

The claim says a non-hex character is always skipped without consuming
a pair, so decoding equals decoding the filtered digit string paired
left-to-right.  The code only skips a non-hex character at the START of
a pair; a hex digit always grabs its immediate successor into
strtoul's two-character buffer, so a non-hex successor terminates the
number and yields the single digit's value, consuming both. -/

/-- C4 counterexample: the line "a b" (the spec's own example) decodes
to [0x0a, 0x0b], not to the filtered pairing [0xab]. -/
theorem hex_interleave_counterexample :
    decodeHex false (asc "a b") = [0x0a, 0x0b] ∧
    decodeHex false ((asc "a b").filter isHexB) = [0xab] ∧
    ([0x0a, 0x0b] : List Nat) ≠ [0xab] := by
  refine ⟨by decide, by decide, by decide⟩

/-- C4 amended: a non-hex character at the cursor (the start of a pair)
is skipped by advancing one character and retrying; but a hex digit is
always paired with the immediately following character — two hex digits
decode as the usual big-endian pair, while a hex digit followed by a
non-hex character decodes to the single digit's own value and both
characters are consumed.  Hence "a b" decodes to [0x0a, 0x0b], not to
the byte sequence of the line with non-hex characters removed. -/
theorem hex_cursor_behavior (c1 c2 : Nat) (rest : List Nat) :
    (isHexB c1 = false → decodeHex false (c1 :: rest) = decodeHex false rest) ∧
    (isHexB c1 = true → isHexB c2 = true →
      decodeHex false (c1 :: c2 :: rest) =
        (hexVal c1 * 16 + hexVal c2) :: decodeHex false rest) ∧
    (isHexB c1 = true → isHexB c2 = false →
      decodeHex false (c1 :: c2 :: rest) = hexVal c1 :: decodeHex false rest) :=
  ⟨decodeHex_skip false c1 rest, decodeHex_pair c1 c2 rest,
   decodeHex_pair_bad c1 c2 rest⟩

/-- C4 witness: the digit-then-space case at concrete characters. -/
theorem hex_cursor_behavior_witness :
    decodeHex false (97 :: 32 :: [98]) = hexVal 97 :: decodeHex false [98] :=
  (hex_cursor_behavior 97 32 [98]).2.2 (by decide) (by decide)

/-! ## Decoding one emitted sfx line -/

theorem noteDigits5_length (data : Nat → Nat) (t : Nat) :
    (noteDigits5 data t).length = 5 := rfl

theorem sfxLineBody_digits (data : Nat → Nat) :
    sfxLineBody data = (sfxDigits data).map hexDigitCh ++ [10] := by
  simp only [sfxLineBody, sfxDigits, noteDigits5, hex2, List.map_append,
    List.map_cons, List.map_nil, List.map_flatMap, List.append_assoc,
    List.cons_append, List.nil_append]

theorem sfxDigits_lt (data : Nat → Nat) (hdata : ∀ j, data j < 256) :
    ∀ d ∈ sfxDigits data, d < 16 := by
  intro d hd
  have h64 := hdata 64
  have h65 := hdata 65
  have h66 := hdata 66
  have h67 := hdata 67
  simp only [sfxDigits, List.mem_append, List.mem_cons, List.mem_flatMap,
    List.not_mem_nil, or_false] at hd
  rcases hd with (rfl | rfl | rfl | rfl | rfl | rfl | rfl | rfl) | ⟨t, _, hmem⟩
  · omega
  · omega
  · omega
  · omega
  · omega
  · omega
  · omega
  · omega
  · have hp : data (2 * t) &&& 0x3f = data (2 * t) % 64 := by
      have h := land_mod (data (2 * t)) 6
      norm_num at h
      exact h
    have hq : ((data (2 * t + 1) <<< 2) &&& 0x4) ||| (data (2 * t) >>> 6) < 8 := by
      have ha : (data (2 * t + 1) <<< 2) &&& 0x4 ≤ 4 := Nat.and_le_right
      have hb : data (2 * t) >>> 6 < 8 := by
        rw [shiftRight_div]
        have := hdata (2 * t)
        norm_num
        omega
      have hc := Nat.or_lt_two_pow
        (x := (data (2 * t + 1) <<< 2) &&& 0x4) (y := data (2 * t) >>> 6)
        (n := 3) (by norm_num; omega) (by norm_num; omega)
      norm_num at hc
      exact hc
    have hv : (data (2 * t + 1) >>> 1) &&& 0x7 ≤ 7 := Nat.and_le_right
    have he : (data (2 * t + 1) >>> 4) &&& 0xf ≤ 15 := Nat.and_le_right
    simp only [noteDigits5, List.mem_cons, List.not_mem_nil, or_false] at hmem
    rcases hmem with rfl | rfl | rfl | rfl | rfl
    · omega
    · omega
    · omega
    · omega
    · omega

theorem sfxDigits_length (data : Nat → Nat) :
    (sfxDigits data).length = 168 := by
  simp only [sfxDigits, List.length_append, List.length_cons, List.length_nil]
  rw [flatMap_range_length 32 5 _ (fun t _ => noteDigits5_length data t)]

theorem sfxBlock_decode (data : Nat → Nat) (hdata : ∀ j, data j < 256) :
    decodeHex false (sfxLineBody data) =
      [data 64, data 65, data 66, data 67] ++ sfxArea data := by
  rw [sfxLineBody_digits,
    decodeHex_pairUp (sfxDigits data) (sfxDigits_lt data hdata)
      (by rw [sfxDigits_length]) [10]]
  have h10 : decodeHex false [10] = [] := rfl
  rw [h10, List.append_nil, sfxDigits, pairUp_append _ _ (by simp), sfxArea]
  congr 1
  simp only [pairUp]
  have h64 := hdata 64
  have h65 := hdata 65
  have h66 := hdata 66
  have h67 := hdata 67
  congr 1
  · omega
  congr 1
  · omega
  congr 1
  · omega
  congr 1
  · omega

/-! ## Note field arithmetic -/

theorem noteFields_arith (V : Nat) :
    noteFields V = (V / 4096 % 64, V / 256 % 8, V / 16 % 8, V % 16) := by
  have e1 : (0x3f000 : Nat) = 0x3f <<< 12 := by decide
  have e2 : (0x700 : Nat) = 0x7 <<< 8 := by decide
  have e3 : (0x70 : Nat) = 0x7 <<< 4 := by decide
  rw [noteFields, e1, e2, e3, land_shift_extract, land_shift_extract,
    land_shift_extract, shiftRight_div, shiftRight_div, shiftRight_div]
  have m1 : V / 2 ^ 12 &&& 0x3f = V / 2 ^ 12 % 64 := by
    have h := land_mod (V / 2 ^ 12) 6
    norm_num at h
    exact h
  have m2 : V / 2 ^ 8 &&& 0x7 = V / 2 ^ 8 % 8 := by
    have h := land_mod (V / 2 ^ 8) 3
    norm_num at h
    exact h
  have m3 : V / 2 ^ 4 &&& 0x7 = V / 2 ^ 4 % 8 := by
    have h := land_mod (V / 2 ^ 4) 3
    norm_num at h
    exact h
  have m4 : V &&& 0xf = V % 16 := by
    have h := land_mod V 4
    norm_num at h
    exact h
  rw [m1, m2, m3, m4]
  norm_num

theorem lor3 (A B C : Nat) (hB : B < 256) (hC : C < 256) :
    ((A <<< 16) ||| (B <<< 8)) ||| C = A * 65536 + B * 256 + C := by
  rw [Nat.lor_assoc]
  have hin : (B <<< 8) ||| C = B * 256 + C := by
    have h := lor_disjoint B C 8 (by norm_num; omega)
    norm_num at h
    exact h
  rw [hin]
  have hout := lor_disjoint A (B * 256 + C) 16 (by norm_num; omega)
  norm_num at hout
  rw [hout]
  omega

theorem sfxWord_even_fields (p q r e x : Nat) (hp : p < 64) (hq : q < 8)
    (hr : r < 8) (he : e < 16) (hx : x < 16) :
    noteFields ((((p <<< 16) ||| ((q * 16 + r) <<< 8)) ||| (e * 16 + x)) >>> 4) =
      (p, q, r, e) := by
  rw [lor3 _ _ _ (by omega) (by omega), shiftRight_div, noteFields_arith]
  simp only [Prod.mk.injEq]
  refine ⟨by omega, by omega, by omega, by omega⟩

theorem sfxWord_odd_fields (p q r e y : Nat) (hp : p < 64) (hq : q < 8)
    (hr : r < 8) (he : e < 16) (hy : y < 16) :
    noteFields (((((y * 16 + p / 16) <<< 16) ||| ((p % 16 * 16 + q) <<< 8)) |||
      (r * 16 + e)) &&& 0xfffff) = (p, q, r, e) := by
  rw [lor3 _ _ _ (by omega) (by omega)]
  have hmask : ((y * 16 + p / 16) * 65536 + (p % 16 * 16 + q) * 256 +
      (r * 16 + e)) &&& 0xfffff =
      ((y * 16 + p / 16) * 65536 + (p % 16 * 16 + q) * 256 +
      (r * 16 + e)) % 1048576 := by
    have h := land_mod ((y * 16 + p / 16) * 65536 + (p % 16 * 16 + q) * 256 +
      (r * 16 + e)) 20
    norm_num at h
    exact h
  rw [hmask, noteFields_arith]
  simp only [Prod.mk.injEq]
  refine ⟨by omega, by omega, by omega, by omega⟩

theorem pitch_lt {b : Nat} : b &&& 0x3f < 64 := by
  have h : b &&& 0x3f ≤ 0x3f := Nat.and_le_right
  omega

theorem inst_lt {b0 b1 : Nat} (hb0 : b0 < 256) :
    ((b1 <<< 2) &&& 0x4) ||| (b0 >>> 6) < 8 := by
  have ha : (b1 <<< 2) &&& 0x4 ≤ 4 := Nat.and_le_right
  have hb : b0 >>> 6 < 8 := by
    rw [shiftRight_div]
    norm_num
    omega
  have hc := Nat.or_lt_two_pow (x := (b1 <<< 2) &&& 0x4) (y := b0 >>> 6)
    (n := 3) (by norm_num; omega) (by norm_num; omega)
  norm_num at hc
  exact hc

theorem vol_lt {b : Nat} : (b >>> 1) &&& 0x7 < 8 := by
  have h : (b >>> 1) &&& 0x7 ≤ 7 := Nat.and_le_right
  omega

theorem eff_lt {b : Nat} : (b >>> 4) &&& 0xf < 16 := by
  have h : (b >>> 4) &&& 0xf ≤ 15 := Nat.and_le_right
  omega

theorem noteDigits5_getD0 (data : Nat → Nat) (t : Nat) :
    (noteDigits5 data t).getD 0 0 = (data (2 * t) &&& 0x3f) / 16 := rfl

theorem noteDigits5_getD1 (data : Nat → Nat) (t : Nat) :
    (noteDigits5 data t).getD 1 0 = (data (2 * t) &&& 0x3f) % 16 := rfl

theorem noteDigits5_getD2 (data : Nat → Nat) (t : Nat) :
    (noteDigits5 data t).getD 2 0 =
      ((data (2 * t + 1) <<< 2) &&& 0x4) ||| (data (2 * t) >>> 6) := rfl

theorem noteDigits5_getD3 (data : Nat → Nat) (t : Nat) :
    (noteDigits5 data t).getD 3 0 = (data (2 * t + 1) >>> 1) &&& 0x7 := rfl

theorem noteDigits5_getD4 (data : Nat → Nat) (t : Nat) :
    (noteDigits5 data t).getD 4 0 = (data (2 * t + 1) >>> 4) &&& 0xf := rfl

/-- Decoding the emitted five digits of note `j` out of an sfx line and
realigning, as load_p8 does, recovers exactly the four field values
that save_p8 extracted from the packed note bytes. -/
theorem sfxNote_decode (buf : List Nat) (ei : Nat) (data : Nat → Nat)
    (hdata : ∀ j, data j < 256)
    (hblock : ∀ x, x < 84 → buf.getD (ei * 84 + x) 0 =
      ([data 64, data 65, data 66, data 67] ++ sfxArea data).getD x 0)
    (j : Nat) (hj : j < 32) :
    noteFields (sfxNoteWord buf ei j) =
      (data (2 * j) &&& 0x3f,
       ((data (2 * j + 1) <<< 2) &&& 0x4) ||| (data (2 * j) >>> 6),
       (data (2 * j + 1) >>> 1) &&& 0x7,
       (data (2 * j + 1) >>> 4) &&& 0xf) := by
  have hflatlen : ((List.range 32).flatMap (noteDigits5 data)).length = 160 :=
    flatMap_range_length 32 5 _ (fun t _ => noteDigits5_length data t)
  have harea : ∀ m, m < 80 → buf.getD (4 + ei * 84 + m) 0 =
      (sfxArea data).getD m 0 := by
    intro m hm
    have hidx : 4 + ei * 84 + m = ei * 84 + (4 + m) := by omega
    rw [hidx, hblock (4 + m) (by omega),
      List.getD_append_right _ _ _ _ (by simp)]
    have hlen4 : 4 + m - ([data 64, data 65, data 66, data 67] :
        List Nat).length = m := by
      simp only [List.length_cons, List.length_nil]
      omega
    rw [hlen4]
  have hD : ∀ ii, ii < 160 →
      ((List.range 32).flatMap (noteDigits5 data)).getD ii 0 =
      (noteDigits5 data (ii / 5)).getD (ii % 5) 0 :=
    fun ii hii =>
      flatMap_range_getD 32 5 _ (fun t _ => noteDigits5_length data t) ii
        (by omega)
  have hareaD : ∀ m, m < 80 → (sfxArea data).getD m 0 =
      (noteDigits5 data (2 * m / 5)).getD (2 * m % 5) 0 * 16 +
      (noteDigits5 data ((2 * m + 1) / 5)).getD ((2 * m + 1) % 5) 0 := by
    intro m hm
    rw [sfxArea, pairUp_getD _ _ (by rw [hflatlen]; omega), hD _ (by omega),
      hD _ (by omega)]
  rcases Nat.even_or_odd j with ⟨t, ht⟩ | ⟨t, ht⟩
  · -- even note: the word is the upper 20 bits of the window
    have ht2 : j = 2 * t := by omega
    have htlt : t < 16 := by omega
    rw [sfxNoteWord]
    have hpar : ¬ j % 2 = 1 := by omega
    rw [if_neg hpar]
    have hq0 : 4 + ei * 84 + j * 5 / 2 = 4 + ei * 84 + (5 * t) := by
      have h5 : j * 5 / 2 = 5 * t := by omega
      rw [h5]
    have hq1 : 4 + ei * 84 + j * 5 / 2 + 1 = 4 + ei * 84 + (5 * t + 1) := by
      omega
    have hq2 : 4 + ei * 84 + j * 5 / 2 + 2 = 4 + ei * 84 + (5 * t + 2) := by
      omega
    rw [hq1, hq2, hq0,
      harea _ (by omega), harea _ (by omega), harea _ (by omega),
      hareaD _ (by omega), hareaD _ (by omega), hareaD _ (by omega)]
    rw [show 2 * (5 * t) / 5 = 2 * t from by omega,
      show 2 * (5 * t) % 5 = 0 from by omega,
      show (2 * (5 * t) + 1) / 5 = 2 * t from by omega,
      show (2 * (5 * t) + 1) % 5 = 1 from by omega,
      show 2 * (5 * t + 1) / 5 = 2 * t from by omega,
      show 2 * (5 * t + 1) % 5 = 2 from by omega,
      show (2 * (5 * t + 1) + 1) / 5 = 2 * t from by omega,
      show (2 * (5 * t + 1) + 1) % 5 = 3 from by omega,
      show 2 * (5 * t + 2) / 5 = 2 * t from by omega,
      show 2 * (5 * t + 2) % 5 = 4 from by omega,
      show (2 * (5 * t + 2) + 1) / 5 = 2 * t + 1 from by omega,
      show (2 * (5 * t + 2) + 1) % 5 = 0 from by omega]
    rw [noteDigits5_getD0 data (2 * t), noteDigits5_getD1 data (2 * t),
      noteDigits5_getD2 data (2 * t), noteDigits5_getD3 data (2 * t),
      noteDigits5_getD4 data (2 * t), noteDigits5_getD0 data (2 * t + 1)]
    rw [show 2 * (2 * t) = 2 * j from by omega]
    have hPdiv : (data (2 * j) &&& 0x3f) / 16 * 16 +
        (data (2 * j) &&& 0x3f) % 16 = data (2 * j) &&& 0x3f := by omega
    rw [hPdiv]
    exact sfxWord_even_fields (data (2 * j) &&& 0x3f)
      (((data (2 * j + 1) <<< 2) &&& 0x4) ||| (data (2 * j) >>> 6))
      ((data (2 * j + 1) >>> 1) &&& 0x7)
      ((data (2 * j + 1) >>> 4) &&& 0xf)
      ((data (2 * (2 * t + 1)) &&& 0x3f) / 16)
      pitch_lt (inst_lt (hdata (2 * j))) vol_lt eff_lt
      (by have h := pitch_lt (b := data (2 * (2 * t + 1))); omega)
  · -- odd note: the word is the lower 20 bits of the window
    have htlt : t < 16 := by omega
    rw [sfxNoteWord]
    have hpar : j % 2 = 1 := by omega
    rw [if_pos hpar]
    have hq0 : 4 + ei * 84 + j * 5 / 2 = 4 + ei * 84 + (5 * t + 2) := by
      have h5 : j * 5 / 2 = 5 * t + 2 := by omega
      rw [h5]
    have hq1 : 4 + ei * 84 + j * 5 / 2 + 1 = 4 + ei * 84 + (5 * t + 3) := by
      omega
    have hq2 : 4 + ei * 84 + j * 5 / 2 + 2 = 4 + ei * 84 + (5 * t + 4) := by
      omega
    rw [hq1, hq2, hq0,
      harea _ (by omega), harea _ (by omega), harea _ (by omega),
      hareaD _ (by omega), hareaD _ (by omega), hareaD _ (by omega)]
    rw [show 2 * (5 * t + 2) / 5 = 2 * t from by omega,
      show 2 * (5 * t + 2) % 5 = 4 from by omega,
      show (2 * (5 * t + 2) + 1) / 5 = 2 * t + 1 from by omega,
      show (2 * (5 * t + 2) + 1) % 5 = 0 from by omega,
      show 2 * (5 * t + 3) / 5 = 2 * t + 1 from by omega,
      show 2 * (5 * t + 3) % 5 = 1 from by omega,
      show (2 * (5 * t + 3) + 1) / 5 = 2 * t + 1 from by omega,
      show (2 * (5 * t + 3) + 1) % 5 = 2 from by omega,
      show 2 * (5 * t + 4) / 5 = 2 * t + 1 from by omega,
      show 2 * (5 * t + 4) % 5 = 3 from by omega,
      show (2 * (5 * t + 4) + 1) / 5 = 2 * t + 1 from by omega,
      show (2 * (5 * t + 4) + 1) % 5 = 4 from by omega]
    rw [noteDigits5_getD4 data (2 * t), noteDigits5_getD0 data (2 * t + 1),
      noteDigits5_getD1 data (2 * t + 1), noteDigits5_getD2 data (2 * t + 1),
      noteDigits5_getD3 data (2 * t + 1), noteDigits5_getD4 data (2 * t + 1)]
    rw [show 2 * (2 * t + 1) = 2 * j from by omega]
    exact sfxWord_odd_fields (data (2 * j) &&& 0x3f)
      (((data (2 * j + 1) <<< 2) &&& 0x4) ||| (data (2 * j) >>> 6))
      ((data (2 * j + 1) >>> 1) &&& 0x7)
      ((data (2 * j + 1) >>> 4) &&& 0xf)
      ((data (2 * (2 * t) + 1) >>> 4) &&& 0xf)
      pitch_lt (inst_lt (hdata (2 * j))) vol_lt eff_lt eff_lt

/-! ## C6: note packing and unpacking are mutually inverse -/

theorem shl_land_one_shl (x a : Nat) :
    (x <<< a) &&& (1 <<< a) = x % 2 * 2 ^ a := by
  rw [land_mask_shift, Nat.shiftLeft_shiftRight, Nat.and_one_is_mod,
    shiftLeft_mul]

/-- Save-side field extraction applied to the bit-field bytes of an
in-range note recovers the note's fields. -/
theorem extract_noteBytes (k i v e : Nat) (hk : k < 64) (hi : i < 8)
    (hv : v < 8) (he : e < 16) :
    ((k % 64 + i % 8 % 4 * 64) &&& 0x3f,
     (((i % 8 / 4 + v % 8 * 2 + e % 16 * 16) <<< 2) &&& 0x4) |||
       ((k % 64 + i % 8 % 4 * 64) >>> 6),
     ((i % 8 / 4 + v % 8 * 2 + e % 16 * 16) >>> 1) &&& 0x7,
     ((i % 8 / 4 + v % 8 * 2 + e % 16 * 16) >>> 4) &&& 0xf) =
      ((k : Nat), (i : Nat), (v : Nat), (e : Nat)) := by
  set b0 := k % 64 + i % 8 % 4 * 64 with hb0
  set b1 := i % 8 / 4 + v % 8 * 2 + e % 16 * 16 with hb1
  have hm0 : b0 &&& 0x3f = b0 % 64 := by
    have h := land_mod b0 6
    norm_num at h
    exact h
  have hm1 : (b1 <<< 2) &&& 0x4 = b1 % 2 * 4 := by
    have h := shl_land_one_shl b1 2
    norm_num at h
    exact h
  have hm2 : b0 >>> 6 = b0 / 64 := by
    rw [shiftRight_div]
    norm_num
  have hm3 : (b1 >>> 1) &&& 0x7 = b1 / 2 % 8 := by
    rw [shiftRight_div]
    have h := land_mod (b1 / 2) 3
    norm_num at h ⊢
    exact h
  have hm4 : (b1 >>> 4) &&& 0xf = b1 / 16 % 16 := by
    rw [shiftRight_div]
    have h := land_mod (b1 / 16) 4
    norm_num at h ⊢
    exact h
  have hor : b1 % 2 * 4 ||| b0 / 64 = b1 % 2 * 4 + b0 / 64 := by
    have hlt : b0 / 64 < 2 ^ 2 := by omega
    have h := lor_disjoint (b1 % 2) (b0 / 64) 2 hlt
    rw [shiftLeft_mul] at h
    norm_num at h ⊢
    exact h
  rw [hm0, hm1, hm2, hm3, hm4, hor]
  simp only [Prod.mk.injEq]
  refine ⟨by omega, by omega, by omega, by omega⟩

/-- C6: packing a note (key, instrument, volume, effect) with
key < 64, instrument < 8, volume < 8, effect < 16 into its 2.5-byte
packed text form as save_p8 does (sfxLineBody over the note's bit-field
bytes) and decoding it back as load_p8 does (decodeHex, the window read
sfxNoteWord and the field extraction noteFields) returns the identical
tuple, at every note slot j of the entry. -/
theorem note_pack_unpack (k i v e : Nat) (hk : k < 64) (hi : i < 8)
    (hv : v < 8) (he : e < 16) (j : Nat) (hj : j < 32) :
    noteFields (sfxNoteWord (decodeHex false (sfxLineBody
      (fun t => if t < 64 then (noteBytes k i v e).getD (t % 2) 0 else 0)))
        0 j) = (k, i, v, e) := by
  set data := fun t => if t < 64 then (noteBytes k i v e).getD (t % 2) 0 else 0
    with hdataDef
  have hnb0 : (noteBytes k i v e).getD 0 0 = k % 64 + i % 8 % 4 * 64 := rfl
  have hnb1 : (noteBytes k i v e).getD 1 0 =
      i % 8 / 4 + v % 8 * 2 + e % 16 * 16 := rfl
  have hdata : ∀ t, data t < 256 := by
    intro t
    show (if t < 64 then (noteBytes k i v e).getD (t % 2) 0 else 0) < 256
    by_cases ht : t < 64
    · rw [if_pos ht]
      have h2 : t % 2 = 0 ∨ t % 2 = 1 := by omega
      rcases h2 with h2 | h2 <;> rw [h2]
      · rw [hnb0]; omega
      · rw [hnb1]; omega
    · rw [if_neg ht]; omega
  have hdec := sfxBlock_decode data hdata
  have hblock : ∀ x, x < 84 →
      (decodeHex false (sfxLineBody data)).getD (0 * 84 + x) 0 =
      ([data 64, data 65, data 66, data 67] ++ sfxArea data).getD x 0 := by
    intro x hx
    rw [hdec]
    congr 1
    omega
  rw [sfxNote_decode _ 0 data hdata hblock j hj]
  have e0 : data (2 * j) = k % 64 + i % 8 % 4 * 64 := by
    show (if 2 * j < 64 then (noteBytes k i v e).getD (2 * j % 2) 0 else 0) = _
    rw [if_pos (by omega), show 2 * j % 2 = 0 from by omega, hnb0]
  have e1 : data (2 * j + 1) = i % 8 / 4 + v % 8 * 2 + e % 16 * 16 := by
    show (if 2 * j + 1 < 64 then (noteBytes k i v e).getD ((2 * j + 1) % 2) 0
      else 0) = _
    rw [if_pos (by omega), show (2 * j + 1) % 2 = 1 from by omega, hnb1]
  rw [e0, e1]
  exact extract_noteBytes k i v e hk hi hv he

/-- C6 witness: the round trip at a concrete note and slot. -/
theorem note_pack_unpack_witness :
    noteFields (sfxNoteWord (decodeHex false (sfxLineBody
      (fun t => if t < 64 then (noteBytes 21 5 3 9).getD (t % 2) 0 else 0)))
        0 7) = (21, 5, 3, 9) :=
  note_pack_unpack 21 5 3 9 (by norm_num) (by norm_num) (by norm_num)
    (by norm_num) 7 (by norm_num)

/-! ## Round trip groundwork: generic list lemmas -/

theorem flatMap_congr_mem {A B : Type} (l : List A) (f g : A → List B)
    (h : ∀ a ∈ l, f a = g a) : l.flatMap f = l.flatMap g := by
  induction l with
  | nil => rfl
  | cons x xs ih =>
    rw [List.flatMap_cons, List.flatMap_cons, h x (by simp),
      ih (fun a ha => g a |> fun _ => h a (by simp [ha]))]

theorem getD_lt_256 (l : List Nat) (h : ∀ b ∈ l, b < 256) (i : Nat) :
    l.getD i 0 < 256 := by
  rcases hlt : l[i]? with _ | b
  · simp [List.getD_eq_getElem?_getD, hlt]
  · have hb : b ∈ l := by
      have := List.getElem?_eq_some_iff.mp hlt
      obtain ⟨hilen, hv⟩ := this
      exact hv ▸ List.getElem_mem hilen
    simp only [List.getD_eq_getElem?_getD, hlt, Option.getD_some]
    exact h b hb

theorem getD_out_of_range (l : List Nat) (i : Nat) (h : l.length ≤ i) :
    l.getD i 0 = 0 := by
  rw [List.getD_eq_getElem?_getD, List.getElem?_eq_none h, Option.getD_none]

theorem slice_map_getD (l : List Nat) (a w : Nat) (h : a + w ≤ l.length) :
    (List.range w).map (fun i => l.getD (a + i) 0) = (l.drop a).take w := by
  apply List.ext_getElem?
  intro i
  rcases Nat.lt_or_ge i w with h1 | h1
  · rw [List.getElem?_map, List.getElem?_range h1, Option.map_some']
    have h2 : a + i < l.length := by omega
    rw [List.getElem?_take_of_lt h1, List.getElem?_drop,
      List.getElem?_eq_getElem h2, List.getD_eq_getElem l 0 h2]
  · rw [List.getElem?_eq_none (by simp; omega),
      List.getElem?_eq_none (by simp; omega)]

theorem slices_concat (l : List Nat) (w : Nat) : ∀ (k : Nat), w * k ≤ l.length →
    (List.range k).flatMap (fun j => (l.drop (j * w)).take w) = l.take (w * k)
  | 0, _ => by simp
  | k + 1, h => by
    have hle : w * k ≤ l.length := by
      have : w * k ≤ w * (k + 1) := Nat.mul_le_mul_left w (by omega)
      omega
    rw [List.range_succ, List.flatMap_append, slices_concat l w k hle]
    simp only [List.flatMap_cons, List.flatMap_nil, List.append_nil]
    have e1 : w * (k + 1) = w * k + w := by ring
    rw [e1, List.take_add, Nat.mul_comm k w]

theorem window_concat_off (l : List Nat) (a w k : Nat)
    (h : a + w * k ≤ l.length) :
    (List.range k).flatMap
      (fun j => (List.range w).map (fun i => l.getD (a + j * w + i) 0)) =
    (l.drop a).take (w * k) := by
  rw [flatMap_congr_mem _ _ (fun j => ((l.drop a).drop (j * w)).take w)
    (by
      intro j hj
      rw [List.mem_range] at hj
      have hjw : j * w + w ≤ w * k := by
        have : (j + 1) * w ≤ k * w := Nat.mul_le_mul_right w (by omega)
        have e2 : (j + 1) * w = j * w + w := by ring
        have e3 : k * w = w * k := Nat.mul_comm k w
        omega
      rw [slice_map_getD l (a + j * w) w (by omega)]
      show List.take w (List.drop (a + j * w) l) =
        List.take w (List.drop (j * w) (List.drop a l))
      rw [List.drop_drop])]
  exact slices_concat (l.drop a) w k (by simp; omega)

theorem take_pad_eq (l : List Nat) (n : Nat) (hn : n ≤ l.length)
    (hz : ∀ i, n ≤ i → l.getD i 0 = 0) :
    l.take n ++ List.replicate (l.length - n) 0 = l := by
  apply List.ext_getElem?
  intro i
  have hlt : (l.take n).length = n := by simp; omega
  rcases Nat.lt_or_ge i n with h1 | h1
  · rw [List.getElem?_append_left (by omega), List.getElem?_take_of_lt h1]
  · rcases Nat.lt_or_ge i l.length with h2 | h2
    · rw [List.getElem?_append_right (by omega), hlt,
        List.getElem?_replicate, if_pos (by omega),
        List.getElem?_eq_getElem h2]
      have h3 := hz i h1
      rw [List.getD_eq_getElem l 0 h2] at h3
      rw [h3]
    · rw [List.getElem?_eq_none (by simp; omega),
        List.getElem?_eq_none (by omega)]

/-! ## Round trip groundwork: the trimming scan -/

theorem lineCount_eq_lcAux (bytes : List Nat) (stride : Nat) :
    lineCount bytes stride = lcAux bytes stride bytes.length := rfl

theorem lcAux_succ (bytes : List Nat) (stride n : Nat) :
    lcAux bytes stride (n + 1) =
      if bytes.getD n 0 ≠ 0 then 1 + n / stride else lcAux bytes stride n := by
  rw [lcAux, List.range_succ, List.foldl_append]
  rfl

theorem lcAux_zero_of (bytes : List Nat) (stride : Nat)
    (h : ∀ i, bytes.getD i 0 = 0) : ∀ n, lcAux bytes stride n = 0
  | 0 => rfl
  | n + 1 => by
    rw [lcAux_succ, if_neg (fun hc => hc (h n)),
      lcAux_zero_of bytes stride h n]

theorem lineCount_zero_of (bytes : List Nat) (stride : Nat)
    (h : ∀ i, bytes.getD i 0 = 0) : lineCount bytes stride = 0 := by
  rw [lineCount_eq_lcAux]
  exact lcAux_zero_of bytes stride h _

theorem lcAux_cases (bytes : List Nat) (stride : Nat) : ∀ (n : Nat),
    lcAux bytes stride n = 0 ∨
      ∃ i, i < n ∧ lcAux bytes stride n = 1 + i / stride
  | 0 => Or.inl rfl
  | n + 1 => by
    rw [lcAux_succ]
    by_cases h : bytes.getD n 0 ≠ 0
    · exact Or.inr ⟨n, by omega, by rw [if_pos h]⟩
    · rw [if_neg h]
      rcases lcAux_cases bytes stride n with h0 | ⟨i, hi, he⟩
      · exact Or.inl h0
      · exact Or.inr ⟨i, by omega, he⟩

theorem lcAux_ge (bytes : List Nat) (stride : Nat) : ∀ (n i : Nat), i < n →
    bytes.getD i 0 ≠ 0 → 1 + i / stride ≤ lcAux bytes stride n
  | 0, i, hi, _ => absurd hi (by omega)
  | n + 1, i, hi, hnz => by
    rw [lcAux_succ]
    by_cases h : bytes.getD n 0 ≠ 0
    · rw [if_pos h]
      have hin : i ≤ n := by omega
      have := Nat.div_le_div_right (c := stride) hin
      omega
    · rw [if_neg h]
      have hin : i ≠ n := fun he => h (he ▸ hnz)
      exact lcAux_ge bytes stride n i (by omega) hnz

theorem lineCount_tail_zero (bytes : List Nat) (stride : Nat)
    (hs : 0 < stride) :
    ∀ i, stride * lineCount bytes stride ≤ i → bytes.getD i 0 = 0 := by
  intro i hi
  by_contra hnz
  have hilen : i < bytes.length := by
    by_contra hge
    exact hnz (getD_out_of_range bytes i (by omega))
  have h1 := lcAux_ge bytes stride bytes.length i hilen hnz
  rw [← lineCount_eq_lcAux] at h1
  have h2 : stride * (1 + i / stride) ≤ stride * lineCount bytes stride :=
    Nat.mul_le_mul_left stride h1
  have h3 := Nat.div_add_mod i stride
  have h4 : i % stride < stride := Nat.mod_lt i hs
  have e1 : stride * (1 + i / stride) = stride + stride * (i / stride) := by
    ring
  omega

theorem lineCount_bound (bytes : List Nat) (stride : Nat) :
    lineCount bytes stride = 0 ∨
      ∃ i, i < bytes.length ∧ lineCount bytes stride = 1 + i / stride := by
  rw [lineCount_eq_lcAux]
  exact lcAux_cases bytes stride bytes.length

/-! ## Round trip groundwork: line splitting -/

theorem splitEolGo_lf (cur rest : List Nat) :
    splitEolGo cur (10 :: rest) = (cur.reverse, true) :: splitEolGo [] rest := by
  rw [splitEolGo]
  simp

theorem splitEolGo_crlf (cur rest : List Nat) :
    splitEolGo cur (13 :: 10 :: rest) =
      (cur.reverse, true) :: splitEolGo [] rest := by
  rw [splitEolGo]
  simp [List.head?]

theorem splitEolGo_other (c : Nat) (cur rest : List Nat) (hc10 : c ≠ 10)
    (hcr : ¬(c = 13 ∧ rest.head? = some 10)) :
    splitEolGo cur (c :: rest) = splitEolGo (c :: cur) rest := by
  rw [splitEolGo]
  rw [if_neg hc10, if_neg hcr]

theorem splitEolGo_line : ∀ (content : List Nat),
    (∀ b ∈ content, b ≠ 10 ∧ b ≠ 13) → ∀ (cur rest : List Nat),
    splitEolGo cur (content ++ 10 :: rest) =
      (cur.reverse ++ content, true) :: splitEolGo [] rest
  | [], _, cur, rest => by simp [splitEolGo_lf]
  | c :: cs, h, cur, rest => by
    have hc := h c (by simp)
    rw [List.cons_append,
      splitEolGo_other c cur _ hc.1 (by rintro ⟨h13, _⟩; exact hc.2 h13),
      splitEolGo_line cs (fun b hb => h b (by simp [hb])) (c :: cur) rest]
    simp

theorem splitEol_line (content : List Nat)
    (h : ∀ b ∈ content, b ≠ 10 ∧ b ≠ 13) (rest : List Nat) :
    splitEol (content ++ 10 :: rest) = (content, true) :: splitEol rest := by
  rw [splitEol, splitEolGo_line content h [] rest]
  rfl

theorem splitEol_lines (idxs : List Nat) (content : Nat → List Nat)
    (h : ∀ x ∈ idxs, ∀ b ∈ content x, b ≠ 10 ∧ b ≠ 13) (rest : List Nat) :
    splitEol (idxs.flatMap (fun x => content x ++ [10]) ++ rest) =
      idxs.map (fun x => (content x, true)) ++ splitEol rest := by
  induction idxs with
  | nil => simp
  | cons x xs ih =>
    rw [List.flatMap_cons, List.append_assoc, List.append_assoc,
      show ([10] : List Nat) ++ (xs.flatMap (fun x => content x ++ [10]) ++ rest) =
        10 :: (xs.flatMap (fun x => content x ++ [10]) ++ rest) from rfl,
      splitEol_line (content x) (h x (by simp)) _,
      ih (fun y hy => h y (by simp [hy]))]
    simp

theorem splitEolGo_append_aux : ∀ (n : Nat) (A B cur : List Nat),
    A.length ≤ n → A.getLast? = some 10 →
    splitEolGo cur (A ++ B) = splitEolGo cur A ++ splitEolGo [] B := by
  intro n
  induction n with
  | zero =>
    intro A B cur hlen hlast
    have hA : A = [] := List.eq_nil_of_length_eq_zero (Nat.le_zero.mp hlen)
    subst hA
    simp at hlast
  | succ n ih =>
    intro A B cur hlen hlast
    rcases A with _ | ⟨a, A'⟩
    · simp at hlast
    rcases A' with _ | ⟨b, rest⟩
    · have ha : a = 10 := by simpa using hlast
      subst ha
      rw [List.cons_append, List.nil_append, splitEolGo_lf, splitEolGo_lf]
      simp [splitEolGo]
    · have htail : (b :: rest).getLast? = some 10 := by
        rw [← List.getLast?_cons_cons]
        exact hlast
      have hlen' : (b :: rest).length ≤ n := by
        simp at hlen ⊢
        omega
      by_cases ha : a = 10
      · subst ha
        rw [List.cons_append, splitEolGo_lf, splitEolGo_lf,
          ih _ B [] hlen' htail, List.cons_append]
      · by_cases hab : a = 13 ∧ b = 10
        · obtain ⟨ha13, hb10⟩ := hab
          subst ha13
          subst hb10
          rw [List.cons_append, List.cons_append, splitEolGo_crlf,
            splitEolGo_crlf]
          rcases rest with _ | ⟨c, rest2⟩
          · simp [splitEolGo]
          · have htail2 : (c :: rest2).getLast? = some 10 := by
              rw [← List.getLast?_cons_cons]
              exact htail
            rw [ih _ B [] (by simp at hlen ⊢; omega) htail2,
              List.cons_append]
        · have hcond : ¬(a = 13 ∧ ((b :: rest) ++ B).head? = some 10) := by
            rintro ⟨h13, hh⟩
            rw [List.cons_append, List.head?_cons] at hh
            exact hab ⟨h13, by injection hh⟩
          have hcond2 : ¬(a = 13 ∧ (b :: rest).head? = some 10) := by
            rintro ⟨h13, hh⟩
            exact hab ⟨h13, by simpa using hh⟩
          rw [List.cons_append, splitEolGo_other a cur _ ha hcond,
            splitEolGo_other a cur _ ha hcond2]
          exact ih _ B (a :: cur) hlen' htail

theorem splitEol_append (A B : List Nat)
    (h : A = [] ∨ A.getLast? = some 10) :
    splitEol (A ++ B) = splitEol A ++ splitEol B := by
  rcases h with h | h
  · subst h
    simp [splitEol, splitEolGo]
  · exact splitEolGo_append_aux A.length A B [] le_rfl h

/-! ## Round trip groundwork: line classification -/

theorem hexDigitCh_ne (d : Nat) :
    hexDigitCh d ≠ 10 ∧ hexDigitCh d ≠ 13 ∧ hexDigitCh d ≠ 95 := by
  rw [hexDigitCh]
  split <;> omega

theorem markerOf_nil : markerOf [] = none := by decide

theorem markerOf_cons_ne95 (c : Nat) (rest : List Nat) (hc : c ≠ 95) :
    markerOf (c :: rest) = none := by
  rw [markerOf]
  have hfind : sectionLits.find? (fun lit => lit.isPrefixOf (c :: rest)) =
      none := by
    have hlit : ∀ t : List Nat, (95 :: t).isPrefixOf (c :: rest) = false := by
      intro t
      simp [List.isPrefixOf, Ne.symm hc]
    rw [show sectionLits = [95 :: asc "_lua__", 95 :: asc "_gfx__",
      95 :: asc "_gff__", 95 :: asc "_map__", 95 :: asc "_sfx__",
      95 :: asc "_music__", 95 :: asc "_label__"] from by decide]
    simp [List.find?, hlit]
  rw [hfind]
  have htake : (c :: rest).take 2 ≠ [95, 95] := by
    cases rest <;> simp [hc]
  rw [if_neg htake]

theorem markerOf_hex2_head (v : Nat) (rest2 : List Nat) :
    markerOf (hex2 v ++ rest2) = none := by
  rw [hex2, List.cons_append]
  exact markerOf_cons_ne95 _ _ (hexDigitCh_ne _).2.2

/-! ## Round trip groundwork: section texts as line lists -/

theorem splitEol_section (count : Nat) (mchars : List Nat)
    (content : Nat → List Nat) (bodyf : Nat → List Nat)
    (hshape : ∀ line, bodyf line =
      (if line = 0 then mchars ++ [10] else []) ++ (content line ++ [10]))
    (hmc : ∀ b ∈ mchars, b ≠ 10 ∧ b ≠ 13)
    (hcn : ∀ x, ∀ b ∈ content x, b ≠ 10 ∧ b ≠ 13) (rest : List Nat) :
    splitEol ((List.range count).flatMap bodyf ++ rest) =
      (if count = 0 then [] else
        (mchars, true) ::
          (List.range count).map (fun line => (content line, true))) ++
      splitEol rest := by
  rcases count with _ | n
  · simp
  · rw [if_neg (by omega), List.range_succ_eq_map, List.flatMap_cons,
      hshape 0, if_pos rfl]
    have htail : ((List.range n).map Nat.succ).flatMap bodyf =
        ((List.range n).map Nat.succ).flatMap (fun x => content x ++ [10]) := by
      apply flatMap_congr_mem
      intro a ha
      rw [hshape a]
      have ha0 : a ≠ 0 := by
        simp only [List.mem_map] at ha
        obtain ⟨y, _, hy⟩ := ha
        omega
      rw [if_neg ha0, List.nil_append]
    rw [htail]
    simp only [List.append_assoc, List.singleton_append, List.cons_append,
      List.nil_append]
    rw [splitEol_line mchars hmc _, splitEol_line (content 0) (hcn 0) _,
      splitEol_lines _ content (fun y _ => hcn y) rest]
    simp

theorem flatMap_range_mul (m n : Nat) (f : Nat → List Nat) :
    (List.range (m * n)).flatMap f =
      (List.range m).flatMap
        (fun r => (List.range n).flatMap (fun c => f (r * n + c))) := by
  induction m with
  | zero => simp
  | succ m ih =>
    have e1 : (m + 1) * n = m * n + n := by ring
    rw [e1, List.range_add, List.flatMap_append, ih, List.range_succ,
      List.flatMap_append]
    congr 1
    simp only [List.flatMap_cons, List.flatMap_nil, List.append_nil]
    rw [List.flatMap_map]

theorem base32_char_props (v : Nat) :
    (asc "0123456789abcdefghijklmnopqrstuv").getD (v &&& 0x1f) 0 ≠ 10 ∧
    (asc "0123456789abcdefghijklmnopqrstuv").getD (v &&& 0x1f) 0 ≠ 13 ∧
    (asc "0123456789abcdefghijklmnopqrstuv").getD (v &&& 0x1f) 0 ≠ 95 := by
  have h32 : v &&& 0x1f < 32 := by
    rw [show (0x1f : Nat) = 2 ^ 5 - 1 from rfl, land_mod]
    exact Nat.mod_lt v (by omega)
  revert h32
  generalize v &&& 0x1f = x
  intro h32
  interval_cases x <;> decide

theorem labelBody_rows (label : List Nat) :
    (List.range (128 * 128)).flatMap (fun i =>
      [(asc "0123456789abcdefghijklmnopqrstuv").getD
        (label.getD i 0 &&& 0x1f) 0] ++
      (if (i + 1) % 128 = 0 then [10] else [])) =
      (List.range 128).flatMap (fun r => labelRowChars label r ++ [10]) := by
  rw [flatMap_range_mul 128 128]
  apply flatMap_congr_mem
  intro r _
  rw [labelRowChars]
  have h128 : List.range 128 = List.range 127 ++ [127] := List.range_succ 127
  rw [h128, List.flatMap_append, List.map_append]
  have hfirst : (List.range 127).flatMap (fun c =>
      [(asc "0123456789abcdefghijklmnopqrstuv").getD
        (label.getD (r * 128 + c) 0 &&& 0x1f) 0] ++
      (if (r * 128 + c + 1) % 128 = 0 then [10] else [])) =
      (List.range 127).map (fun cc =>
        (asc "0123456789abcdefghijklmnopqrstuv").getD
          (label.getD (r * 128 + cc) 0 &&& 0x1f) 0) := by
    rw [flatMap_congr_mem _ _ (fun c =>
      [(asc "0123456789abcdefghijklmnopqrstuv").getD
        (label.getD (r * 128 + c) 0 &&& 0x1f) 0])
      (by
        intro c hc
        rw [List.mem_range] at hc
        have hmod : (r * 128 + c + 1) % 128 = c + 1 := by omega
        rw [hmod, if_neg (by omega), List.append_nil])]
    induction (List.range 127) with
    | nil => rfl
    | cons y ys ihy => rw [List.flatMap_cons, List.map_cons, ihy]; rfl
  rw [hfirst]
  simp only [List.flatMap_cons, List.flatMap_nil, List.append_nil,
    List.map_cons, List.map_nil]
  have hlast : (r * 128 + 127 + 1) % 128 = 0 := by omega
  rw [hlast, if_pos rfl]
  simp

theorem labelRow_char_ne (label : List Nat) (r : Nat) :
    ∀ b ∈ labelRowChars label r, b ≠ 10 ∧ b ≠ 13 := by
  intro b hb
  rw [labelRowChars] at hb
  simp only [List.mem_map] at hb
  obtain ⟨cc, _, hcc⟩ := hb
  exact ⟨hcc ▸ (base32_char_props _).1, hcc ▸ (base32_char_props _).2.1⟩

theorem markerOf_labelRow (label : List Nat) (r : Nat) :
    markerOf (labelRowChars label r) = none := by
  rw [labelRowChars,
    show List.range 128 = 0 :: (List.range 127).map Nat.succ from
      List.range_succ_eq_map 127,
    List.map_cons]
  exact markerOf_cons_ne95 _ _ (base32_char_props _).2.2

/-! ## Round trip groundwork: the concrete markers -/

theorem markerOf_lua : markerOf (asc "__lua__") = some (asc "__lua__") := by
  decide

theorem markerOf_gfx : markerOf (asc "__gfx__") = some (asc "__gfx__") := by
  decide

theorem markerOf_gff : markerOf (asc "__gff__") = some (asc "__gff__") := by
  decide

theorem markerOf_map : markerOf (asc "__map__") = some (asc "__map__") := by
  decide

theorem markerOf_sfx : markerOf (asc "__sfx__") = some (asc "__sfx__") := by
  decide

theorem markerOf_music : markerOf (asc "__music__") = some (asc "__music__") := by
  decide

theorem markerOf_label : markerOf (asc "__label__") = some (asc "__label__") := by
  decide

theorem dispatch_lua : dispatch (asc "__lua__") = PSection.lua := by decide

theorem dispatch_gfx : dispatch (asc "__gfx__") = PSection.gfx := by decide

theorem dispatch_gff : dispatch (asc "__gff__") = PSection.gff := by decide

theorem dispatch_map : dispatch (asc "__map__") = PSection.map := by decide

theorem dispatch_sfx : dispatch (asc "__sfx__") = PSection.sfx := by decide

theorem dispatch_music : dispatch (asc "__music__") = PSection.mus := by decide

theorem dispatch_label : dispatch (asc "__label__") = PSection.lab := by decide

/-! ## Round trip groundwork: processing line runs -/

theorem processLines_marker (r : Reader) (sec : PSection) (mchars : List Nat)
    (t : Bool) (rest : List (List Nat × Bool))
    (hm : markerOf mchars = some mchars) :
    processLines r sec ((mchars, t) :: rest) =
      processLines r (dispatch mchars) rest := by
  rw [processLines, hm]

theorem processLines_data (r : Reader) (sec : PSection) (content : List Nat)
    (t : Bool) (rest : List (List Nat × Bool))
    (hm : markerOf content = none) :
    processLines r sec ((content, t) :: rest) =
      processLines (appendData r sec (lineChars content t)) sec rest := by
  rw [processLines, hm]

theorem processRun_gfx (content : Nat → List Nat) :
    ∀ (xs : List Nat) (r : Reader) (L2 : List (List Nat × Bool)),
    (∀ x ∈ xs, markerOf (content x) = none) →
    processLines r .gfx (xs.map (fun x => (content x, true)) ++ L2) =
      processLines
        { r with gfx := r.gfx ++
            xs.flatMap (fun x => decodeHex true (content x ++ [10])) }
        .gfx L2
  | [], r, L2, _ => by simp
  | x :: xs, r, L2, h => by
    rw [List.map_cons, List.cons_append,
      processLines_data r .gfx (content x) true _ (h x (by simp)),
      show appendData r .gfx (lineChars (content x) true) =
        { r with gfx := r.gfx ++ decodeHex true (content x ++ [10]) } from rfl,
      processRun_gfx content xs _ L2 (fun y hy => h y (by simp [hy]))]
    simp [List.append_assoc]

theorem processRun_gff (content : Nat → List Nat) :
    ∀ (xs : List Nat) (r : Reader) (L2 : List (List Nat × Bool)),
    (∀ x ∈ xs, markerOf (content x) = none) →
    processLines r .gff (xs.map (fun x => (content x, true)) ++ L2) =
      processLines
        { r with gff := r.gff ++
            xs.flatMap (fun x => decodeHex false (content x ++ [10])) }
        .gff L2
  | [], r, L2, _ => by simp
  | x :: xs, r, L2, h => by
    rw [List.map_cons, List.cons_append,
      processLines_data r .gff (content x) true _ (h x (by simp)),
      show appendData r .gff (lineChars (content x) true) =
        { r with gff := r.gff ++ decodeHex false (content x ++ [10]) } from rfl,
      processRun_gff content xs _ L2 (fun y hy => h y (by simp [hy]))]
    simp [List.append_assoc]

theorem processRun_map (content : Nat → List Nat) :
    ∀ (xs : List Nat) (r : Reader) (L2 : List (List Nat × Bool)),
    (∀ x ∈ xs, markerOf (content x) = none) →
    processLines r .map (xs.map (fun x => (content x, true)) ++ L2) =
      processLines
        { r with map := r.map ++
            xs.flatMap (fun x => decodeHex false (content x ++ [10])) }
        .map L2
  | [], r, L2, _ => by simp
  | x :: xs, r, L2, h => by
    rw [List.map_cons, List.cons_append,
      processLines_data r .map (content x) true _ (h x (by simp)),
      show appendData r .map (lineChars (content x) true) =
        { r with map := r.map ++ decodeHex false (content x ++ [10]) } from rfl,
      processRun_map content xs _ L2 (fun y hy => h y (by simp [hy]))]
    simp [List.append_assoc]

theorem processRun_sfx (content : Nat → List Nat) :
    ∀ (xs : List Nat) (r : Reader) (L2 : List (List Nat × Bool)),
    (∀ x ∈ xs, markerOf (content x) = none) →
    processLines r .sfx (xs.map (fun x => (content x, true)) ++ L2) =
      processLines
        { r with sfx := r.sfx ++
            xs.flatMap (fun x => decodeHex false (content x ++ [10])) }
        .sfx L2
  | [], r, L2, _ => by simp
  | x :: xs, r, L2, h => by
    rw [List.map_cons, List.cons_append,
      processLines_data r .sfx (content x) true _ (h x (by simp)),
      show appendData r .sfx (lineChars (content x) true) =
        { r with sfx := r.sfx ++ decodeHex false (content x ++ [10]) } from rfl,
      processRun_sfx content xs _ L2 (fun y hy => h y (by simp [hy]))]
    simp [List.append_assoc]

theorem processRun_mus (content : Nat → List Nat) :
    ∀ (xs : List Nat) (r : Reader) (L2 : List (List Nat × Bool)),
    (∀ x ∈ xs, markerOf (content x) = none) →
    processLines r .mus (xs.map (fun x => (content x, true)) ++ L2) =
      processLines
        { r with mus := r.mus ++
            xs.flatMap (fun x => decodeHex false (content x ++ [10])) }
        .mus L2
  | [], r, L2, _ => by simp
  | x :: xs, r, L2, h => by
    rw [List.map_cons, List.cons_append,
      processLines_data r .mus (content x) true _ (h x (by simp)),
      show appendData r .mus (lineChars (content x) true) =
        { r with mus := r.mus ++ decodeHex false (content x ++ [10]) } from rfl,
      processRun_mus content xs _ L2 (fun y hy => h y (by simp [hy]))]
    simp [List.append_assoc]

theorem processRun_lab (content : Nat → List Nat) :
    ∀ (xs : List Nat) (r : Reader) (L2 : List (List Nat × Bool)),
    (∀ x ∈ xs, markerOf (content x) = none) →
    processLines r .lab (xs.map (fun x => (content x, true)) ++ L2) =
      processLines
        { r with lab := r.lab ++
            xs.flatMap (fun x => decodeBase32 (content x ++ [10])) }
        .lab L2
  | [], r, L2, _ => by simp
  | x :: xs, r, L2, h => by
    rw [List.map_cons, List.cons_append,
      processLines_data r .lab (content x) true _ (h x (by simp)),
      show appendData r .lab (lineChars (content x) true) =
        { r with lab := r.lab ++ decodeBase32 (content x ++ [10]) } from rfl,
      processRun_lab content xs _ L2 (fun y hy => h y (by simp [hy]))]
    simp [List.append_assoc]

theorem processRun_lua :
    ∀ (ls : List (List Nat × Bool)) (r : Reader) (L2 : List (List Nat × Bool)),
    (∀ l ∈ ls, markerOf l.1 = none) →
    processLines r .lua (ls ++ L2) =
      processLines
        { r with code := r.code ++
            ls.flatMap (fun l => crlfToLf (lineChars l.1 l.2)) }
        .lua L2
  | [], r, L2, _ => by simp
  | (content, t) :: ls, r, L2, h => by
    rw [List.cons_append,
      processLines_data r .lua content t _ (h (content, t) (by simp)),
      show appendData r .lua (lineChars content t) =
        { r with code := r.code ++ crlfToLf (lineChars content t) } from rfl,
      processRun_lua ls _ L2 (fun y hy => h y (by simp [hy]))]
    simp [List.append_assoc]

theorem appendData_rom_fields (r : Reader) (sec : PSection) :
    (appendData r sec [10]).gfx = r.gfx ∧ (appendData r sec [10]).gff = r.gff ∧
    (appendData r sec [10]).map = r.map ∧ (appendData r sec [10]).sfx = r.sfx ∧
    (appendData r sec [10]).mus = r.mus ∧
    (appendData r sec [10]).version = r.version := by
  have h1 : decodeHex true [10] = [] := rfl
  have h2 : decodeHex false [10] = [] := rfl
  have h3 : decodeBase32 [10] = [] := rfl
  cases sec <;> simp [appendData, h1, h2, h3]

/-! ## Round trip groundwork: the header lines -/

theorem dropThroughEol_skip : ∀ (pre : List Nat),
    (∀ b ∈ pre, b ≠ 10 ∧ b ≠ 13) → ∀ (R : List Nat),
    dropThroughEol (pre ++ 10 :: R) = some R
  | [], _, R => rfl
  | c :: pre, h, R => by
    have hc := h c (by simp)
    rw [List.cons_append, dropThroughEol, if_neg hc.1,
      if_neg (by rintro ⟨h13, _⟩; exact hc.2 h13)]
    exact dropThroughEol_skip pre (fun b hb => h b (by simp [hb])) R

/-- parse of a well-formed header: the version action fires with
version 8 and the body is processed line by line from the `header`
state. -/
theorem parseP8_header (X : List Nat) :
    parseP8 (asc "pico-8 cartridge // http://www.pico-8.com\nversion 8\n" ++ X) =
      processLines { version := 8 } PSection.header (splitEol X) := by
  have hbom : ([0xef, 0xbb, 0xbf] : List Nat).isPrefixOf
      (asc "pico-8 cartridge // http://www.pico-8.com\nversion 8\n" ++ X) = false := by
    rw [show asc "pico-8 cartridge // http://www.pico-8.com\nversion 8\n" =
      112 :: asc "ico-8 cartridge // http://www.pico-8.com\nversion 8\n" from by decide,
      List.cons_append]
    simp [List.isPrefixOf]
  have hs1 : asc "pico-8 cartridge // http://www.pico-8.com\nversion 8\n" =
      asc "pico-8 cartridge" ++ asc " // http://www.pico-8.com\nversion 8\n" := by
    decide
  have hpico : (asc "pico-8 cartridge").isPrefixOf
      (asc "pico-8 cartridge // http://www.pico-8.com\nversion 8\n" ++ X) = true := by
    rw [hs1, List.append_assoc, List.isPrefixOf_iff_prefix]
    exact List.prefix_append _ _
  have hdrop16 : (asc "pico-8 cartridge // http://www.pico-8.com\nversion 8\n"
      ++ X).drop 16 = asc " // http://www.pico-8.com\nversion 8\n" ++ X := by
    rw [hs1, List.append_assoc, List.drop_left' (by decide)]
  have hs2 : asc " // http://www.pico-8.com\nversion 8\n" ++ X =
      asc " // http://www.pico-8.com" ++ (10 :: (asc "version 8\n" ++ X)) := by
    rw [show asc " // http://www.pico-8.com\nversion 8\n" =
      asc " // http://www.pico-8.com" ++ (10 :: asc "version 8\n") from by decide]
    simp
  have hdte1 : dropThroughEol ((asc "pico-8 cartridge // http://www.pico-8.com\nversion 8\n" ++ X).drop 16) = some (asc "version 8\n" ++ X) := by
    rw [hdrop16, hs2]
    exact dropThroughEol_skip _ (by decide) _
  have hver : (asc "version ").isPrefixOf (asc "version 8\n" ++ X) = true := by
    rw [show asc "version 8\n" = asc "version " ++ [56, 10] from by decide,
      List.append_assoc, List.isPrefixOf_iff_prefix]
    exact List.prefix_append _ _
  have hdropver : (asc "version 8\n" ++ X).drop 8 = 56 :: 10 :: X := by
    rw [show asc "version 8\n" = asc "version " ++ [56, 10] from by decide,
      List.append_assoc, List.drop_left' (by decide)]
    rfl
  have htw : (56 :: 10 :: X).takeWhile isDigitB = [56] := by
    rw [List.takeWhile_cons, List.takeWhile_cons]
    norm_num [isDigitB]
  have hdte2 : dropThroughEol ((56 :: 10 :: X).drop ((56 :: 10 :: X).takeWhile isDigitB).length) = some X := by
    rw [htw]
    rw [show ((56 : Nat) :: 10 :: X).drop [56].length = 10 :: X from rfl,
      dropThroughEol]
    simp
  rw [parseP8]
  simp only [hbom, Bool.false_eq_true, if_false, hpico, if_true, hdte1,
    hver, hdropver, htw, hdte2]
  norm_num [natOfDigits]
  rw [show dropThroughEol (10 :: X) = some X from by rw [dropThroughEol]; simp]

/-! ## Round trip groundwork: music arithmetic -/

theorem musicFlags_sum (d : Nat → Nat) (h0 : d 0 < 256) (h1 : d 1 < 256)
    (h2 : d 2 < 256) (h3 : d 3 < 256) :
    musicFlags d =
      (d 0 >>> 7) + 2 * (d 1 >>> 7) + 4 * (d 2 >>> 7) + 8 * (d 3 >>> 7) := by
  have b0 : d 0 >>> 7 < 2 := by
    rw [shiftRight_div, show (2 : Nat) ^ 7 = 128 from rfl]
    omega
  have b1 : d 1 >>> 7 < 2 := by
    rw [shiftRight_div, show (2 : Nat) ^ 7 = 128 from rfl]
    omega
  have b2 : d 2 >>> 7 < 2 := by
    rw [shiftRight_div, show (2 : Nat) ^ 7 = 128 from rfl]
    omega
  have b3 : d 3 >>> 7 < 2 := by
    rw [shiftRight_div, show (2 : Nat) ^ 7 = 128 from rfl]
    omega
  rw [musicFlags, Nat.lor_comm (d 0 >>> 7),
    lor_disjoint _ _ 1 (by rw [show (2 : Nat) ^ 1 = 2 from rfl]; omega),
    Nat.lor_comm _ ((d 2 >>> 7) <<< 2),
    lor_disjoint _ _ 2 (by
      rw [show (2 : Nat) ^ 2 = 4 from rfl, show (2 : Nat) ^ 1 = 2 from rfl]
      omega),
    Nat.lor_comm _ ((d 3 >>> 7) <<< 3),
    lor_disjoint _ _ 3 (by
      rw [show (2 : Nat) ^ 3 = 8 from rfl, show (2 : Nat) ^ 2 = 4 from rfl,
        show (2 : Nat) ^ 1 = 2 from rfl]
      omega)]
  rw [show (2 : Nat) ^ 1 = 2 from rfl, show (2 : Nat) ^ 2 = 4 from rfl,
    show (2 : Nat) ^ 3 = 8 from rfl]
  ring

theorem musicFlags_lt (d : Nat → Nat) (h0 : d 0 < 256) (h1 : d 1 < 256)
    (h2 : d 2 < 256) (h3 : d 3 < 256) : musicFlags d < 16 := by
  have b0 : d 0 >>> 7 < 2 := by
    rw [shiftRight_div, show (2 : Nat) ^ 7 = 128 from rfl]
    omega
  have b1 : d 1 >>> 7 < 2 := by
    rw [shiftRight_div, show (2 : Nat) ^ 7 = 128 from rfl]
    omega
  have b2 : d 2 >>> 7 < 2 := by
    rw [shiftRight_div, show (2 : Nat) ^ 7 = 128 from rfl]
    omega
  have b3 : d 3 >>> 7 < 2 := by
    rw [shiftRight_div, show (2 : Nat) ^ 7 = 128 from rfl]
    omega
  rw [musicFlags_sum d h0 h1 h2 h3]
  omega

theorem musicFlags_bit (d : Nat → Nat) (h0 : d 0 < 256) (h1 : d 1 < 256)
    (h2 : d 2 < 256) (h3 : d 3 < 256) (k : Nat) (hk : k < 4) :
    (musicFlags d >>> k) &&& 1 = d k >>> 7 := by
  have b0 : d 0 >>> 7 < 2 := by
    rw [shiftRight_div, show (2 : Nat) ^ 7 = 128 from rfl]
    omega
  have b1 : d 1 >>> 7 < 2 := by
    rw [shiftRight_div, show (2 : Nat) ^ 7 = 128 from rfl]
    omega
  have b2 : d 2 >>> 7 < 2 := by
    rw [shiftRight_div, show (2 : Nat) ^ 7 = 128 from rfl]
    omega
  have b3 : d 3 >>> 7 < 2 := by
    rw [shiftRight_div, show (2 : Nat) ^ 7 = 128 from rfl]
    omega
  rw [Nat.and_one_is_mod, shiftRight_div, musicFlags_sum d h0 h1 h2 h3]
  interval_cases k
  · rw [show (2 : Nat) ^ 0 = 1 from rfl]
    omega
  · rw [show (2 : Nat) ^ 1 = 2 from rfl]
    omega
  · rw [show (2 : Nat) ^ 2 = 4 from rfl]
    omega
  · rw [show (2 : Nat) ^ 3 = 8 from rfl]
    omega

theorem flag_restore (x F k s : Nat) (hx : x < 256) (hF : F < 16)
    (hks : k + s = 7) (hbit : (F >>> k) &&& 1 = x >>> 7) :
    songSfx x ||| ((F <<< s) &&& 0x80) = x := by
  have e2 : (F <<< s) >>> 7 = F >>> k := by
    rw [shiftLeft_mul, shiftRight_div, shiftRight_div,
      show (2 : Nat) ^ 7 = 2 ^ s * 2 ^ k from by
        rw [← pow_add]
        congr 1
        omega,
      Nat.mul_comm F (2 ^ s), Nat.mul_div_mul_left _ _ (Nat.pos_pow_of_pos s (by omega))]
  have e1 : (F <<< s) &&& 0x80 = (x >>> 7) % 2 * 2 ^ 7 := by
    rw [show (0x80 : Nat) = 1 <<< 7 from rfl, land_mask_shift, e2,
      Nat.and_one_is_mod, ← hbit, Nat.and_one_is_mod, shiftLeft_mul,
      Nat.mod_mod_of_dvd _ (by omega)]
  rw [songSfx, show (0x7f : Nat) = 2 ^ 7 - 1 from rfl, land_mod, e1,
    Nat.lor_comm, ← shiftLeft_mul, lor_disjoint _ _ 7
      (Nat.mod_lt x (by norm_num)),
    shiftRight_div]
  have h128 : (2 : Nat) ^ 7 = 128 := rfl
  rw [h128]
  omega

theorem musicDecode_reconstruct (d : Nat → Nat) (h0 : d 0 < 256)
    (h1 : d 1 < 256) (h2 : d 2 < 256) (h3 : d 3 < 256) :
    musicDecode (musicFlags d) (songSfx (d 0)) (songSfx (d 1))
      (songSfx (d 2)) (songSfx (d 3)) = [d 0, d 1, d 2, d 3] := by
  have hF := musicFlags_lt d h0 h1 h2 h3
  rw [musicDecode,
    flag_restore (d 0) _ 0 7 h0 hF (by omega)
      (musicFlags_bit d h0 h1 h2 h3 0 (by omega)),
    flag_restore (d 1) _ 1 6 h1 hF (by omega)
      (musicFlags_bit d h0 h1 h2 h3 1 (by omega)),
    flag_restore (d 2) _ 2 5 h2 hF (by omega)
      (musicFlags_bit d h0 h1 h2 h3 2 (by omega)),
    flag_restore (d 3) _ 3 4 h3 hF (by omega)
      (musicFlags_bit d h0 h1 h2 h3 3 (by omega))]

theorem songSfx_lt (x : Nat) : songSfx x < 256 := by
  rw [songSfx, show (0x7f : Nat) = 2 ^ 7 - 1 from rfl, land_mod]
  have := Nat.mod_lt x (show 0 < 2 ^ 7 by norm_num)
  omega

theorem musicLine_decode (d : Nat → Nat) (h0 : d 0 < 256) (h1 : d 1 < 256)
    (h2 : d 2 < 256) (h3 : d 3 < 256) :
    decodeHex false (musicLineBody d) =
      [musicFlags d, songSfx (d 0), songSfx (d 1), songSfx (d 2),
       songSfx (d 3)] := by
  have hF : musicFlags d < 16 := musicFlags_lt d h0 h1 h2 h3
  rw [musicLineBody]
  simp only [List.append_assoc, List.cons_append, List.singleton_append,
    List.nil_append]
  rw [decodeHex_hex2 _ (by omega) _,
    decodeHex_skip false 32 _ (by decide),
    decodeHex_hex2 _ (songSfx_lt _) _, decodeHex_hex2 _ (songSfx_lt _) _,
    decodeHex_hex2 _ (songSfx_lt _) _, decodeHex_hex2 _ (songSfx_lt _) _]
  rfl

/-! ## Round trip groundwork: note byte arithmetic -/

theorem noteBytes_extract (b0 b1 : Nat) (hb0 : b0 < 256) (hb1 : b1 < 256) :
    noteBytes (b0 &&& 0x3f) (((b1 <<< 2) &&& 0x4) ||| (b0 >>> 6))
      ((b1 >>> 1) &&& 0x7) ((b1 >>> 4) &&& 0xf) = [b0, b1] := by
  have e0 : b0 &&& 0x3f = b0 % 64 := by
    rw [show (0x3f : Nat) = 2 ^ 6 - 1 from rfl, land_mod]
    norm_num
  have e1 : (b1 <<< 2) &&& 0x4 = b1 % 2 * 4 := by
    have h := shl_land_one_shl b1 2
    rw [show (1 : Nat) <<< 2 = 0x4 from rfl] at h
    rw [h]
    norm_num
  have e2 : b0 >>> 6 = b0 / 64 := by
    rw [shiftRight_div]
    norm_num
  have e3 : (b1 >>> 1) &&& 0x7 = b1 / 2 % 8 := by
    rw [show (0x7 : Nat) = 2 ^ 3 - 1 from rfl, land_mod, shiftRight_div]
    norm_num
  have e4 : (b1 >>> 4) &&& 0xf = b1 / 16 % 16 := by
    rw [show (0xf : Nat) = 2 ^ 4 - 1 from rfl, land_mod, shiftRight_div]
    norm_num
  have e5 : (b1 % 2 * 4) ||| (b0 / 64) = b1 % 2 * 4 + b0 / 64 := by
    rw [show b1 % 2 * 4 = (b1 % 2) <<< 2 from by rw [shiftLeft_mul]; norm_num,
      lor_disjoint _ _ 2 (by
        rw [show (2 : Nat) ^ 2 = 4 from rfl]
        omega)]
    rw [shiftLeft_mul]
  rw [noteBytes, e0, e1, e2, e3, e4, e5]
  simp only [List.cons.injEq, and_true]
  exact ⟨by omega, by omega⟩

/-! ## Round trip groundwork: decoded section buffers -/

theorem gfxBuffer_eq (g : List Nat) (hg : ∀ b ∈ g, b < 256) (count : Nat)
    (hcount : 64 * count ≤ g.length) :
    (List.range count).flatMap
      (fun line => decodeHex true (gfxLineBody g line)) =
      g.take (64 * count) := by
  have hline : ∀ line ∈ List.range count,
      decodeHex true (gfxLineBody g line) =
        (List.range 64).map (fun i => g.getD (line * 64 + i) 0) := by
    intro line _
    rw [gfxLineBody]
    have hsplit : (List.range 64).flatMap
        (fun i => hex2 (g.getD (line * 64 + i) 0 * 0x101 / 0x10 % 256)) =
        ((List.range 64).map (fun i => g.getD (line * 64 + i) 0)).flatMap
          (fun v => hex2 (v * 0x101 / 0x10 % 256)) := by
      rw [List.flatMap_map]
    rw [hsplit, decodeHex_flat_gfx _ (by
        intro v hv
        simp only [List.mem_map] at hv
        obtain ⟨i, _, hi⟩ := hv
        exact hi ▸ getD_lt_256 g hg _) [10],
      show decodeHex true [10] = [] from rfl, List.append_nil]
  rw [flatMap_congr_mem _ _ _ hline]
  have h2 := window_concat_off g 0 64 count (by omega)
  rw [List.drop_zero] at h2
  simp only [Nat.zero_add] at h2
  exact h2

theorem hexBuffer_eq (bs : List Nat) (hb : ∀ b ∈ bs, b < 256) (count : Nat)
    (hcount : 128 * count ≤ bs.length) :
    (List.range count).flatMap
      (fun line => decodeHex false (hexLineBody bs line)) =
      bs.take (128 * count) := by
  have hline : ∀ line ∈ List.range count,
      decodeHex false (hexLineBody bs line) =
        (List.range 128).map (fun i => bs.getD (128 * line + i) 0) := by
    intro line _
    rw [hexLineBody]
    have hsplit : (List.range 128).flatMap
        (fun i => hex2 (bs.getD (128 * line + i) 0)) =
        ((List.range 128).map (fun i => bs.getD (128 * line + i) 0)).flatMap
          hex2 := by
      rw [List.flatMap_map]
    rw [hsplit, decodeHex_flat_hex2 _ (by
        intro v hv
        simp only [List.mem_map] at hv
        obtain ⟨i, _, hi⟩ := hv
        exact hi ▸ getD_lt_256 bs hb _) [10],
      show decodeHex false [10] = [] from rfl, List.append_nil]
  rw [flatMap_congr_mem _ _ _ hline]
  simp only [show ∀ a : Nat, 128 * a = a * 128 from fun a => Nat.mul_comm 128 a]
  have h2 := window_concat_off bs 0 128 count (by omega)
  rw [List.drop_zero] at h2
  simp only [Nat.zero_add] at h2
  rw [h2, Nat.mul_comm count 128]

theorem sfxArea_length (data : Nat → Nat) : (sfxArea data).length = 80 := by
  rw [sfxArea, pairUp_length,
    flatMap_range_length 32 5 _ (fun t _ => noteDigits5_length data t)]

theorem pairs_window (l : List Nat) (a : Nat) (h : a + 64 ≤ l.length) :
    (List.range 32).flatMap
      (fun j => [l.getD (a + 2 * j) 0, l.getD (a + 2 * j + 1) 0]) =
      (l.drop a).take 64 := by
  have h2 := window_concat_off l a 2 32 (by omega)
  rw [show (2 * 32 : Nat) = 64 from rfl] at h2
  rw [← h2]
  apply flatMap_congr_mem
  intro j _
  show _ = (List.range 2).map (fun i => l.getD (a + j * 2 + i) 0)
  have e1 : a + 2 * j + 1 = a + j * 2 + 1 := by ring
  have e0 : a + 2 * j = a + j * 2 + 0 := by ring
  rw [e1, e0]
  rfl

theorem sfxRegion_reconstruct (sx : List Nat) (hsx : ∀ b ∈ sx, b < 256)
    (hlen : sx.length = 0x1100) (count : Nat) (hcount : count ≤ 64) :
    sfxRegion ((List.range count).flatMap (fun line =>
      decodeHex false (sfxLineBody (fun j => sx.getD (line * 68 + j) 0)))) =
      sx.take (68 * count) ++ List.replicate (0x1100 - 68 * count) 0 := by
  have hdlt : ∀ line j : Nat, (fun j => sx.getD (line * 68 + j) 0) j < 256 :=
    fun line j => getD_lt_256 sx hsx _
  have hdec : ∀ line ∈ List.range count,
      decodeHex false (sfxLineBody (fun j => sx.getD (line * 68 + j) 0)) =
        [sx.getD (line * 68 + 64) 0, sx.getD (line * 68 + 65) 0,
         sx.getD (line * 68 + 66) 0, sx.getD (line * 68 + 67) 0] ++
        sfxArea (fun j => sx.getD (line * 68 + j) 0) :=
    fun line _ => sfxBlock_decode _ (hdlt line)
  rw [flatMap_congr_mem _ _ _ hdec]
  have hflen : ∀ t : Nat, t < count →
      ([sx.getD (t * 68 + 64) 0, sx.getD (t * 68 + 65) 0,
        sx.getD (t * 68 + 66) 0, sx.getD (t * 68 + 67) 0] ++
       sfxArea (fun j => sx.getD (t * 68 + j) 0)).length = 84 := by
    intro t _
    simp [sfxArea_length]
  have hBlen : ((List.range count).flatMap (fun line =>
      [sx.getD (line * 68 + 64) 0, sx.getD (line * 68 + 65) 0,
       sx.getD (line * 68 + 66) 0, sx.getD (line * 68 + 67) 0] ++
      sfxArea (fun j => sx.getD (line * 68 + j) 0))).length = count * 84 :=
    flatMap_range_length count 84 _ hflen
  have hblock : ∀ i, i < count → ∀ x, x < 84 →
      ((List.range count).flatMap (fun line =>
        [sx.getD (line * 68 + 64) 0, sx.getD (line * 68 + 65) 0,
         sx.getD (line * 68 + 66) 0, sx.getD (line * 68 + 67) 0] ++
        sfxArea (fun j => sx.getD (line * 68 + j) 0))).getD (i * 84 + x) 0 =
      ([sx.getD (i * 68 + 64) 0, sx.getD (i * 68 + 65) 0,
        sx.getD (i * 68 + 66) 0, sx.getD (i * 68 + 67) 0] ++
       sfxArea (fun j => sx.getD (i * 68 + j) 0)).getD x 0 := by
    intro i hi x hx
    rw [flatMap_range_getD count 84 _ hflen (i * 84 + x) (by omega)]
    have hdiv : (i * 84 + x) / 84 = i := by omega
    have hmod : (i * 84 + x) % 84 = x := by omega
    rw [hdiv, hmod]
  rw [sfxRegion]
  simp only [hBlen]
  have hc1 : count * 84 / 84 = count := by omega
  rw [hc1, Nat.min_eq_right hcount]
  congr 1
  rw [flatMap_congr_mem _ _ (fun i => (sx.drop (i * 68)).take 68) ?hentry]
  · exact slices_concat sx 68 count (by omega)
  intro i hi
  rw [List.mem_range] at hi
  show _ = (sx.drop (i * 68)).take 68
  rw [sfxEntry]
  have hnotes : (List.range 32).flatMap (fun j =>
      let f := noteFields (sfxNoteWord ((List.range count).flatMap (fun line =>
        [sx.getD (line * 68 + 64) 0, sx.getD (line * 68 + 65) 0,
         sx.getD (line * 68 + 66) 0, sx.getD (line * 68 + 67) 0] ++
        sfxArea (fun j => sx.getD (line * 68 + j) 0))) i j)
      noteBytes f.1 f.2.1 f.2.2.1 f.2.2.2) =
      (sx.drop (i * 68)).take 64 := by
    rw [flatMap_congr_mem _ _ (fun j =>
      [sx.getD (i * 68 + 2 * j) 0, sx.getD (i * 68 + 2 * j + 1) 0]) ?hnote]
    · exact pairs_window sx (i * 68) (by omega)
    intro j hj
    rw [List.mem_range] at hj
    have hsn := sfxNote_decode _ i (fun t => sx.getD (i * 68 + t) 0)
      (hdlt i) (hblock i hi) j hj
    show noteBytes (noteFields (sfxNoteWord _ i j)).1
      (noteFields (sfxNoteWord _ i j)).2.1
      (noteFields (sfxNoteWord _ i j)).2.2.1
      (noteFields (sfxNoteWord _ i j)).2.2.2 = _
    have h1 : (noteFields (sfxNoteWord ((List.range count).flatMap
        (fun line => [sx.getD (line * 68 + 64) 0, sx.getD (line * 68 + 65) 0,
          sx.getD (line * 68 + 66) 0, sx.getD (line * 68 + 67) 0] ++
          sfxArea (fun j => sx.getD (line * 68 + j) 0))) i j)).1 =
        sx.getD (i * 68 + 2 * j) 0 &&& 0x3f := by rw [hsn]
    have h2 : (noteFields (sfxNoteWord ((List.range count).flatMap
        (fun line => [sx.getD (line * 68 + 64) 0, sx.getD (line * 68 + 65) 0,
          sx.getD (line * 68 + 66) 0, sx.getD (line * 68 + 67) 0] ++
          sfxArea (fun j => sx.getD (line * 68 + j) 0))) i j)).2.1 =
        ((sx.getD (i * 68 + (2 * j + 1)) 0 <<< 2) &&& 0x4) |||
          (sx.getD (i * 68 + 2 * j) 0 >>> 6) := by rw [hsn]
    have h3 : (noteFields (sfxNoteWord ((List.range count).flatMap
        (fun line => [sx.getD (line * 68 + 64) 0, sx.getD (line * 68 + 65) 0,
          sx.getD (line * 68 + 66) 0, sx.getD (line * 68 + 67) 0] ++
          sfxArea (fun j => sx.getD (line * 68 + j) 0))) i j)).2.2.1 =
        (sx.getD (i * 68 + (2 * j + 1)) 0 >>> 1) &&& 0x7 := by rw [hsn]
    have h4 : (noteFields (sfxNoteWord ((List.range count).flatMap
        (fun line => [sx.getD (line * 68 + 64) 0, sx.getD (line * 68 + 65) 0,
          sx.getD (line * 68 + 66) 0, sx.getD (line * 68 + 67) 0] ++
          sfxArea (fun j => sx.getD (line * 68 + j) 0))) i j)).2.2.2 =
        (sx.getD (i * 68 + (2 * j + 1)) 0 >>> 4) &&& 0xf := by rw [hsn]
    rw [h1, h2, h3, h4,
      noteBytes_extract _ _ (getD_lt_256 sx hsx _) (getD_lt_256 sx hsx _)]
    have e1 : i * 68 + (2 * j + 1) = i * 68 + 2 * j + 1 := by ring
    rw [e1]
  rw [hnotes]
  have e0 := hblock i hi 0 (by omega)
  have e1 := hblock i hi 1 (by omega)
  have e2 := hblock i hi 2 (by omega)
  have e3 := hblock i hi 3 (by omega)
  rw [Nat.add_zero] at e0
  rw [e0, e1, e2, e3]
  have c0 : ([sx.getD (i * 68 + 64) 0, sx.getD (i * 68 + 65) 0,
      sx.getD (i * 68 + 66) 0, sx.getD (i * 68 + 67) 0] ++
      sfxArea (fun j => sx.getD (i * 68 + j) 0)).getD 0 0 =
      sx.getD (i * 68 + 64) 0 := rfl
  have c1 : ([sx.getD (i * 68 + 64) 0, sx.getD (i * 68 + 65) 0,
      sx.getD (i * 68 + 66) 0, sx.getD (i * 68 + 67) 0] ++
      sfxArea (fun j => sx.getD (i * 68 + j) 0)).getD 1 0 =
      sx.getD (i * 68 + 65) 0 := rfl
  have c2 : ([sx.getD (i * 68 + 64) 0, sx.getD (i * 68 + 65) 0,
      sx.getD (i * 68 + 66) 0, sx.getD (i * 68 + 67) 0] ++
      sfxArea (fun j => sx.getD (i * 68 + j) 0)).getD 2 0 =
      sx.getD (i * 68 + 66) 0 := rfl
  have c3 : ([sx.getD (i * 68 + 64) 0, sx.getD (i * 68 + 65) 0,
      sx.getD (i * 68 + 66) 0, sx.getD (i * 68 + 67) 0] ++
      sfxArea (fun j => sx.getD (i * 68 + j) 0)).getD 3 0 =
      sx.getD (i * 68 + 67) 0 := rfl
  rw [c0, c1, c2, c3]
  have hsplit68 : (sx.drop (i * 68)).take 68 =
      (sx.drop (i * 68)).take 64 ++ ((sx.drop (i * 68)).drop 64).take 4 := by
    rw [← List.take_add]
  rw [hsplit68, List.drop_drop]
  congr 1
  rw [← slice_map_getD sx (i * 68 + 64) 4 (by omega)]
  show _ = [sx.getD (i * 68 + 64 + 0) 0, sx.getD (i * 68 + 64 + 1) 0,
    sx.getD (i * 68 + 64 + 2) 0, sx.getD (i * 68 + 64 + 3) 0]
  simp only [List.cons.injEq]

theorem songRegion_reconstruct (sg : List Nat) (hsg : ∀ b ∈ sg, b < 256)
    (hlen : sg.length = 0x100) (count : Nat) (hcount : count ≤ 64) :
    songRegion ((List.range count).flatMap (fun line =>
      decodeHex false (musicLineBody (fun k => sg.getD (line * 4 + k) 0)))) =
      sg.take (4 * count) ++ List.replicate (0x100 - 4 * count) 0 := by
  have hdlt : ∀ line k : Nat, (fun k => sg.getD (line * 4 + k) 0) k < 256 :=
    fun line k => getD_lt_256 sg hsg _
  have hdec : ∀ line ∈ List.range count,
      decodeHex false (musicLineBody (fun k => sg.getD (line * 4 + k) 0)) =
        [musicFlags (fun k => sg.getD (line * 4 + k) 0),
         songSfx (sg.getD (line * 4 + 0) 0),
         songSfx (sg.getD (line * 4 + 1) 0),
         songSfx (sg.getD (line * 4 + 2) 0),
         songSfx (sg.getD (line * 4 + 3) 0)] := by
    intro line _
    exact musicLine_decode _ (hdlt line 0) (hdlt line 1) (hdlt line 2)
      (hdlt line 3)
  rw [flatMap_congr_mem _ _ _ hdec]
  have hflen : ∀ t : Nat, t < count →
      ([musicFlags (fun k => sg.getD (t * 4 + k) 0),
        songSfx (sg.getD (t * 4 + 0) 0), songSfx (sg.getD (t * 4 + 1) 0),
        songSfx (sg.getD (t * 4 + 2) 0),
        songSfx (sg.getD (t * 4 + 3) 0)]).length = 5 := fun t _ => rfl
  have hBlen : ((List.range count).flatMap (fun line =>
      [musicFlags (fun k => sg.getD (line * 4 + k) 0),
       songSfx (sg.getD (line * 4 + 0) 0), songSfx (sg.getD (line * 4 + 1) 0),
       songSfx (sg.getD (line * 4 + 2) 0),
       songSfx (sg.getD (line * 4 + 3) 0)])).length = count * 5 :=
    flatMap_range_length count 5 _ hflen
  have hB : ∀ i, i < count → ∀ x, x < 5 →
      ((List.range count).flatMap (fun line =>
        [musicFlags (fun k => sg.getD (line * 4 + k) 0),
         songSfx (sg.getD (line * 4 + 0) 0),
         songSfx (sg.getD (line * 4 + 1) 0),
         songSfx (sg.getD (line * 4 + 2) 0),
         songSfx (sg.getD (line * 4 + 3) 0)])).getD (i * 5 + x) 0 =
      ([musicFlags (fun k => sg.getD (i * 4 + k) 0),
        songSfx (sg.getD (i * 4 + 0) 0), songSfx (sg.getD (i * 4 + 1) 0),
        songSfx (sg.getD (i * 4 + 2) 0),
        songSfx (sg.getD (i * 4 + 3) 0)]).getD x 0 := by
    intro i hi x hx
    rw [flatMap_range_getD count 5 _ hflen (i * 5 + x) (by omega)]
    have hdiv : (i * 5 + x) / 5 = i := by omega
    have hmod : (i * 5 + x) % 5 = x := by omega
    rw [hdiv, hmod]
  rw [songRegion]
  simp only [hBlen]
  have hc1 : count * 5 / 5 = count := by omega
  rw [hc1, Nat.min_eq_right hcount]
  congr 1
  rw [flatMap_congr_mem _ _
    (fun i => (List.range 4).map (fun t => sg.getD (i * 4 + t) 0)) ?hent]
  · have h2 := window_concat_off sg 0 4 count (by omega)
    rw [List.drop_zero] at h2
    simp only [Nat.zero_add] at h2
    exact h2
  intro i hi
  rw [List.mem_range] at hi
  have g0 := hB i hi 0 (by omega)
  rw [Nat.add_zero] at g0
  have g1 := hB i hi 1 (by omega)
  have g2 := hB i hi 2 (by omega)
  have g3 := hB i hi 3 (by omega)
  have g4 := hB i hi 4 (by omega)
  show musicDecode _ _ _ _ _ = _
  rw [g0, g1, g2, g3, g4]
  have c0 : ([musicFlags (fun k => sg.getD (i * 4 + k) 0),
      songSfx (sg.getD (i * 4 + 0) 0), songSfx (sg.getD (i * 4 + 1) 0),
      songSfx (sg.getD (i * 4 + 2) 0),
      songSfx (sg.getD (i * 4 + 3) 0)]).getD 0 0 =
      musicFlags (fun k => sg.getD (i * 4 + k) 0) := rfl
  have c1 : ([musicFlags (fun k => sg.getD (i * 4 + k) 0),
      songSfx (sg.getD (i * 4 + 0) 0), songSfx (sg.getD (i * 4 + 1) 0),
      songSfx (sg.getD (i * 4 + 2) 0),
      songSfx (sg.getD (i * 4 + 3) 0)]).getD 1 0 =
      songSfx (sg.getD (i * 4 + 0) 0) := rfl
  have c2 : ([musicFlags (fun k => sg.getD (i * 4 + k) 0),
      songSfx (sg.getD (i * 4 + 0) 0), songSfx (sg.getD (i * 4 + 1) 0),
      songSfx (sg.getD (i * 4 + 2) 0),
      songSfx (sg.getD (i * 4 + 3) 0)]).getD 2 0 =
      songSfx (sg.getD (i * 4 + 1) 0) := rfl
  have c3 : ([musicFlags (fun k => sg.getD (i * 4 + k) 0),
      songSfx (sg.getD (i * 4 + 0) 0), songSfx (sg.getD (i * 4 + 1) 0),
      songSfx (sg.getD (i * 4 + 2) 0),
      songSfx (sg.getD (i * 4 + 3) 0)]).getD 3 0 =
      songSfx (sg.getD (i * 4 + 2) 0) := rfl
  have c4 : ([musicFlags (fun k => sg.getD (i * 4 + k) 0),
      songSfx (sg.getD (i * 4 + 0) 0), songSfx (sg.getD (i * 4 + 1) 0),
      songSfx (sg.getD (i * 4 + 2) 0),
      songSfx (sg.getD (i * 4 + 3) 0)]).getD 4 0 =
      songSfx (sg.getD (i * 4 + 3) 0) := rfl
  rw [c0, c1, c2, c3, c4,
    musicDecode_reconstruct (fun k => sg.getD (i * 4 + k) 0) (hdlt i 0)
      (hdlt i 1) (hdlt i 2) (hdlt i 3)]
  rfl

/-! ## Round trip groundwork: section chunk processing -/

theorem processChunk_gfx (r : Reader) (sec : PSection) (count : Nat)
    (content : Nat → List Nat) (L2 : List (List Nat × Bool))
    (hm : ∀ x, markerOf (content x) = none) :
    processLines r sec
      ((if count = 0 then [] else (asc "__gfx__", true) ::
        (List.range count).map (fun line => (content line, true))) ++ L2) =
      processLines
        { r with gfx := r.gfx ++
            (List.range count).flatMap (fun line => decodeHex true (content line ++ [10])) }
        (if count = 0 then sec else .gfx) L2 := by
  rcases count with _ | n
  · simp
  · rw [if_neg (Nat.succ_ne_zero n), if_neg (Nat.succ_ne_zero n),
      List.cons_append, processLines_marker r sec _ true _ markerOf_gfx,
      dispatch_gfx,
      processRun_gfx content (List.range (n + 1)) r L2 (fun x _ => hm x)]

theorem processChunk_gff (r : Reader) (sec : PSection) (count : Nat)
    (content : Nat → List Nat) (L2 : List (List Nat × Bool))
    (hm : ∀ x, markerOf (content x) = none) :
    processLines r sec
      ((if count = 0 then [] else (asc "__gff__", true) ::
        (List.range count).map (fun line => (content line, true))) ++ L2) =
      processLines
        { r with gff := r.gff ++
            (List.range count).flatMap (fun line => decodeHex false (content line ++ [10])) }
        (if count = 0 then sec else .gff) L2 := by
  rcases count with _ | n
  · simp
  · rw [if_neg (Nat.succ_ne_zero n), if_neg (Nat.succ_ne_zero n),
      List.cons_append, processLines_marker r sec _ true _ markerOf_gff,
      dispatch_gff,
      processRun_gff content (List.range (n + 1)) r L2 (fun x _ => hm x)]

theorem processChunk_map (r : Reader) (sec : PSection) (count : Nat)
    (content : Nat → List Nat) (L2 : List (List Nat × Bool))
    (hm : ∀ x, markerOf (content x) = none) :
    processLines r sec
      ((if count = 0 then [] else (asc "__map__", true) ::
        (List.range count).map (fun line => (content line, true))) ++ L2) =
      processLines
        { r with map := r.map ++
            (List.range count).flatMap (fun line => decodeHex false (content line ++ [10])) }
        (if count = 0 then sec else .map) L2 := by
  rcases count with _ | n
  · simp
  · rw [if_neg (Nat.succ_ne_zero n), if_neg (Nat.succ_ne_zero n),
      List.cons_append, processLines_marker r sec _ true _ markerOf_map,
      dispatch_map,
      processRun_map content (List.range (n + 1)) r L2 (fun x _ => hm x)]

theorem processChunk_sfx (r : Reader) (sec : PSection) (count : Nat)
    (content : Nat → List Nat) (L2 : List (List Nat × Bool))
    (hm : ∀ x, markerOf (content x) = none) :
    processLines r sec
      ((if count = 0 then [] else (asc "__sfx__", true) ::
        (List.range count).map (fun line => (content line, true))) ++ L2) =
      processLines
        { r with sfx := r.sfx ++
            (List.range count).flatMap (fun line => decodeHex false (content line ++ [10])) }
        (if count = 0 then sec else .sfx) L2 := by
  rcases count with _ | n
  · simp
  · rw [if_neg (Nat.succ_ne_zero n), if_neg (Nat.succ_ne_zero n),
      List.cons_append, processLines_marker r sec _ true _ markerOf_sfx,
      dispatch_sfx,
      processRun_sfx content (List.range (n + 1)) r L2 (fun x _ => hm x)]

theorem processChunk_mus (r : Reader) (sec : PSection) (count : Nat)
    (content : Nat → List Nat) (L2 : List (List Nat × Bool))
    (hm : ∀ x, markerOf (content x) = none) :
    processLines r sec
      ((if count = 0 then [] else (asc "__music__", true) ::
        (List.range count).map (fun line => (content line, true))) ++ L2) =
      processLines
        { r with mus := r.mus ++
            (List.range count).flatMap (fun line => decodeHex false (content line ++ [10])) }
        (if count = 0 then sec else .mus) L2 := by
  rcases count with _ | n
  · simp
  · rw [if_neg (Nat.succ_ne_zero n), if_neg (Nat.succ_ne_zero n),
      List.cons_append, processLines_marker r sec _ true _ markerOf_music,
      dispatch_music,
      processRun_mus content (List.range (n + 1)) r L2 (fun x _ => hm x)]

theorem getLast?_append_10 (A B : List Nat) (h : B.getLast? = some 10) :
    (A ++ B).getLast? = some 10 := by
  have hB : B ≠ [] := by
    intro hB
    rw [hB] at h
    simp at h
  rw [List.getLast?_append_of_ne_nil A hB, h]

/-- Shape of the saved container: a fixed header, the script line
block (newline-terminated exactly as the writer emits it), the section
texts and a final newline. -/
theorem saveP8_shape (c : Cart)
    (hcode : ∀ l ∈ splitEol (c.code ++ [10]), markerOf l.1 = none) :
    ∃ code2 : List Nat,
      saveP8 c = asc "pico-8 cartridge // http://www.pico-8.com\nversion 8\n" ++
          asc "__lua__" ++ [10] ++ code2 ++ saveGfxLines c.rom.gfx ++
          saveLabelLines c.label ++ saveGffLines c.rom.gfx_props ++
          saveMapLines c.rom.map ++ saveSfxLines c.rom.sfx ++
          saveMusicLines c.rom.song ++ [10] ∧
      (code2 = [] ∨ code2.getLast? = some 10) ∧
      (∀ l ∈ splitEol code2, markerOf l.1 = none) := by
  by_cases hc0 : c.code = []
  · refine ⟨[], ?_, Or.inl rfl, by intro l hl; simp [splitEol, splitEolGo] at hl⟩
    simp only [saveP8, pico8_to_utf8, hc0, List.append_nil]
    rw [if_neg (fun hne => hne (by decide))]
    rfl
  · by_cases hc1 : c.code.getLast? = some 10
    · refine ⟨c.code, ?_, Or.inr hc1, ?_⟩
      · simp only [saveP8, pico8_to_utf8]
        rw [if_neg (fun hne => hne (by
          rw [List.getLast?_append_of_ne_nil _ hc0]
          exact hc1))]
        rfl
      · intro l hl
        exact hcode l (by
          rw [splitEol_append _ _ (Or.inr hc1)]
          exact List.mem_append_left _ hl)
    · refine ⟨c.code ++ [10], ?_, Or.inr (by
        rw [List.getLast?_append_of_ne_nil _ (by simp)]
        rfl), fun l hl => hcode l hl⟩
      simp only [saveP8, pico8_to_utf8]
      rw [if_pos (by
        rw [List.getLast?_append_of_ne_nil _ hc0]
        exact hc1)]
      rfl

/-! ## Round trip groundwork: splitting each saved section -/

theorem splitEol_nil : splitEol [] = [] := by
  rw [splitEol, splitEolGo]
  rfl

theorem splitEol_single_lf : splitEol [10] = [([], true)] := by
  rw [show ([10] : List Nat) = [] ++ 10 :: [] from rfl,
    splitEol_line [] (by simp), splitEol_nil]

theorem hex2_chars (v b : Nat) (hb : b ∈ hex2 v) : b ≠ 10 ∧ b ≠ 13 := by
  rw [hex2] at hb
  simp only [List.mem_cons, List.not_mem_nil, or_false] at hb
  rcases hb with hb | hb
  · exact ⟨hb ▸ (hexDigitCh_ne _).1, hb ▸ (hexDigitCh_ne _).2.1⟩
  · exact ⟨hb ▸ (hexDigitCh_ne _).1, hb ▸ (hexDigitCh_ne _).2.1⟩

theorem splitEol_saveGfx (g : List Nat) (rest : List Nat) :
    splitEol (saveGfxLines g ++ rest) =
      (if lineCount g 64 = 0 then [] else (asc "__gfx__", true) ::
        (List.range (lineCount g 64)).map
          (fun line => (gfxContent g line, true))) ++
      splitEol rest := by
  rw [saveGfxLines]
  refine splitEol_section _ _ _ _
    (fun line => by
      rw [show asc "__gfx__\n" = asc "__gfx__" ++ [10] from by decide]
      rfl)
    (by decide) ?_ rest
  intro x b hb
  simp only [gfxContent, List.mem_flatMap] at hb
  obtain ⟨i, _, hbi⟩ := hb
  exact hex2_chars _ b hbi

theorem splitEol_saveGff (pr : List Nat) (rest : List Nat) :
    splitEol (saveGffLines pr ++ rest) =
      (if lineCount pr 128 = 0 then [] else (asc "__gff__", true) ::
        (List.range (lineCount pr 128)).map
          (fun line => (hexContent pr line, true))) ++
      splitEol rest := by
  rw [saveGffLines]
  refine splitEol_section _ _ _ _
    (fun line => by
      rw [show asc "__gff__\n" = asc "__gff__" ++ [10] from by decide]
      rfl)
    (by decide) ?_ rest
  intro x b hb
  simp only [hexContent, List.mem_flatMap] at hb
  obtain ⟨i, _, hbi⟩ := hb
  exact hex2_chars _ b hbi

theorem splitEol_saveMap (mp : List Nat) (rest : List Nat) :
    splitEol (saveMapLines mp ++ rest) =
      (if lineCount mp 128 = 0 then [] else (asc "__map__", true) ::
        (List.range (lineCount mp 128)).map
          (fun line => (hexContent mp line, true))) ++
      splitEol rest := by
  rw [saveMapLines]
  refine splitEol_section _ _ _ _
    (fun line => by
      rw [show asc "__map__\n" = asc "__map__" ++ [10] from by decide]
      rfl)
    (by decide) ?_ rest
  intro x b hb
  simp only [hexContent, List.mem_flatMap] at hb
  obtain ⟨i, _, hbi⟩ := hb
  exact hex2_chars _ b hbi

theorem splitEol_saveSfx (sx : List Nat) (rest : List Nat) :
    splitEol (saveSfxLines sx ++ rest) =
      (if lineCount sx 68 = 0 then [] else (asc "__sfx__", true) ::
        (List.range (lineCount sx 68)).map
          (fun line => (sfxContent sx line, true))) ++
      splitEol rest := by
  rw [saveSfxLines]
  refine splitEol_section _ _ _ _
    (fun line => by
      rw [show asc "__sfx__\n" = asc "__sfx__" ++ [10] from by decide]
      rfl)
    (by decide) ?_ rest
  intro x b hb
  simp only [sfxContent, List.mem_append, List.mem_flatMap, List.mem_cons,
    List.not_mem_nil, or_false] at hb
  rcases hb with ((((hb | hb) | hb) | hb) | ⟨t, _, hb⟩)
  · exact hex2_chars _ b hb
  · exact hex2_chars _ b hb
  · exact hex2_chars _ b hb
  · exact hex2_chars _ b hb
  · rcases hb with hb | (hb | hb | hb)
    · exact hex2_chars _ b hb
    · exact ⟨hb ▸ (hexDigitCh_ne _).1, hb ▸ (hexDigitCh_ne _).2.1⟩
    · exact ⟨hb ▸ (hexDigitCh_ne _).1, hb ▸ (hexDigitCh_ne _).2.1⟩
    · exact ⟨hb ▸ (hexDigitCh_ne _).1, hb ▸ (hexDigitCh_ne _).2.1⟩

theorem splitEol_saveMusic (sg : List Nat) (rest : List Nat) :
    splitEol (saveMusicLines sg ++ rest) =
      (if lineCount sg 4 = 0 then [] else (asc "__music__", true) ::
        (List.range (lineCount sg 4)).map
          (fun line => (musContent sg line, true))) ++
      splitEol rest := by
  rw [saveMusicLines]
  refine splitEol_section _ _ _ _
    (fun line => by
      rw [show asc "__music__\n" = asc "__music__" ++ [10] from by decide]
      rfl)
    (by decide) ?_ rest
  intro x b hb
  simp only [musContent, List.mem_append, List.mem_cons, List.not_mem_nil,
    or_false] at hb
  rcases hb with ((((hb | hb) | hb) | hb) | hb) | hb
  · exact hex2_chars _ b hb
  · subst hb
    exact ⟨by omega, by omega⟩
  · exact hex2_chars _ b hb
  · exact hex2_chars _ b hb
  · exact hex2_chars _ b hb
  · exact hex2_chars _ b hb

theorem splitEol_saveLabel_pos (lbl : List Nat) (h : 16384 ≤ lbl.length)
    (rest : List Nat) :
    splitEol (saveLabelLines lbl ++ rest) =
      (asc "__label__", true) ::
        ((List.range 128).map (fun r => (labelRowChars lbl r, true)) ++
          ([], true) :: splitEol rest) := by
  have h10 : splitEol (10 :: rest) = ([], true) :: splitEol rest :=
    splitEol_line [] (by simp) rest
  rw [saveLabelLines, if_pos (show LABEL_WIDTH * LABEL_HEIGHT ≤ lbl.length
    from h)]
  simp only [LABEL_WIDTH, LABEL_HEIGHT]
  rw [labelBody_rows,
    show asc "__label__\n" = asc "__label__" ++ [10] from by decide]
  simp only [List.append_assoc, List.singleton_append, List.cons_append,
    List.nil_append]
  rw [splitEol_line (asc "__label__") (by decide)]
  rw [splitEol_lines (List.range 128) (labelRowChars lbl)
      (fun r _ => labelRow_char_ne lbl r) (10 :: rest), h10]

theorem splitEol_saveLabel_neg (lbl : List Nat) (h : ¬ 16384 ≤ lbl.length) :
    saveLabelLines lbl = [] := by
  rw [saveLabelLines, if_neg (show ¬ LABEL_WIDTH * LABEL_HEIGHT ≤ lbl.length
    from h)]

/-! ## Round trip groundwork: data lines are not markers -/

theorem markerOf_gfxContent (g : List Nat) (x : Nat) :
    markerOf (gfxContent g x) = none := by
  have h64 : List.range 64 = 0 :: (List.range 63).map Nat.succ :=
    List.range_succ_eq_map 63
  rw [gfxContent, h64, List.flatMap_cons]
  exact markerOf_hex2_head _ _

theorem markerOf_hexContent (bs : List Nat) (x : Nat) :
    markerOf (hexContent bs x) = none := by
  have h128 : List.range 128 = 0 :: (List.range 127).map Nat.succ :=
    List.range_succ_eq_map 127
  rw [hexContent, h128, List.flatMap_cons]
  exact markerOf_hex2_head _ _

theorem markerOf_sfxContent (sx : List Nat) (x : Nat) :
    markerOf (sfxContent sx x) = none := by
  rw [sfxContent]
  simp only [List.append_assoc]
  exact markerOf_hex2_head _ _

theorem markerOf_musContent (sg : List Nat) (x : Nat) :
    markerOf (musContent sg x) = none := by
  rw [musContent]
  simp only [List.append_assoc]
  exact markerOf_hex2_head _ _

/-! ## The parse of a saved cartridge -/

set_option maxHeartbeats 4000000 in
/-- Parsing the text save_p8 emits recovers version 8 and one decoded
buffer per section, each the concatenation of its emitted lines'
decodings. -/
theorem parse_save (c : Cart)
    (hcode : ∀ l ∈ splitEol (c.code ++ [10]), markerOf l.1 = none) :
    (parseP8 (saveP8 c)).version = 8 ∧
    (parseP8 (saveP8 c)).gfx =
      (List.range (lineCount c.rom.gfx 64)).flatMap (fun line =>
        decodeHex true (gfxContent c.rom.gfx line ++ [10])) ∧
    (parseP8 (saveP8 c)).gff =
      (List.range (lineCount c.rom.gfx_props 128)).flatMap (fun line =>
        decodeHex false (hexContent c.rom.gfx_props line ++ [10])) ∧
    (parseP8 (saveP8 c)).map =
      (List.range (lineCount c.rom.map 128)).flatMap (fun line =>
        decodeHex false (hexContent c.rom.map line ++ [10])) ∧
    (parseP8 (saveP8 c)).sfx =
      (List.range (lineCount c.rom.sfx 68)).flatMap (fun line =>
        decodeHex false (sfxContent c.rom.sfx line ++ [10])) ∧
    (parseP8 (saveP8 c)).mus =
      (List.range (lineCount c.rom.song 4)).flatMap (fun line =>
        decodeHex false (musContent c.rom.song line ++ [10])) := by
  obtain ⟨code2, hsave, hlast2, hlines2⟩ := saveP8_shape c hcode
  rw [hsave]
  simp only [List.append_assoc]
  rw [parseP8_header]
  simp only [List.singleton_append]
  rw [splitEol_line (asc "__lua__") (by decide),
    splitEol_append code2 _ hlast2,
    splitEol_saveGfx]
  by_cases hlab : 16384 ≤ c.label.length
  · rw [splitEol_saveLabel_pos c.label hlab,
      splitEol_saveGff, splitEol_saveMap, splitEol_saveSfx, splitEol_saveMusic,
      splitEol_single_lf]
    rw [processLines_marker _ _ _ _ _ markerOf_lua, dispatch_lua,
      processRun_lua (splitEol code2) _ _ hlines2,
      processChunk_gfx _ _ _ _ _ (markerOf_gfxContent c.rom.gfx),
      processLines_marker _ _ _ _ _ markerOf_label, dispatch_label,
      processRun_lab (labelRowChars c.label) (List.range 128) _ _
        (fun r _ => markerOf_labelRow c.label r),
      processLines_data _ _ _ _ _ markerOf_nil,
      processChunk_gff _ _ _ _ _ (markerOf_hexContent c.rom.gfx_props),
      processChunk_map _ _ _ _ _ (markerOf_hexContent c.rom.map),
      processChunk_sfx _ _ _ _ _ (markerOf_sfxContent c.rom.sfx),
      processChunk_mus _ _ _ _ _ (markerOf_musContent c.rom.song),
      processLines_data _ _ _ _ _ markerOf_nil,
      show (lineChars [] true : List Nat) = [10] from rfl,
      processLines]
    refine ⟨?_, ?_, ?_, ?_, ?_, ?_⟩
    · rw [(appendData_rom_fields _ _).2.2.2.2.2]
      rfl
    · rw [(appendData_rom_fields _ _).1]
      show [] ++ _ = _
      rw [List.nil_append]
    · rw [(appendData_rom_fields _ _).2.1]
      show [] ++ _ = _
      rw [List.nil_append]
    · rw [(appendData_rom_fields _ _).2.2.1]
      show [] ++ _ = _
      rw [List.nil_append]
    · rw [(appendData_rom_fields _ _).2.2.2.1]
      show [] ++ _ = _
      rw [List.nil_append]
    · rw [(appendData_rom_fields _ _).2.2.2.2.1]
      show [] ++ _ = _
      rw [List.nil_append]
  · rw [splitEol_saveLabel_neg c.label hlab, List.nil_append,
      splitEol_saveGff, splitEol_saveMap, splitEol_saveSfx, splitEol_saveMusic,
      splitEol_single_lf]
    rw [processLines_marker _ _ _ _ _ markerOf_lua, dispatch_lua,
      processRun_lua (splitEol code2) _ _ hlines2,
      processChunk_gfx _ _ _ _ _ (markerOf_gfxContent c.rom.gfx),
      processChunk_gff _ _ _ _ _ (markerOf_hexContent c.rom.gfx_props),
      processChunk_map _ _ _ _ _ (markerOf_hexContent c.rom.map),
      processChunk_sfx _ _ _ _ _ (markerOf_sfxContent c.rom.sfx),
      processChunk_mus _ _ _ _ _ (markerOf_musContent c.rom.song),
      processLines_data _ _ _ _ _ markerOf_nil,
      show (lineChars [] true : List Nat) = [10] from rfl,
      processLines]
    refine ⟨?_, ?_, ?_, ?_, ?_, ?_⟩
    · rw [(appendData_rom_fields _ _).2.2.2.2.2]
    · rw [(appendData_rom_fields _ _).1]
      show [] ++ _ = _
      rw [List.nil_append]
    · rw [(appendData_rom_fields _ _).2.1]
      show [] ++ _ = _
      rw [List.nil_append]
    · rw [(appendData_rom_fields _ _).2.2.1]
      show [] ++ _ = _
      rw [List.nil_append]
    · rw [(appendData_rom_fields _ _).2.2.2.1]
      show [] ++ _ = _
      rw [List.nil_append]
    · rw [(appendData_rom_fields _ _).2.2.2.2.1]
      show [] ++ _ = _
      rw [List.nil_append]

/-! ## C1: save/load round trip on the text format (corrected)

The claim quantifies over every cartridge whose non-serialised regions
are zero.  It fails as stated: the script text is written verbatim
between the `__lua__` marker and the next section, so a script LINE
that is itself a section-marker line (for instance a line reading
`__gfx__`) switches the reader's section mid-script and the data after
it is decoded into that section's buffer, corrupting the reloaded rom
(see the counterexample).  Under the amended hypothesis that no line
of the emitted script block is a section-marker line, the round trip
is exact: every region is restored byte for byte, the trimmed tails
being rebuilt as the zeros they were. -/

set_option maxHeartbeats 1000000 in
/-- C1 (amended): for every cartridge whose memory-layout regions
outside the serialisable sections are zero and whose script text
contains no section-marker line, saving with save_p8 and reloading the
produced text with load_p8 succeeds and yields a memory layout equal
to the original (trimmed regions compare equal to all-zero, which is
what they already were). -/
theorem save_load_roundtrip (c c0 : Cart) (hwf : c.rom.wf)
    (hud : c.rom.user_data = List.replicate 0x1b00 0)
    (hpers : c.rom.persistent = List.replicate 0x100 0)
    (hdraw : c.rom.draw_state = List.replicate 0x40 0)
    (hhw : c.rom.hw_state = List.replicate 0x40 0)
    (hgpio : c.rom.gpio_pins = List.replicate 0x80 0)
    (hscr : c.rom.screen = List.replicate 0x2000 0)
    (hcode : ∀ l ∈ splitEol (c.code ++ [10]), markerOf l.1 = none) :
    (loadP8 c0 (some (saveP8 c))).1 = true ∧
    (loadP8 c0 (some (saveP8 c))).2.rom = c.rom := by
  obtain ⟨hv, hgfx, hgff, hmap, hsfx, hmus⟩ := parse_save c hcode
  have hb1 : 64 * lineCount c.rom.gfx 64 ≤ c.rom.gfx.length := by
    rcases lineCount_bound c.rom.gfx 64 with h0 | ⟨i, hi, he⟩
    · rw [h0]
      omega
    · rw [he, hwf.gfx_len]
      rw [hwf.gfx_len] at hi
      omega
  have hb2 : 128 * lineCount c.rom.gfx_props 128 ≤ c.rom.gfx_props.length := by
    rcases lineCount_bound c.rom.gfx_props 128 with h0 | ⟨i, hi, he⟩
    · rw [h0]
      omega
    · rw [he, hwf.props_len]
      rw [hwf.props_len] at hi
      omega
  have hb4 : 128 * lineCount c.rom.map 128 ≤ c.rom.map.length := by
    rcases lineCount_bound c.rom.map 128 with h0 | ⟨i, hi, he⟩
    · rw [h0]
      omega
    · rw [he, hwf.map_len]
      rw [hwf.map_len] at hi
      omega
  have hk5 : lineCount c.rom.sfx 68 ≤ 64 := by
    rcases lineCount_bound c.rom.sfx 68 with h0 | ⟨i, hi, he⟩
    · omega
    · rw [he]
      rw [hwf.sfx_len] at hi
      omega
  have hk6 : lineCount c.rom.song 4 ≤ 64 := by
    rcases lineCount_bound c.rom.song 4 with h0 | ⟨i, hi, he⟩
    · omega
    · rw [he]
      rw [hwf.song_len] at hi
      omega
  have hload : loadP8 c0 (some (saveP8 c)) =
      if (parseP8 (saveP8 c)).version < 0 then (false, c0)
      else (true, loadP8Pack (parseP8 (saveP8 c))) := rfl
  rw [hload, hv, if_neg (by norm_num)]
  refine ⟨rfl, ?_⟩
  show (loadP8Pack (parseP8 (saveP8 c))).rom = c.rom
  have hpack : ∀ r : Reader, (loadP8Pack r).rom =
      { gfx := orMergeMap2
          (memcpyList (List.replicate 0x2000 0) r.gfx (min 0x2000 r.gfx.length))
          r.map,
        map := memcpyList (List.replicate 0x1000 0) r.map
          (min 0x1000 r.map.length),
        gfx_props := memcpyList (List.replicate 0x100 0) r.gff
          (min 0x100 r.gff.length),
        song := songRegion r.mus, sfx := sfxRegion r.sfx,
        user_data := List.replicate 0x1b00 0,
        persistent := List.replicate 0x100 0,
        draw_state := List.replicate 0x40 0,
        hw_state := List.replicate 0x40 0,
        gpio_pins := List.replicate 0x80 0,
        screen := List.replicate 0x2000 0 } := fun r => rfl
  rw [hpack, hgfx, hgff, hmap, hsfx, hmus]
  have hBgfx : (List.range (lineCount c.rom.gfx 64)).flatMap (fun line =>
      decodeHex true (gfxContent c.rom.gfx line ++ [10])) =
      c.rom.gfx.take (64 * lineCount c.rom.gfx 64) := by
    rw [flatMap_congr_mem _
      (fun line => decodeHex true (gfxContent c.rom.gfx line ++ [10]))
      (fun line => decodeHex true (gfxLineBody c.rom.gfx line))
      (fun _ _ => rfl)]
    exact gfxBuffer_eq c.rom.gfx hwf.gfx_lt _ hb1
  have hBgff : (List.range (lineCount c.rom.gfx_props 128)).flatMap (fun line =>
      decodeHex false (hexContent c.rom.gfx_props line ++ [10])) =
      c.rom.gfx_props.take (128 * lineCount c.rom.gfx_props 128) := by
    rw [flatMap_congr_mem _
      (fun line => decodeHex false (hexContent c.rom.gfx_props line ++ [10]))
      (fun line => decodeHex false (hexLineBody c.rom.gfx_props line))
      (fun _ _ => rfl)]
    exact hexBuffer_eq c.rom.gfx_props hwf.props_lt _ hb2
  have hBmap : (List.range (lineCount c.rom.map 128)).flatMap (fun line =>
      decodeHex false (hexContent c.rom.map line ++ [10])) =
      c.rom.map.take (128 * lineCount c.rom.map 128) := by
    rw [flatMap_congr_mem _
      (fun line => decodeHex false (hexContent c.rom.map line ++ [10]))
      (fun line => decodeHex false (hexLineBody c.rom.map line))
      (fun _ _ => rfl)]
    exact hexBuffer_eq c.rom.map hwf.map_lt _ hb4
  have hRsfx : sfxRegion ((List.range (lineCount c.rom.sfx 68)).flatMap
      (fun line => decodeHex false (sfxContent c.rom.sfx line ++ [10]))) =
      c.rom.sfx := by
    rw [flatMap_congr_mem _
      (fun line => decodeHex false (sfxContent c.rom.sfx line ++ [10]))
      (fun line => decodeHex false
        (sfxLineBody (fun j => c.rom.sfx.getD (line * 68 + j) 0)))
      (fun _ _ => rfl),
      sfxRegion_reconstruct c.rom.sfx hwf.sfx_lt hwf.sfx_len _ hk5]
    have hp := take_pad_eq c.rom.sfx (68 * lineCount c.rom.sfx 68)
      (by
        rcases lineCount_bound c.rom.sfx 68 with h0 | ⟨i, hi, he⟩
        · rw [h0, hwf.sfx_len]
          omega
        · rw [he, hwf.sfx_len]
          rw [hwf.sfx_len] at hi
          omega)
      (lineCount_tail_zero c.rom.sfx 68 (by omega))
    rw [hwf.sfx_len] at hp
    exact hp
  have hRsong : songRegion ((List.range (lineCount c.rom.song 4)).flatMap
      (fun line => decodeHex false (musContent c.rom.song line ++ [10]))) =
      c.rom.song := by
    rw [flatMap_congr_mem _
      (fun line => decodeHex false (musContent c.rom.song line ++ [10]))
      (fun line => decodeHex false
        (musicLineBody (fun k => c.rom.song.getD (line * 4 + k) 0)))
      (fun _ _ => rfl),
      songRegion_reconstruct c.rom.song hwf.song_lt hwf.song_len _ hk6]
    have hp := take_pad_eq c.rom.song (4 * lineCount c.rom.song 4)
      (by
        rcases lineCount_bound c.rom.song 4 with h0 | ⟨i, hi, he⟩
        · rw [h0, hwf.song_len]
          omega
        · rw [he, hwf.song_len]
          rw [hwf.song_len] at hi
          omega)
      (lineCount_tail_zero c.rom.song 4 (by omega))
    rw [hwf.song_len] at hp
    exact hp
  rw [hBgfx, hBgff, hBmap, hRsfx, hRsong]
  have hlen1 : (c.rom.gfx.take (64 * lineCount c.rom.gfx 64)).length =
      64 * lineCount c.rom.gfx 64 := by
    rw [List.length_take]
    omega
  have hmemg : memcpyList (List.replicate 0x2000 0)
      (c.rom.gfx.take (64 * lineCount c.rom.gfx 64))
      (min 0x2000 (c.rom.gfx.take (64 * lineCount c.rom.gfx 64)).length) =
      c.rom.gfx := by
    rw [hlen1, Nat.min_eq_right (by rw [hwf.gfx_len] at hb1; omega),
      memcpyList, List.take_take, Nat.min_self, List.drop_replicate]
    have hp := take_pad_eq c.rom.gfx (64 * lineCount c.rom.gfx 64) hb1
      (lineCount_tail_zero c.rom.gfx 64 (by omega))
    rw [hwf.gfx_len] at hp
    exact hp
  have hlen2 : (c.rom.gfx_props.take
      (128 * lineCount c.rom.gfx_props 128)).length =
      128 * lineCount c.rom.gfx_props 128 := by
    rw [List.length_take]
    omega
  have hmemp : memcpyList (List.replicate 0x100 0)
      (c.rom.gfx_props.take (128 * lineCount c.rom.gfx_props 128))
      (min 0x100 (c.rom.gfx_props.take
        (128 * lineCount c.rom.gfx_props 128)).length) =
      c.rom.gfx_props := by
    rw [hlen2, Nat.min_eq_right (by rw [hwf.props_len] at hb2; omega),
      memcpyList, List.take_take, Nat.min_self, List.drop_replicate]
    have hp := take_pad_eq c.rom.gfx_props
      (128 * lineCount c.rom.gfx_props 128) hb2
      (lineCount_tail_zero c.rom.gfx_props 128 (by omega))
    rw [hwf.props_len] at hp
    exact hp
  have hlen4 : (c.rom.map.take (128 * lineCount c.rom.map 128)).length =
      128 * lineCount c.rom.map 128 := by
    rw [List.length_take]
    omega
  have hmemm : memcpyList (List.replicate 0x1000 0)
      (c.rom.map.take (128 * lineCount c.rom.map 128))
      (min 0x1000 (c.rom.map.take (128 * lineCount c.rom.map 128)).length) =
      c.rom.map := by
    rw [hlen4, Nat.min_eq_right (by rw [hwf.map_len] at hb4; omega),
      memcpyList, List.take_take, Nat.min_self, List.drop_replicate]
    have hp := take_pad_eq c.rom.map (128 * lineCount c.rom.map 128) hb4
      (lineCount_tail_zero c.rom.map 128 (by omega))
    rw [hwf.map_len] at hp
    exact hp
  rw [hmemg, hmemp, hmemm]
  have horm : orMergeMap2 c.rom.gfx
      (c.rom.map.take (128 * lineCount c.rom.map 128)) = c.rom.gfx := by
    rw [orMergeMap2, if_neg (by
      rw [hlen4]
      rw [hwf.map_len] at hb4
      omega)]
  rw [horm]
  conv_rhs => rw [show c.rom = (⟨c.rom.gfx, c.rom.map, c.rom.gfx_props,
    c.rom.song, c.rom.sfx, c.rom.user_data, c.rom.persistent,
    c.rom.draw_state, c.rom.hw_state, c.rom.gpio_pins, c.rom.screen⟩ : Mem)
    from rfl]
  simp only [Mem.mk.injEq, true_and, and_true]
  exact ⟨hud.symm, hpers.symm, hdraw.symm, hhw.symm, hgpio.symm, hscr.symm⟩

theorem getD_replicate_zero (n i : Nat) :
    (List.replicate n (0 : Nat)).getD i 0 = 0 := by
  rw [List.getD_eq_getElem?_getD, List.getElem?_replicate]
  split <;> rfl

/-- C1 witness: the round trip at the all-zero cartridge with an empty
script restores the zero memory layout exactly. -/
theorem save_load_roundtrip_witness :
    (loadP8 ⟨zeroMem, [], []⟩ (some (saveP8 ⟨zeroMem, [], []⟩))).1 = true ∧
    (loadP8 ⟨zeroMem, [], []⟩ (some (saveP8 ⟨zeroMem, [], []⟩))).2.rom =
      zeroMem :=
  save_load_roundtrip ⟨zeroMem, [], []⟩ ⟨zeroMem, [], []⟩ zeroMem_wf rfl rfl
    rfl rfl rfl rfl (by
      show ∀ l ∈ splitEol ([] ++ [10]), markerOf l.1 = none
      rw [List.nil_append, splitEol_single_lf]
      intro l hl
      rw [List.mem_singleton] at hl
      rw [hl]
      exact markerOf_nil)

/-- C1 counterexample: an all-zero cartridge whose script consists of
the line `__gfx__` followed by the line `ff` — every region outside
the serialisable sections is zero, yet reloading its own save writes
0xff into gfx byte 0, because the script line is taken for a section
marker on the way back in. -/
theorem save_load_counterexample :
    (loadP8 ⟨zeroMem, [], []⟩
      (some (saveP8 ⟨zeroMem, asc "__gfx__\nff", []⟩))).2.rom.gfx.getD 0 0 =
      0xff ∧
    zeroMem.gfx.getD 0 0 = 0 := by
  constructor
  · have hsG : saveGfxLines (List.replicate 0x2000 0) = [] := by
      rw [saveGfxLines,
        lineCount_zero_of _ _ (fun i => getD_replicate_zero _ i)]
      rfl
    have hsF : saveGffLines (List.replicate 0x100 0) = [] := by
      rw [saveGffLines,
        lineCount_zero_of _ _ (fun i => getD_replicate_zero _ i)]
      rfl
    have hsM : saveMapLines (List.replicate 0x1000 0) = [] := by
      rw [saveMapLines,
        lineCount_zero_of _ _ (fun i => getD_replicate_zero _ i)]
      rfl
    have hsS : saveSfxLines (List.replicate 0x1100 0) = [] := by
      rw [saveSfxLines,
        lineCount_zero_of _ _ (fun i => getD_replicate_zero _ i)]
      rfl
    have hsU : saveMusicLines (List.replicate 0x100 0) = [] := by
      rw [saveMusicLines,
        lineCount_zero_of _ _ (fun i => getD_replicate_zero _ i)]
      rfl
    have hsL : saveLabelLines [] = [] := by
      rw [saveLabelLines, if_neg (by decide)]
    have hsave : saveP8 ⟨zeroMem, asc "__gfx__\nff", []⟩ =
        asc "pico-8 cartridge // http://www.pico-8.com\nversion 8\n" ++
          (asc "__lua__" ++ 10 :: (asc "__gfx__" ++ 10 ::
            (asc "ff" ++ 10 :: [10]))) := by
      simp only [saveP8, pico8_to_utf8]
      rw [show zeroMem.gfx = List.replicate 0x2000 0 from rfl,
        show zeroMem.gfx_props = List.replicate 0x100 0 from rfl,
        show zeroMem.map = List.replicate 0x1000 0 from rfl,
        show zeroMem.sfx = List.replicate 0x1100 0 from rfl,
        show zeroMem.song = List.replicate 0x100 0 from rfl,
        hsG, hsF, hsM, hsS, hsU, hsL]
      simp only [List.append_nil]
      rw [if_pos (by decide)]
      decide
    rw [hsave,
      show loadP8 (⟨zeroMem, [], []⟩ : Cart)
        (some (asc "pico-8 cartridge // http://www.pico-8.com\nversion 8\n" ++
          (asc "__lua__" ++ 10 :: (asc "__gfx__" ++ 10 ::
            (asc "ff" ++ 10 :: [10]))))) =
        if (parseP8 (asc "pico-8 cartridge // http://www.pico-8.com\nversion 8\n" ++
            (asc "__lua__" ++ 10 :: (asc "__gfx__" ++ 10 ::
              (asc "ff" ++ 10 :: [10]))))).version < 0
        then (false, (⟨zeroMem, [], []⟩ : Cart))
        else (true, loadP8Pack (parseP8
          (asc "pico-8 cartridge // http://www.pico-8.com\nversion 8\n" ++
            (asc "__lua__" ++ 10 :: (asc "__gfx__" ++ 10 ::
              (asc "ff" ++ 10 :: [10])))))) from rfl,
      parseP8_header,
      splitEol_line (asc "__lua__") (by decide),
      splitEol_line (asc "__gfx__") (by decide),
      splitEol_line (asc "ff") (by decide),
      splitEol_single_lf,
      processLines_marker _ _ _ _ _ markerOf_lua, dispatch_lua,
      processLines_marker _ _ _ _ _ markerOf_gfx, dispatch_gfx,
      processLines_data _ _ _ _ _ (by decide : markerOf (asc "ff") = none),
      processLines_data _ _ _ _ _ markerOf_nil,
      processLines,
      if_neg (by decide)]
    decide
  · rfl

end Zepto8
